import Mathlib

/-!
Proxy metric registry (`frp/models/metric/server.go`).

A shallow embedding of the in-memory metric registry of the frp server and a
verification of its daily rolling window and of its mutator API.

Modelling conventions.

* `int64` values are integers, every arithmetic step of the source is followed
  by `wrap64` (two's complement wrap-around, as Go defines it for signed
  overflow).
* A Go slice of record pointers owned by one record is a `List`; an update made
  through a pointer is a write at the pointer's index.
* The map `ServerMetricInfoMap` is an association list read by `mapGet` and
  written by `mapSet`; an update made through a `*ServerMetric` held by the map
  is a `mapSet` at its key.
* `time.Now().Format("20060102")` is an input `now : String` of every function
  that reads the clock.
* In this first embedding every function is one atomic step on values, and a string
  is a text, a sequence of Unicode characters. Further embeddings refine it where a
  property needs more: the section on locks runs the calls as sequences of atomic
  actions under `smMutex` and `ServerMetric.mutex`, the namespace `Ptr` runs them on a
  memory of cells and pointers, and the namespace `Raw` keeps a string as the bytes of
  a Go string, valid UTF-8 or not.
-/

namespace Metric

/-! ## Data model -/

/-- The type `DailyServerStats` of the source: one day bucket. -/
structure DailyServerStats where
  Time : String
  FlowIn : Int
  FlowOut : Int
  TotalAcceptConns : Int
  deriving DecidableEq, Repr

/-- The type `ServerMetric` of the source, without its lock. The field `Type` of
the source is named `ProxyType` here. -/
structure ServerMetric where
  Name : String
  ProxyType : String
  BindAddr : String
  ListenPort : Int
  CustomDomains : List String
  Status : String
  UseEncryption : Bool
  UseGzip : Bool
  PrivilegeMode : Bool
  CurrentConns : Int
  Daily : List DailyServerStats
  deriving DecidableEq, Repr

/-- The state of `ServerMetricInfoMap`: proxy name to record. -/
abbrev Registry := List (String × ServerMetric)

/-- The registry after `init()`: `make(map[string]*ServerMetric)`. -/
def emptyRegistry : Registry := []

/-- The read `m[name]` of a Go map, `none` when `ok` is false. -/
def mapGet : Registry → String → Option ServerMetric
  | [], _ => none
  | (k, m) :: rest, name => if k = name then some m else mapGet rest name

/-- The write `m[name] = v` of a Go map. -/
def mapSet : Registry → String → ServerMetric → Registry
  | [], name, v => [(name, v)]
  | (k, m) :: rest, name, v =>
    if k = name then (name, v) :: rest else (k, m) :: mapSet rest name v

/-- The key set of the map. -/
def mapKeys (reg : Registry) : List String := reg.map Prod.fst

/-- Two's complement wrap-around of a 64-bit signed integer. -/
def wrap64 (x : Int) : Int := (x + 2 ^ 63) % 2 ^ 64 - 2 ^ 63

/-- The value `&DailyServerStats{}` of the source. -/
def zeroDaily : DailyServerStats :=
  { Time := "", FlowIn := 0, FlowOut := 0, TotalAcceptConns := 0 }

/-- The value `&ServerMetric{}` of the source. -/
def zeroMetric : ServerMetric :=
  { Name := "", ProxyType := "", BindAddr := "", ListenPort := 0, CustomDomains := [],
    Status := "", UseEncryption := false, UseGzip := false, PrivilegeMode := false,
    CurrentConns := 0, Daily := [] }

/-! ## The daily window -/

/-- One iteration `dailyData[i] = dailyData[i+1]` of the rotation loop. The loop
only reads indices below `dailyLen`, so the `none` branch is never taken. -/
def shiftStep (dailyData : List DailyServerStats) (i : Nat) : List DailyServerStats :=
  match dailyData[i + 1]? with
  | some d => dailyData.set i d
  | none => dailyData

/-- The loop `for i := 0; i < dailyLen-1; i++ { dailyData[i] = dailyData[i+1] }`. -/
def shiftLoop (dailyLen : Nat) (dailyData : List DailyServerStats) : List DailyServerStats :=
  (List.range (dailyLen - 1)).foldl shiftStep dailyData

/-- The function `DealDailyData` of the source. `keepDays` is the global
`DailyDataKeepDays`, `now` the formatted clock reading, and `fn` the callback, which
receives a pointer to one bucket and is modelled by the bucket it leaves there. The
read `dailyData[dailyLen-1]` is made on a non-empty slice, so its `none` branch is
never taken. -/
def DealDailyData (keepDays : Int) (now : String) (dailyData : List DailyServerStats)
    (fn : DailyServerStats → DailyServerStats) : List DailyServerStats :=
  let dailyLen := dailyData.length
  if dailyLen = 0 then
    let daily := { zeroDaily with Time := now }
    dailyData ++ [fn daily]
  else
    match dailyData[dailyLen - 1]? with
    | none => dailyData
    | some daily =>
      if daily.Time = now then
        dailyData.set (dailyLen - 1) (fn daily)
      else
        let newDaily := fn { zeroDaily with Time := now }
        if (dailyLen : Int) = keepDays then
          (shiftLoop dailyLen dailyData).set (dailyLen - 1) newDaily
        else
          dailyData ++ [newDaily]

/-! ## The registry API -/

/-- The function `SetProxyInfo` of the source. -/
def SetProxyInfo (reg : Registry) (proxyName proxyType bindAddr : String)
    (useEncryption useGzip privilegeMode : Bool) (customDomains : List String)
    (listenPort : Int) : Registry :=
  let info := match mapGet reg proxyName with
    | some info => info
    | none => { zeroMetric with Daily := [] }
  mapSet reg proxyName
    { info with
      Name := proxyName
      ProxyType := proxyType
      UseEncryption := useEncryption
      UseGzip := useGzip
      PrivilegeMode := privilegeMode
      BindAddr := bindAddr
      ListenPort := listenPort
      CustomDomains := customDomains }

/-- The index expression `consts.StatusStr[status]`: Go stops the program with a
run-time error when the index is out of range, which is `none` here. -/
def statusLabel (statusStr : List String) (status : Int) : Option String :=
  if 0 ≤ status then statusStr[status.toNat]? else none

/-- The function `SetStatus` of the source; `none` is a run-time failure.
The table `consts.StatusStr` is declared in package `frp/models/consts`, which is
not part of the sources at hand; it is the parameter `statusStr`, an array of labels
indexed by the status code. -/
def SetStatus (statusStr : List String) (reg : Registry) (proxyName : String)
    (status : Int) : Option Registry :=
  match mapGet reg proxyName with
  | some metric =>
    match statusLabel statusStr status with
    | some label => some (mapSet reg proxyName { metric with Status := label })
    | none => none
  | none => some reg

/-- The callback of `OpenConnection`: `stats.TotalAcceptConns++`. -/
def incAccept (stats : DailyServerStats) : DailyServerStats :=
  { stats with TotalAcceptConns := wrap64 (stats.TotalAcceptConns + 1) }

/-- The callback of `AddFlowIn`: `stats.FlowIn += value`. -/
def addIn (value : Int) (stats : DailyServerStats) : DailyServerStats :=
  { stats with FlowIn := wrap64 (stats.FlowIn + value) }

/-- The callback of `AddFlowOut`: `stats.FlowOut += value`. -/
def addOut (value : Int) (stats : DailyServerStats) : DailyServerStats :=
  { stats with FlowOut := wrap64 (stats.FlowOut + value) }

/-- The function `OpenConnection` of the source. -/
def OpenConnection (keepDays : Int) (now : String) (reg : Registry)
    (proxyName : String) : Registry :=
  match mapGet reg proxyName with
  | some metric =>
    mapSet reg proxyName
      { metric with
        CurrentConns := wrap64 (metric.CurrentConns + 1)
        Daily := DealDailyData keepDays now metric.Daily incAccept }
  | none => reg

/-- The function `CloseConnection` of the source. -/
def CloseConnection (reg : Registry) (proxyName : String) : Registry :=
  match mapGet reg proxyName with
  | some metric =>
    mapSet reg proxyName { metric with CurrentConns := wrap64 (metric.CurrentConns - 1) }
  | none => reg

/-- The function `AddFlowIn` of the source. -/
def AddFlowIn (keepDays : Int) (now : String) (reg : Registry) (proxyName : String)
    (value : Int) : Registry :=
  match mapGet reg proxyName with
  | some metric =>
    mapSet reg proxyName
      { metric with Daily := DealDailyData keepDays now metric.Daily (addIn value) }
  | none => reg

/-- The function `AddFlowOut` of the source. -/
def AddFlowOut (keepDays : Int) (now : String) (reg : Registry) (proxyName : String)
    (value : Int) : Registry :=
  match mapGet reg proxyName with
  | some metric =>
    mapSet reg proxyName
      { metric with Daily := DealDailyData keepDays now metric.Daily (addOut value) }
  | none => reg

/-! ## Call sequences -/

/-- One call of the mutator API; the calls that read the clock carry the reading. -/
inductive Call where
  | setProxyInfo (proxyName proxyType bindAddr : String)
      (useEncryption useGzip privilegeMode : Bool) (customDomains : List String)
      (listenPort : Int)
  | setStatus (proxyName : String) (status : Int)
  | openConnection (now : String) (proxyName : String)
  | closeConnection (proxyName : String)
  | addFlowIn (now : String) (proxyName : String) (value : Int)
  | addFlowOut (now : String) (proxyName : String) (value : Int)
  deriving DecidableEq, Repr

/-- The effect of one call; `none` when the call fails at run time. -/
def step (keepDays : Int) (statusStr : List String) (reg : Registry) : Call → Option Registry
  | .setProxyInfo n t b e g p c l => some (SetProxyInfo reg n t b e g p c l)
  | .setStatus n s => SetStatus statusStr reg n s
  | .openConnection now n => some (OpenConnection keepDays now reg n)
  | .closeConnection n => some (CloseConnection reg n)
  | .addFlowIn now n v => some (AddFlowIn keepDays now reg n v)
  | .addFlowOut now n v => some (AddFlowOut keepDays now reg n v)

/-- The effect of a sequence of calls, from left to right. -/
def run (keepDays : Int) (statusStr : List String) : Registry → List Call → Option Registry
  | reg, [] => some reg
  | reg, c :: cs =>
    match step keepDays statusStr reg c with
    | some reg1 => run keepDays statusStr reg1 cs
    | none => none

/-- The clock readings of a sequence of calls, in order. -/
def clockReadings : List Call → List String
  | [] => []
  | .openConnection now _ :: cs => now :: clockReadings cs
  | .addFlowIn now _ _ :: cs => now :: clockReadings cs
  | .addFlowOut now _ _ :: cs => now :: clockReadings cs
  | _ :: cs => clockReadings cs

/-- The shape shared by the mutators that work on one record: the lookup
`metric, ok := ServerMetricInfoMap[proxyName]`, and, when `ok`, an update of the
record through the pointer `metric`. -/
def withMetric (reg : Registry) (proxyName : String) (f : ServerMetric → ServerMetric) :
    Registry :=
  match mapGet reg proxyName with
  | some metric => mapSet reg proxyName (f metric)
  | none => reg

/-- Whether a call is `OpenConnection(name)`. -/
def isOpenOf (name : String) : Call → Bool
  | .openConnection _ n => n == name
  | _ => false

/-- Whether a call is `CloseConnection(name)`. -/
def isCloseOf (name : String) : Call → Bool
  | .closeConnection n => n == name
  | _ => false

/-- The number of `OpenConnection(name)` calls of a sequence. -/
def openCount (name : String) (cs : List Call) : Nat := cs.countP (isOpenOf name)

/-- The number of `CloseConnection(name)` calls of a sequence. -/
def closeCount (name : String) (cs : List Call) : Nat := cs.countP (isCloseOf name)

/-- The calls of a sequence made after the first `SetProxyInfo(name, ...)`. -/
def sinceRegistered (name : String) : List Call → List Call
  | [] => []
  | .setProxyInfo n _ _ _ _ _ _ _ :: cs => if n = name then cs else sinceRegistered name cs
  | _ :: cs => sinceRegistered name cs

/-- A property of every record of the registry, given its key. -/
def AllRecords (P : String → ServerMetric → Prop) (reg : Registry) : Prop :=
  ∀ k m, (k, m) ∈ reg → P k m

/-- Whether a call is `OpenConnection(name)` made while the clock reads `day`. -/
def isOpenOn (name day : String) : Call → Bool
  | .openConnection now n => n == name && now == day
  | _ => false

/-- The number of `OpenConnection(name)` calls of a sequence made while the clock
reads `day`. -/
def openCountOn (name day : String) (cs : List Call) : Nat := cs.countP (isOpenOn name day)

/-- What a call does to the `Daily` of the record of `name`, when that record is
registered: the three calls that go through `DealDailyData` replace it, every other
call, and every call on another name, leaves it alone. -/
def dailyAfter (keepDays : Int) (name : String) (c : Call)
    (daily : List DailyServerStats) : List DailyServerStats :=
  match c with
  | .openConnection now n =>
    if n = name then DealDailyData keepDays now daily incAccept else daily
  | .addFlowIn now n v =>
    if n = name then DealDailyData keepDays now daily (addIn v) else daily
  | .addFlowOut now n v =>
    if n = name then DealDailyData keepDays now daily (addOut v) else daily
  | _ => daily

/-- An example sequence: an open before the registration of `p`, then two opens and
a flow on the 1st, an open of another name and an open of `p` on the 2nd. -/
def sampleAcceptCalls : List Call :=
  [.openConnection "20240101" "p",
    .setProxyInfo "p" "tcp" "0.0.0.0" false false true [] 80,
    .openConnection "20240101" "p", .addFlowIn "20240101" "p" 5,
    .openConnection "20240101" "p", .openConnection "20240102" "q",
    .openConnection "20240102" "p"]

/-- The record of `p` after `sampleAcceptCalls`. -/
def sampleAcceptMetric : ServerMetric :=
  { zeroMetric with
    Name := "p", ProxyType := "tcp", BindAddr := "0.0.0.0", ListenPort := 80,
    PrivilegeMode := true, CurrentConns := 3,
    Daily := [⟨"20240101", 5, 0, 2⟩, ⟨"20240102", 0, 0, 1⟩] }

/-! ## Snapshots

`GetProxyMetrics` and `GetAllProxyMetrics` copy a record with `json.Marshal` followed
by `json.Unmarshal` into a fresh `ServerMetric`. The two library functions are modelled
on JSON values instead of bytes, after the documentation of `encoding/json`: an
exported field is written under the key of its `json` tag; the decoder walks the
members of an object in order, stores a value of the right kind in the field of that
key, skips a member of an unknown key or of the wrong kind, and leaves a field
without a member at its zero value. The unexported field `mutex` is not written.
The strings of this section are texts, sequences of Unicode characters, which is what
a JSON string holds; the codec leaves a text as it is. A Go string that is not valid
UTF-8 is not a text: the section on records with Go strings has what the codec makes
of it. -/

/-- The JSON values. -/
inductive JsonValue where
  | null
  | bool (b : Bool)
  | num (n : Int)
  | str (s : String)
  | arr (items : List JsonValue)
  | obj (members : List (String × JsonValue))

/-- The encoding of a `DailyServerStats` by `json.Marshal`, keys from the struct tags. -/
def marshalDaily (d : DailyServerStats) : JsonValue :=
  .obj [("time", .str d.Time), ("flow_in", .num d.FlowIn), ("flow_out", .num d.FlowOut),
    ("total_accept_conns", .num d.TotalAcceptConns)]

/-- The encoding of a `ServerMetric` by `json.Marshal`, keys from the struct tags. -/
def marshalMetric (m : ServerMetric) : JsonValue :=
  .obj [("name", .str m.Name), ("type", .str m.ProxyType), ("bind_addr", .str m.BindAddr),
    ("listen_port", .num m.ListenPort),
    ("custom_domains", .arr (m.CustomDomains.map .str)),
    ("status", .str m.Status), ("use_encryption", .bool m.UseEncryption),
    ("use_gzip", .bool m.UseGzip), ("privilege_mode", .bool m.PrivilegeMode),
    ("current_conns", .num m.CurrentConns),
    ("daily", .arr (m.Daily.map marshalDaily))]

/-- The decoder on a `string` field. -/
def decodeString (old : String) : JsonValue → String
  | .str s => s
  | _ => old

/-- The decoder on an `int64` field. -/
def decodeInt (old : Int) : JsonValue → Int
  | .num n => n
  | _ => old

/-- The decoder on a `bool` field. -/
def decodeBool (old : Bool) : JsonValue → Bool
  | .bool b => b
  | _ => old

/-- The decoder on one member of an object read into a `DailyServerStats`. -/
def setDailyField (d : DailyServerStats) (member : String × JsonValue) : DailyServerStats :=
  if member.1 = "time" then { d with Time := decodeString d.Time member.2 }
  else if member.1 = "flow_in" then { d with FlowIn := decodeInt d.FlowIn member.2 }
  else if member.1 = "flow_out" then { d with FlowOut := decodeInt d.FlowOut member.2 }
  else if member.1 = "total_accept_conns" then
    { d with TotalAcceptConns := decodeInt d.TotalAcceptConns member.2 }
  else d

/-- The decoder on an element of the array read into `Daily`: a new
`DailyServerStats` filled from the members of the object. -/
def unmarshalDaily : JsonValue → DailyServerStats
  | .obj members => members.foldl setDailyField zeroDaily
  | _ => zeroDaily

/-- The decoder on the field `CustomDomains`, a `[]string`. -/
def decodeStrings (old : List String) : JsonValue → List String
  | .arr items => items.map (decodeString "")
  | .null => []
  | _ => old

/-- The decoder on the field `Daily`, a `[]*DailyServerStats`. -/
def decodeDailies (old : List DailyServerStats) : JsonValue → List DailyServerStats
  | .arr items => items.map unmarshalDaily
  | .null => []
  | _ => old

/-- The decoder on one member of an object read into a `ServerMetric`. -/
def setMetricField (m : ServerMetric) (member : String × JsonValue) : ServerMetric :=
  if member.1 = "name" then { m with Name := decodeString m.Name member.2 }
  else if member.1 = "type" then { m with ProxyType := decodeString m.ProxyType member.2 }
  else if member.1 = "bind_addr" then { m with BindAddr := decodeString m.BindAddr member.2 }
  else if member.1 = "listen_port" then
    { m with ListenPort := decodeInt m.ListenPort member.2 }
  else if member.1 = "custom_domains" then
    { m with CustomDomains := decodeStrings m.CustomDomains member.2 }
  else if member.1 = "status" then { m with Status := decodeString m.Status member.2 }
  else if member.1 = "use_encryption" then
    { m with UseEncryption := decodeBool m.UseEncryption member.2 }
  else if member.1 = "use_gzip" then { m with UseGzip := decodeBool m.UseGzip member.2 }
  else if member.1 = "privilege_mode" then
    { m with PrivilegeMode := decodeBool m.PrivilegeMode member.2 }
  else if member.1 = "current_conns" then
    { m with CurrentConns := decodeInt m.CurrentConns member.2 }
  else if member.1 = "daily" then { m with Daily := decodeDailies m.Daily member.2 }
  else m

/-- The effect of `json.Unmarshal(byteBuf, &tmpMetric)` on `tmpMetric := &ServerMetric{}`. -/
def unmarshalMetric : JsonValue → ServerMetric
  | .obj members => members.foldl setMetricField zeroMetric
  | _ => zeroMetric

/-- The function `GetProxyMetrics` of the source: the registry after the call, and the
snapshot or `none` for `nil`. -/
def GetProxyMetrics (reg : Registry) (proxyName : String) : Registry × Option ServerMetric :=
  match mapGet reg proxyName with
  | some metric =>
    let byteBuf := marshalMetric metric
    let tmpMetric := unmarshalMetric byteBuf
    (reg, some tmpMetric)
  | none => (reg, none)

/-- The function `GetAllProxyMetrics` of the source: the registry after the call, and
the map `result`, filled in the order of the iteration. -/
def GetAllProxyMetrics (reg : Registry) : Registry × Registry :=
  (reg, reg.foldl (fun result entry =>
    let byteBuf := marshalMetric entry.2
    let tmpMetric := unmarshalMetric byteBuf
    mapSet result entry.1 tmpMetric) [])

/-- Whether a call is `OpenConnection(name)`, `AddFlowIn(name, delta)` or
`AddFlowOut(name, delta)` with `delta ≥ 0`, made while the clock reads `day`. -/
def isSameDayCall (name day : String) : Call → Bool
  | .openConnection now n => n == name && now == day
  | .addFlowIn now n v => n == name && now == day && decide (0 ≤ v)
  | .addFlowOut now n v => n == name && now == day && decide (0 ≤ v)
  | _ => false

/-- The sum of the deltas of the `AddFlowIn` calls of a sequence. -/
def flowInSum : List Call → Int
  | [] => 0
  | .addFlowIn _ _ v :: cs => v + flowInSum cs
  | _ :: cs => flowInSum cs

/-- The sum of the deltas of the `AddFlowOut` calls of a sequence. -/
def flowOutSum : List Call → Int
  | [] => 0
  | .addFlowOut _ _ v :: cs => v + flowOutSum cs
  | _ :: cs => flowOutSum cs

/-! ## Locks

The two locks of the source, `smMutex` and the `mutex` of one record, and the calls on
one registered name as sequences of atomic actions, interleaved by a scheduler. The
lookup in the map succeeds and is not an action of its own. `json.Marshal` is one
action, the most favourable assumption for a reader. -/

/-- The state of a `sync.RWMutex`: the number of readers and whether a writer holds
it. -/
structure RWMutex where
  readers : Nat
  writer : Bool
  deriving DecidableEq, Repr

/-- The callbacks passed to `DealDailyData`. -/
inductive DealFunc where
  | accept
  | flowIn (value : Int)
  | flowOut (value : Int)
  deriving DecidableEq, Repr

/-- The callback as a function on a bucket. -/
def DealFunc.fn : DealFunc → DailyServerStats → DailyServerStats
  | .accept => incAccept
  | .flowIn value => addIn value
  | .flowOut value => addOut value

/-- The atomic actions of a call on the record of one name. -/
inductive Action where
  | smRLock
  | smRUnlock
  | smLock
  | smUnlock
  | recRLock
  | recRUnlock
  | recLock
  | recUnlock
  | addConns (delta : Int)
  | dealDaily (keepDays : Int) (now : String) (f : DealFunc)
  | setStatus (label : String)
  | marshal
  deriving DecidableEq, Repr

/-- The memory shared by the threads: the record and the two locks. -/
structure Shared where
  metric : ServerMetric
  smMutex : RWMutex
  mutex : RWMutex
  deriving DecidableEq, Repr

/-- A thread: the actions still to run and the record value its `json.Marshal` saw. -/
structure Thread where
  todo : List Action
  seen : Option ServerMetric
  deriving DecidableEq, Repr

/-- Whether an action can run now: `RLock` waits for the writer, `Lock` waits for the
writer and the readers, nothing else waits. -/
def Action.enabled (s : Shared) : Action → Bool
  | .smRLock => !s.smMutex.writer
  | .smLock => !s.smMutex.writer && s.smMutex.readers == 0
  | .recRLock => !s.mutex.writer
  | .recLock => !s.mutex.writer && s.mutex.readers == 0
  | _ => true

/-- The effect of an action on the shared memory and on what the thread saw. -/
def Action.perform (s : Shared) (seen : Option ServerMetric) :
    Action → Shared × Option ServerMetric
  | .smRLock => ({ s with smMutex := { s.smMutex with readers := s.smMutex.readers + 1 } }, seen)
  | .smRUnlock => ({ s with smMutex := { s.smMutex with readers := s.smMutex.readers - 1 } }, seen)
  | .smLock => ({ s with smMutex := { s.smMutex with writer := true } }, seen)
  | .smUnlock => ({ s with smMutex := { s.smMutex with writer := false } }, seen)
  | .recRLock => ({ s with mutex := { s.mutex with readers := s.mutex.readers + 1 } }, seen)
  | .recRUnlock => ({ s with mutex := { s.mutex with readers := s.mutex.readers - 1 } }, seen)
  | .recLock => ({ s with mutex := { s.mutex with writer := true } }, seen)
  | .recUnlock => ({ s with mutex := { s.mutex with writer := false } }, seen)
  | .addConns delta =>
    ({ s with metric := { s.metric with CurrentConns := wrap64 (s.metric.CurrentConns + delta) } },
      seen)
  | .dealDaily keepDays now f =>
    ({ s with metric := { s.metric with Daily := DealDailyData keepDays now s.metric.Daily f.fn } },
      seen)
  | .setStatus label => ({ s with metric := { s.metric with Status := label } }, seen)
  | .marshal => (s, some (unmarshalMetric (marshalMetric s.metric)))

/-- The actions of `OpenConnection` on a registered name, in program order. -/
def OpenConnectionActions (keepDays : Int) (now : String) : List Action :=
  [.smRLock, .smRUnlock, .recLock, .addConns 1, .dealDaily keepDays now .accept, .recUnlock]

/-- The actions of `CloseConnection` on a registered name. -/
def CloseConnectionActions : List Action :=
  [.smRLock, .smRUnlock, .recLock, .addConns (-1), .recUnlock]

/-- The actions of `AddFlowIn` on a registered name. -/
def AddFlowInActions (keepDays : Int) (now : String) (value : Int) : List Action :=
  [.smRLock, .smRUnlock, .recLock, .dealDaily keepDays now (.flowIn value), .recUnlock]

/-- The actions of `AddFlowOut` on a registered name. -/
def AddFlowOutActions (keepDays : Int) (now : String) (value : Int) : List Action :=
  [.smRLock, .smRUnlock, .recLock, .dealDaily keepDays now (.flowOut value), .recUnlock]

/-- The actions of `GetProxyMetrics` on a registered name: the source takes
`smMutex.RLock()`, serializes, and releases `smMutex` on return; it does not take the
`mutex` of the record. -/
def GetProxyMetricsActions : List Action :=
  [.smRLock, .marshal, .smRUnlock]

/-- The actions of `GetAllProxyMetrics` for a registry of one name: `smMutex.RLock()`,
then for the record `metric.mutex.RLock()`, the serialization, `metric.mutex.RUnlock()`,
and `smMutex.RUnlock()` on return. -/
def GetAllProxyMetricsActions : List Action :=
  [.smRLock, .recRLock, .marshal, .recRUnlock, .smRUnlock]

/-- A writer thread and a reader thread over the shared memory. -/
structure Machine where
  shared : Shared
  writer : Thread
  reader : Thread
  deriving DecidableEq, Repr

/-- One step of a thread: its next action runs when it is enabled, otherwise the
thread waits. -/
def Thread.tick (s : Shared) (t : Thread) : Shared × Thread :=
  match t.todo with
  | [] => (s, t)
  | a :: rest =>
    if a.enabled s then
      let r := a.perform s t.seen
      (r.1, { todo := rest, seen := r.2 })
    else (s, t)

/-- One step of the machine: the scheduler picks the reader (`true`) or the writer. -/
def Machine.tick (mc : Machine) (pickReader : Bool) : Machine :=
  if pickReader then
    let r := mc.reader.tick mc.shared
    { mc with shared := r.1, reader := r.2 }
  else
    let r := mc.writer.tick mc.shared
    { mc with shared := r.1, writer := r.2 }

/-- The machine after a schedule. -/
def Machine.runSchedule (mc : Machine) (schedule : List Bool) : Machine :=
  schedule.foldl Machine.tick mc

/-- The machine at the start: no lock held, nothing seen. -/
def Machine.start (metric : ServerMetric) (writer reader : List Action) : Machine :=
  { shared := { metric := metric, smMutex := ⟨0, false⟩, mutex := ⟨0, false⟩ },
    writer := { todo := writer, seen := none },
    reader := { todo := reader, seen := none } }

/-- The machines reached in at most one more step. -/
def Machine.grow (ms : List Machine) : List Machine :=
  (ms ++ ms.map (fun mc => mc.tick false) ++ ms.map (fun mc => mc.tick true)).dedup

/-- The machines reached in at most `n` steps. -/
def Machine.explore : Nat → List Machine → List Machine
  | 0, ms => ms
  | n + 1, ms => Machine.explore n (Machine.grow ms)

/-- An `OpenConnection` on the 1st, capacity 7, against `GetProxyMetrics`, on a record
without connection nor bucket. -/
def raceGetProxyMetrics : Machine :=
  Machine.start { zeroMetric with Name := "p" } (OpenConnectionActions 7 "20240101")
    GetProxyMetricsActions

/-- The same `OpenConnection` against `GetAllProxyMetrics`. -/
def raceGetAllProxyMetrics : Machine :=
  Machine.start { zeroMetric with Name := "p" } (OpenConnectionActions 7 "20240101")
    GetAllProxyMetricsActions

/-- The record before the `OpenConnection` of the two races. -/
def raceBefore : ServerMetric := { zeroMetric with Name := "p" }

/-- The record after the `OpenConnection` of the two races. -/
def raceAfter : ServerMetric :=
  { zeroMetric with Name := "p", CurrentConns := 1, Daily := [⟨"20240101", 0, 0, 1⟩] }

/-! ## The registry with pointers

The same functions on a memory of cells, for the properties that are about sharing:
`ServerMetricInfoMap` holds pointers to `ServerMetric` objects, the field `Daily` of an
object is a slice over a backing array of pointers to `DailyServerStats` objects.
An address is an index in the list of cells, nothing is freed. Strings and the
sequence `CustomDomains` are values of the object: the package never writes into
them. -/

namespace Ptr

/-- A slice `[]*DailyServerStats`: the backing array (`none` for `nil`) and the length;
the capacity is the size of the array. -/
structure Slice where
  array : Option Nat
  len : Nat
  deriving DecidableEq, Repr

/-- A `ServerMetric` object in memory. -/
structure MetricObj where
  Name : String
  ProxyType : String
  BindAddr : String
  ListenPort : Int
  CustomDomains : List String
  Status : String
  UseEncryption : Bool
  UseGzip : Bool
  PrivilegeMode : Bool
  CurrentConns : Int
  Daily : Slice
  deriving DecidableEq, Repr

/-- A memory cell: a `DailyServerStats` object, a backing array of pointers (`none`
for a `nil` slot), or a `ServerMetric` object. -/
inductive Cell where
  | stats (d : DailyServerStats)
  | array (slots : List (Option Nat))
  | metric (r : MetricObj)
  deriving DecidableEq, Repr

/-- The pointers held by a cell. -/
def Cell.ptrs : Cell → List Nat
  | .stats _ => []
  | .array slots => slots.filterMap id
  | .metric r => r.Daily.array.toList

/-- The memory and the map of the registry. -/
structure Memory where
  cells : List Cell
  map : List (String × Nat)
  deriving DecidableEq, Repr

/-- The memory after `init()`. -/
def Memory.empty : Memory := { cells := [], map := [] }

/-- A new object: the memory with the cell added, and its address. -/
def Memory.alloc (mem : Memory) (c : Cell) : Memory × Nat :=
  ({ mem with cells := mem.cells ++ [c] }, mem.cells.length)

/-- A store through a pointer. -/
def Memory.write (mem : Memory) (a : Nat) (c : Cell) : Memory :=
  { mem with cells := mem.cells.set a c }

/-- A load of a `DailyServerStats` through a pointer. -/
def Memory.stats? (mem : Memory) (a : Nat) : Option DailyServerStats :=
  match mem.cells[a]? with
  | some (.stats d) => some d
  | _ => none

/-- A load of a backing array. -/
def Memory.array? (mem : Memory) (a : Nat) : Option (List (Option Nat)) :=
  match mem.cells[a]? with
  | some (.array slots) => some slots
  | _ => none

/-- A load of a `ServerMetric` through a pointer. -/
def Memory.metric? (mem : Memory) (a : Nat) : Option MetricObj :=
  match mem.cells[a]? with
  | some (.metric r) => some r
  | _ => none

/-- The slots of the backing array of a slice, none for a `nil` slice. -/
def Memory.slots? (mem : Memory) (s : Slice) : Option (List (Option Nat)) :=
  match s.array with
  | none => some []
  | some a => mem.array? a

/-- The read `ServerMetricInfoMap[name]`. -/
def lookup : List (String × Nat) → String → Option Nat
  | [], _ => none
  | (k, a) :: rest, name => if k = name then some a else lookup rest name

/-- The write `ServerMetricInfoMap[name] = info`. -/
def insert : List (String × Nat) → String → Nat → List (String × Nat)
  | [], name, a => [(name, a)]
  | (k, b) :: rest, name, a =>
    if k = name then (name, a) :: rest else (k, b) :: insert rest name a

/-- The built-in `append(dailyData, p)`: in place when the capacity allows, otherwise
into a new array, of a capacity chosen by the run time (`extra` slots more than
needed). -/
def appendPtr (extra : Nat → Nat) (mem : Memory) (s : Slice) (p : Nat) :
    Option (Memory × Slice) :=
  match mem.slots? s with
  | none => none
  | some slots =>
    if s.len < slots.length then
      match s.array with
      | some a => some (mem.write a (.array (slots.set s.len (some p))), { s with len := s.len + 1 })
      | none => none
    else
      let r := mem.alloc
        (.array (slots.take s.len ++ [some p] ++ List.replicate (extra s.len) none))
      some (r.1, { array := some r.2, len := s.len + 1 })

/-- One iteration `dailyData[i] = dailyData[i+1]` on the slots of the array. -/
def shiftSlot (slots : List (Option Nat)) (i : Nat) : List (Option Nat) :=
  match slots[i + 1]? with
  | some p => slots.set i p
  | none => slots

/-- The rotation loop on the slots of the array. -/
def shiftSlots (dailyLen : Nat) (slots : List (Option Nat)) : List (Option Nat) :=
  (List.range (dailyLen - 1)).foldl shiftSlot slots

/-- The function `DealDailyData` of the source on a slice in memory; `none` is a
run-time failure (a `nil` or dangling pointer). -/
def DealDailyData (extra : Nat → Nat) (keepDays : Int) (now : String) (mem : Memory)
    (dailyData : Slice) (fn : DailyServerStats → DailyServerStats) :
    Option (Memory × Slice) :=
  let dailyLen := dailyData.len
  if dailyLen = 0 then
    let r := mem.alloc (.stats (fn { zeroDaily with Time := now }))
    appendPtr extra r.1 dailyData r.2
  else
    match mem.slots? dailyData with
    | none => none
    | some slots =>
      match slots[dailyLen - 1]? with
      | some (some daily) =>
        match mem.stats? daily with
        | none => none
        | some d =>
          if d.Time = now then
            some (mem.write daily (.stats (fn d)), dailyData)
          else
            let r := mem.alloc (.stats (fn { zeroDaily with Time := now }))
            if (dailyLen : Int) = keepDays then
              match dailyData.array with
              | some a =>
                some (r.1.write a
                  (.array ((shiftSlots dailyLen slots).set (dailyLen - 1) (some r.2))),
                  dailyData)
              | none => none
            else
              appendPtr extra r.1 dailyData r.2
      | _ => none

/-- The function `SetProxyInfo` of the source. -/
def SetProxyInfo (mem : Memory) (proxyName proxyType bindAddr : String)
    (useEncryption useGzip privilegeMode : Bool) (customDomains : List String)
    (listenPort : Int) : Option Memory :=
  match lookup mem.map proxyName with
  | some info =>
    match mem.metric? info with
    | none => none
    | some r =>
      let mem1 := mem.write info (.metric
        { r with
          Name := proxyName, ProxyType := proxyType, UseEncryption := useEncryption,
          UseGzip := useGzip, PrivilegeMode := privilegeMode, BindAddr := bindAddr,
          ListenPort := listenPort, CustomDomains := customDomains })
      some { mem1 with map := insert mem1.map proxyName info }
  | none =>
    let r := mem.alloc (.metric
      { Name := proxyName, ProxyType := proxyType, BindAddr := bindAddr,
        ListenPort := listenPort, CustomDomains := customDomains, Status := "",
        UseEncryption := useEncryption, UseGzip := useGzip,
        PrivilegeMode := privilegeMode, CurrentConns := 0,
        Daily := { array := none, len := 0 } })
    some { r.1 with map := insert r.1.map proxyName r.2 }

/-- The function `SetStatus` of the source. -/
def SetStatus (statusStr : List String) (mem : Memory) (proxyName : String)
    (status : Int) : Option Memory :=
  match lookup mem.map proxyName with
  | some metric =>
    match mem.metric? metric, statusLabel statusStr status with
    | some r, some label => some (mem.write metric (.metric { r with Status := label }))
    | _, _ => none
  | none => some mem

/-- The function `OpenConnection` of the source. -/
def OpenConnection (extra : Nat → Nat) (keepDays : Int) (now : String) (mem : Memory)
    (proxyName : String) : Option Memory :=
  match lookup mem.map proxyName with
  | some metric =>
    match mem.metric? metric with
    | none => none
    | some r =>
      let r1 := { r with CurrentConns := wrap64 (r.CurrentConns + 1) }
      let mem1 := mem.write metric (.metric r1)
      match DealDailyData extra keepDays now mem1 r1.Daily incAccept with
      | none => none
      | some (mem2, daily) => some (mem2.write metric (.metric { r1 with Daily := daily }))
  | none => some mem

/-- The function `CloseConnection` of the source. -/
def CloseConnection (mem : Memory) (proxyName : String) : Option Memory :=
  match lookup mem.map proxyName with
  | some metric =>
    match mem.metric? metric with
    | none => none
    | some r =>
      some (mem.write metric (.metric { r with CurrentConns := wrap64 (r.CurrentConns - 1) }))
  | none => some mem

/-- The function `AddFlowIn` of the source. -/
def AddFlowIn (extra : Nat → Nat) (keepDays : Int) (now : String) (mem : Memory)
    (proxyName : String) (value : Int) : Option Memory :=
  match lookup mem.map proxyName with
  | some metric =>
    match mem.metric? metric with
    | none => none
    | some r =>
      match DealDailyData extra keepDays now mem r.Daily (addIn value) with
      | none => none
      | some (mem2, daily) => some (mem2.write metric (.metric { r with Daily := daily }))
  | none => some mem

/-- The function `AddFlowOut` of the source. -/
def AddFlowOut (extra : Nat → Nat) (keepDays : Int) (now : String) (mem : Memory)
    (proxyName : String) (value : Int) : Option Memory :=
  match lookup mem.map proxyName with
  | some metric =>
    match mem.metric? metric with
    | none => none
    | some r =>
      match DealDailyData extra keepDays now mem r.Daily (addOut value) with
      | none => none
      | some (mem2, daily) => some (mem2.write metric (.metric { r with Daily := daily }))
  | none => some mem

/-- The effect of one call of the mutator API. -/
def step (extra : Nat → Nat) (keepDays : Int) (statusStr : List String) (mem : Memory) :
    Call → Option Memory
  | .setProxyInfo n t b e g p c l => SetProxyInfo mem n t b e g p c l
  | .setStatus n s => SetStatus statusStr mem n s
  | .openConnection now n => OpenConnection extra keepDays now mem n
  | .closeConnection n => CloseConnection mem n
  | .addFlowIn now n v => AddFlowIn extra keepDays now mem n v
  | .addFlowOut now n v => AddFlowOut extra keepDays now mem n v

/-- The effect of a sequence of calls. -/
def run (extra : Nat → Nat) (keepDays : Int) (statusStr : List String) :
    Memory → List Call → Option Memory
  | mem, [] => some mem
  | mem, c :: cs =>
    match step extra keepDays statusStr mem c with
    | some mem1 => run extra keepDays statusStr mem1 cs
    | none => none

/-- The buckets a sequence of slots points to, in order. -/
def readSlots (mem : Memory) : List (Option Nat) → Option (List DailyServerStats)
  | [] => some []
  | none :: _ => none
  | some p :: rest =>
    match mem.stats? p, readSlots mem rest with
    | some d, some ds => some (d :: ds)
    | _, _ => none

/-- The buckets a slice points to, in order: what `json.Marshal` reads of `Daily`. -/
def readDaily (mem : Memory) (s : Slice) : Option (List DailyServerStats) :=
  match mem.slots? s with
  | none => none
  | some slots =>
    if s.len ≤ slots.length then readSlots mem (slots.take s.len) else none

/-- The record a pointer leads to, with its buckets: what `json.Marshal(metric)`
reads. -/
def readMetric (mem : Memory) (a : Nat) : Option ServerMetric :=
  match mem.metric? a with
  | none => none
  | some r =>
    match readDaily mem r.Daily with
    | none => none
    | some daily =>
      some { Name := r.Name, ProxyType := r.ProxyType, BindAddr := r.BindAddr,
             ListenPort := r.ListenPort, CustomDomains := r.CustomDomains,
             Status := r.Status, UseEncryption := r.UseEncryption, UseGzip := r.UseGzip,
             PrivilegeMode := r.PrivilegeMode, CurrentConns := r.CurrentConns,
             Daily := daily }

/-- The objects `json.Unmarshal` builds for a decoded record: the record
`tmpMetric := &ServerMetric{}`, one new `DailyServerStats` per element of `daily`, and
a new backing array for them. The result is the memory and the pointer `tmpMetric`. -/
def allocMetric (mem : Memory) (v : ServerMetric) : Memory × Nat :=
  let tmpMetric := mem.cells.length
  let first := tmpMetric + 1
  let array := first + v.Daily.length
  let obj : MetricObj :=
    { Name := v.Name, ProxyType := v.ProxyType, BindAddr := v.BindAddr,
      ListenPort := v.ListenPort, CustomDomains := v.CustomDomains, Status := v.Status,
      UseEncryption := v.UseEncryption, UseGzip := v.UseGzip,
      PrivilegeMode := v.PrivilegeMode, CurrentConns := v.CurrentConns,
      Daily := { array := some array, len := v.Daily.length } }
  ({ mem with
      cells := mem.cells ++ [.metric obj] ++ v.Daily.map .stats
        ++ [.array ((List.range v.Daily.length).map (fun i => some (first + i)))] },
    tmpMetric)

/-- The function `GetProxyMetrics` of the source: the memory after the call and the
pointer returned, `none` for `nil`; the outer `none` is a run-time failure. -/
def GetProxyMetrics (mem : Memory) (proxyName : String) : Option (Memory × Option Nat) :=
  match lookup mem.map proxyName with
  | some metric =>
    match readMetric mem metric with
    | none => none
    | some v =>
      let byteBuf := marshalMetric v
      let r := allocMetric mem (unmarshalMetric byteBuf)
      some (r.1, some r.2)
  | none => some (mem, none)

/-- Whether no pointer of the memory dangles: the map and the cells only hold
addresses of cells. -/
def Memory.closed (mem : Memory) : Bool :=
  mem.map.all (fun entry => decide (entry.2 < mem.cells.length))
    && mem.cells.all (fun c => c.ptrs.all (fun p => decide (p < mem.cells.length)))

end Ptr

namespace Ptr

/-- A region `[lo, hi)` of addresses is separated from the registry: it is
allocated, the map holds no address of the region, and no cell outside the region
holds a pointer into it. -/
structure Sep (lo hi : Nat) (mem : Memory) : Prop where
  bound : hi ≤ mem.cells.length
  map : ∀ k a, (k, a) ∈ mem.map → ¬ (lo ≤ a ∧ a < hi)
  cells : ∀ i c, mem.cells[i]? = some c → ¬ (lo ≤ i ∧ i < hi) →
    ∀ p ∈ c.ptrs, ¬ (lo ≤ p ∧ p < hi)

/-- The cells of the region `[lo, hi)` are the same in two memories. -/
def Same (lo hi : Nat) (mem mem1 : Memory) : Prop :=
  ∀ i, lo ≤ i → i < hi → mem1.cells[i]? = mem.cells[i]?

end Ptr

/-- The memory after `SetProxyInfo` and one `OpenConnection` on `p`: the record, its
bucket and the backing array of its `Daily`. -/
def Ptr.sampleMemory : Ptr.Memory :=
  { cells :=
      [.metric
        { Name := "p", ProxyType := "tcp", BindAddr := "0.0.0.0", ListenPort := 80,
          CustomDomains := [], Status := "", UseEncryption := false, UseGzip := false,
          PrivilegeMode := true, CurrentConns := 1,
          Daily := { array := some 2, len := 1 } },
        .stats ⟨"20240101", 0, 0, 1⟩,
        .array [some 1]],
    map := [("p", 0)] }

/-- The memory `sampleMemory` after `GetProxyMetrics` on `p`: three new cells, the
snapshot is at address 3. -/
def Ptr.sampleSnapshotMemory : Ptr.Memory :=
  { cells :=
      [.metric
        { Name := "p", ProxyType := "tcp", BindAddr := "0.0.0.0", ListenPort := 80,
          CustomDomains := [], Status := "", UseEncryption := false, UseGzip := false,
          PrivilegeMode := true, CurrentConns := 1,
          Daily := { array := some 2, len := 1 } },
        .stats ⟨"20240101", 0, 0, 1⟩,
        .array [some 1],
        .metric
        { Name := "p", ProxyType := "tcp", BindAddr := "0.0.0.0", ListenPort := 80,
          CustomDomains := [], Status := "", UseEncryption := false, UseGzip := false,
          PrivilegeMode := true, CurrentConns := 1,
          Daily := { array := some 5, len := 1 } },
        .stats ⟨"20240101", 0, 0, 1⟩,
        .array [some 4]],
    map := [("p", 0)] }

/-- The cells a holder of the pointer `a` to a record gets to: the record, the backing
array of its `Daily`, and the objects the slots of the array point to, the slots between
the length and the capacity included. These are the cells a store through `a` can
change. -/
def Ptr.reach (mem : Ptr.Memory) (a : Nat) : List Nat :=
  match mem.metric? a with
  | none => [a]
  | some r =>
    match r.Daily.array with
    | none => [a]
    | some array =>
      match mem.array? array with
      | none => [a, array]
      | some slots => a :: array :: slots.filterMap id

/-! ## Records with Go strings

A Go `string` is a sequence of bytes, not always valid UTF-8; a byte is a natural
number below 256 here. `json.Marshal` writes a string as JSON text: it decodes the
bytes with `utf8.DecodeRuneInString` and writes U+FFFD for each byte that starts no
valid encoding; `json.Unmarshal` stores the UTF-8 encoding of the text it reads. The
records of this section hold Go strings; their codec is the codec on texts above,
between these two conversions. -/

namespace Raw

/-- A Go `string`: its bytes. A number from 256 on is no byte; the functions below
treat it as a byte that starts no valid encoding. -/
abbrev GoString := List Nat

/-- Whether a byte is a continuation byte of UTF-8. -/
def isCont (b : Nat) : Bool := decide (0x80 ≤ b) && decide (b ≤ 0xBF)

/-- Whether two bytes start an encoding of three bytes (the accept ranges of package
`unicode/utf8`: no overlong form, no surrogate). -/
def startsThree (b0 b1 : Nat) : Bool :=
  (decide (b0 = 0xE0) && decide (0xA0 ≤ b1) && decide (b1 ≤ 0xBF))
    || (decide (0xE1 ≤ b0) && decide (b0 ≤ 0xEC) && isCont b1)
    || (decide (b0 = 0xED) && decide (0x80 ≤ b1) && decide (b1 ≤ 0x9F))
    || (decide (0xEE ≤ b0) && decide (b0 ≤ 0xEF) && isCont b1)

/-- Whether two bytes start an encoding of four bytes (no overlong form, nothing above
U+10FFFF). -/
def startsFour (b0 b1 : Nat) : Bool :=
  (decide (b0 = 0xF0) && decide (0x90 ≤ b1) && decide (b1 ≤ 0xBF))
    || (decide (0xF1 ≤ b0) && decide (b0 ≤ 0xF3) && isCont b1)
    || (decide (b0 = 0xF4) && decide (0x80 ≤ b1) && decide (b1 ≤ 0x8F))

/-- The function `utf8.DecodeRuneInString`: the code point at the front and the bytes
after it, or `none` when the first byte starts no valid encoding (the library then
returns `RuneError` with size 1). The shifts and masks of the library are written as
multiplications and subtractions. -/
def decodeRune : GoString → Option (Nat × GoString)
  | [] => none
  | b0 :: rest =>
    if b0 < 0x80 then some (b0, rest)
    else
      match rest with
      | [] => none
      | b1 :: rest1 =>
        if decide (0xC2 ≤ b0) && decide (b0 ≤ 0xDF) && isCont b1 then
          some ((b0 - 0xC0) * 64 + (b1 - 0x80), rest1)
        else
          match rest1 with
          | [] => none
          | b2 :: rest2 =>
            if startsThree b0 b1 && isCont b2 then
              some ((b0 - 0xE0) * 4096 + (b1 - 0x80) * 64 + (b2 - 0x80), rest2)
            else
              match rest2 with
              | [] => none
              | b3 :: rest3 =>
                if startsFour b0 b1 && isCont b2 && isCont b3 then
                  some ((b0 - 0xF0) * 262144 + (b1 - 0x80) * 4096 + (b2 - 0x80) * 64
                    + (b3 - 0x80), rest3)
                else none

/-- The function `utf8.EncodeRune` on a code point. -/
def encodeRune (r : Nat) : GoString :=
  if r < 0x80 then [r]
  else if r < 0x800 then [0xC0 + r / 64, 0x80 + r % 64]
  else if r < 0x10000 then [0xE0 + r / 4096, 0x80 + r / 64 % 64, 0x80 + r % 64]
  else [0xF0 + r / 262144, 0x80 + r / 4096 % 64, 0x80 + r / 64 % 64, 0x80 + r % 64]

/-- The characters `json.Marshal` writes for a Go string, with `fuel` at least the
number of bytes: U+FFFD for a byte that starts no valid encoding. -/
def textChars : Nat → GoString → List Char
  | 0, _ => []
  | _ + 1, [] => []
  | fuel + 1, b0 :: rest =>
    match decodeRune (b0 :: rest) with
    | some (r, rest1) => Char.ofNat r :: textChars fuel rest1
    | none => Char.ofNat 0xFFFD :: textChars fuel rest

/-- The JSON text of a Go string. -/
def toText (s : GoString) : String := String.mk (textChars s.length s)

/-- The bytes of a sequence of characters. -/
def encodeChars : List Char → GoString
  | [] => []
  | c :: cs => encodeRune c.toNat ++ encodeChars cs

/-- The Go string `json.Unmarshal` stores for a JSON text. -/
def ofText (t : String) : GoString := encodeChars t.toList

/-- Whether a Go string is valid UTF-8 (`utf8.ValidString`), with `fuel` at least the
number of bytes. -/
def validFuel : Nat → GoString → Bool
  | 0, s => s.isEmpty
  | _ + 1, [] => true
  | fuel + 1, b0 :: rest =>
    match decodeRune (b0 :: rest) with
    | some (_, rest1) => validFuel fuel rest1
    | none => false

/-- Whether a Go string is valid UTF-8. -/
def validUTF8 (s : GoString) : Bool := validFuel s.length s

/-- The type `DailyServerStats` of the source, with a Go string. -/
structure DailyServerStats where
  Time : GoString
  FlowIn : Int
  FlowOut : Int
  TotalAcceptConns : Int
  deriving DecidableEq, Repr

/-- The type `ServerMetric` of the source, with Go strings and without its lock. -/
structure ServerMetric where
  Name : GoString
  ProxyType : GoString
  BindAddr : GoString
  ListenPort : Int
  CustomDomains : List GoString
  Status : GoString
  UseEncryption : Bool
  UseGzip : Bool
  PrivilegeMode : Bool
  CurrentConns : Int
  Daily : List DailyServerStats
  deriving DecidableEq, Repr

/-- The state of `ServerMetricInfoMap`. -/
abbrev Registry := List (GoString × ServerMetric)

/-- The read `m[name]` of the map. -/
def mapGet : Registry → GoString → Option ServerMetric
  | [], _ => none
  | (k, m) :: rest, name => if k = name then some m else mapGet rest name

/-- The write `m[name] = v` of the map. -/
def mapSet : Registry → GoString → ServerMetric → Registry
  | [], name, v => [(name, v)]
  | (k, m) :: rest, name, v =>
    if k = name then (name, v) :: rest else (k, m) :: mapSet rest name v

/-- The value `&ServerMetric{}`. -/
def zeroMetric : ServerMetric :=
  { Name := [], ProxyType := [], BindAddr := [], ListenPort := 0, CustomDomains := [],
    Status := [], UseEncryption := false, UseGzip := false, PrivilegeMode := false,
    CurrentConns := 0, Daily := [] }

/-- The function `SetProxyInfo` of the source. -/
def SetProxyInfo (reg : Registry) (proxyName proxyType bindAddr : GoString)
    (useEncryption useGzip privilegeMode : Bool) (customDomains : List GoString)
    (listenPort : Int) : Registry :=
  let info := match mapGet reg proxyName with
    | some info => info
    | none => { zeroMetric with Daily := [] }
  mapSet reg proxyName
    { info with
      Name := proxyName
      ProxyType := proxyType
      UseEncryption := useEncryption
      UseGzip := useGzip
      PrivilegeMode := privilegeMode
      BindAddr := bindAddr
      ListenPort := listenPort
      CustomDomains := customDomains }

/-- The texts `json.Marshal` writes for the strings of a bucket. -/
def textOfDaily (d : DailyServerStats) : Metric.DailyServerStats :=
  { Time := toText d.Time, FlowIn := d.FlowIn, FlowOut := d.FlowOut,
    TotalAcceptConns := d.TotalAcceptConns }

/-- The texts `json.Marshal` writes for the strings of a record. -/
def textOfMetric (m : ServerMetric) : Metric.ServerMetric :=
  { Name := toText m.Name, ProxyType := toText m.ProxyType, BindAddr := toText m.BindAddr,
    ListenPort := m.ListenPort, CustomDomains := m.CustomDomains.map toText,
    Status := toText m.Status, UseEncryption := m.UseEncryption, UseGzip := m.UseGzip,
    PrivilegeMode := m.PrivilegeMode, CurrentConns := m.CurrentConns,
    Daily := m.Daily.map textOfDaily }

/-- The Go strings `json.Unmarshal` stores for the texts of a bucket. -/
def bytesOfDaily (d : Metric.DailyServerStats) : DailyServerStats :=
  { Time := ofText d.Time, FlowIn := d.FlowIn, FlowOut := d.FlowOut,
    TotalAcceptConns := d.TotalAcceptConns }

/-- The Go strings `json.Unmarshal` stores for the texts of a record. -/
def bytesOfMetric (m : Metric.ServerMetric) : ServerMetric :=
  { Name := ofText m.Name, ProxyType := ofText m.ProxyType, BindAddr := ofText m.BindAddr,
    ListenPort := m.ListenPort, CustomDomains := m.CustomDomains.map ofText,
    Status := ofText m.Status, UseEncryption := m.UseEncryption, UseGzip := m.UseGzip,
    PrivilegeMode := m.PrivilegeMode, CurrentConns := m.CurrentConns,
    Daily := m.Daily.map bytesOfDaily }

/-- The function `json.Marshal` on a record with Go strings. -/
def marshalMetric (m : ServerMetric) : JsonValue :=
  Metric.marshalMetric (textOfMetric m)

/-- The effect of `json.Unmarshal(byteBuf, &tmpMetric)` on `tmpMetric := &ServerMetric{}`,
with Go strings. -/
def unmarshalMetric (j : JsonValue) : ServerMetric :=
  bytesOfMetric (Metric.unmarshalMetric j)

/-- The function `GetProxyMetrics` of the source: the registry after the call, and the
snapshot or `none` for `nil`. -/
def GetProxyMetrics (reg : Registry) (proxyName : GoString) : Registry × Option ServerMetric :=
  match mapGet reg proxyName with
  | some metric =>
    let byteBuf := marshalMetric metric
    let tmpMetric := unmarshalMetric byteBuf
    (reg, some tmpMetric)
  | none => (reg, none)

/-- What the round trip through JSON text makes of a Go string: each byte that starts
no valid encoding becomes the three bytes of U+FFFD. -/
def coerceUTF8 (s : GoString) : GoString := ofText (toText s)

/-- Whether every string of a record is valid UTF-8. -/
def validMetric (m : ServerMetric) : Bool :=
  validUTF8 m.Name && validUTF8 m.ProxyType && validUTF8 m.BindAddr && validUTF8 m.Status
    && m.CustomDomains.all validUTF8 && m.Daily.all (fun d => validUTF8 d.Time)

/-- The bytes of an ASCII text, for the examples. -/
def ascii (t : String) : GoString := t.toList.map Char.toNat

/-- The registry after `SetProxyInfo` with the name `"\xff"`, one byte that is not
valid UTF-8. -/
def badNameRegistry : Registry :=
  SetProxyInfo [] [0xff] (ascii "tcp") (ascii "0.0.0.0") false false true [] 80

/-- A record whose strings are valid UTF-8, with encodings of one to four bytes in its
name. -/
def sampleMetric : ServerMetric :=
  { Name := [0x70, 0xC3, 0xA9, 0xE2, 0x82, 0xAC, 0xF0, 0x9F, 0x98, 0x80],
    ProxyType := ascii "tcp", BindAddr := ascii "0.0.0.0", ListenPort := 80,
    CustomDomains := [ascii "p.example"], Status := ascii "working",
    UseEncryption := false, UseGzip := false, PrivilegeMode := true, CurrentConns := 3,
    Daily := [⟨ascii "20240101", 5, 0, 2⟩, ⟨ascii "20240102", 0, 0, 1⟩] }

/-- The record `sampleMetric` with a status that is not valid UTF-8: a lone
continuation byte and a truncated encoding of two bytes. -/
def sampleBadMetric : ServerMetric :=
  { sampleMetric with Status := [0x6F, 0x80, 0x6B, 0xC3] }

end Raw

/-- Modelled from the spec: the table `consts.StatusStr` of package
`frp/models/consts` is not part of the sources at hand; the specification describes
it as a fixed array of labels indexed by small non-negative status codes. This
three-label table stands for it in the examples. -/
def sampleStatusStr : List String := ["idle", "working", "closed"]

end Metric

/-! ## Lemmas on the map -/

namespace Metric

theorem mapGet_mapSet_self (reg : Registry) (name : String) (v : ServerMetric) :
    mapGet (mapSet reg name v) name = some v := by
  induction reg with
  | nil => simp [mapSet, mapGet]
  | cons kv rest ih =>
    obtain ⟨k, m⟩ := kv
    by_cases hk : k = name
    · simp [mapSet, mapGet, hk]
    · simp [mapSet, mapGet, hk, ih]

theorem mapGet_mapSet_ne (reg : Registry) (name other : String) (v : ServerMetric)
    (hne : name ≠ other) : mapGet (mapSet reg name v) other = mapGet reg other := by
  induction reg with
  | nil => simp [mapSet, mapGet, hne]
  | cons kv rest ih =>
    obtain ⟨k, m⟩ := kv
    by_cases hk : k = name
    · subst hk
      simp [mapSet, mapGet, hne]
    · by_cases hko : k = other
      · subst hko
        simp [mapSet, mapGet, hk]
      · simp [mapSet, mapGet, hk, hko, ih]

theorem mem_mapSet (reg : Registry) (name : String) (v : ServerMetric)
    (k : String) (m : ServerMetric) (hmem : (k, m) ∈ mapSet reg name v) :
    (k = name ∧ m = v) ∨ (k, m) ∈ reg := by
  induction reg with
  | nil =>
    simp [mapSet] at hmem
    exact Or.inl hmem
  | cons kv rest ih =>
    obtain ⟨k1, m1⟩ := kv
    by_cases hk : k1 = name
    · simp [mapSet, hk] at hmem
      rcases hmem with h | h
      · exact Or.inl h
      · exact Or.inr (List.mem_cons_of_mem _ h)
    · simp [mapSet, hk] at hmem
      rcases hmem with h | h
      · right
        simp [h.1, h.2]
      · rcases ih h with h1 | h1
        · exact Or.inl h1
        · exact Or.inr (List.mem_cons_of_mem _ h1)

theorem mapKeys_mapSet_of_mem (reg : Registry) (name : String) (v old : ServerMetric)
    (hget : mapGet reg name = some old) : mapKeys (mapSet reg name v) = mapKeys reg := by
  induction reg with
  | nil => simp [mapGet] at hget
  | cons kv rest ih =>
    obtain ⟨k, m⟩ := kv
    by_cases hk : k = name
    · simp [mapSet, mapKeys, hk]
    · simp only [mapGet, hk, if_false] at hget
      have := ih hget
      simp only [mapKeys] at this
      simp [mapSet, mapKeys, hk, this]

theorem mapGet_mem (reg : Registry) (name : String) (m : ServerMetric)
    (hget : mapGet reg name = some m) : (name, m) ∈ reg := by
  induction reg with
  | nil => simp [mapGet] at hget
  | cons kv rest ih =>
    obtain ⟨k, m1⟩ := kv
    by_cases hk : k = name
    · simp only [mapGet, hk, if_true, Option.some.injEq] at hget
      simp [hk, hget]
    · simp only [mapGet, hk, if_false] at hget
      exact List.mem_cons_of_mem _ (ih hget)

theorem mapGet_withMetric_self (reg : Registry) (name : String)
    (f : ServerMetric → ServerMetric) :
    mapGet (withMetric reg name f) name = (mapGet reg name).map f := by
  unfold withMetric
  cases h : mapGet reg name with
  | none => simp [h]
  | some m => simp [mapGet_mapSet_self]

theorem mapGet_withMetric_ne (reg : Registry) (name other : String)
    (f : ServerMetric → ServerMetric) (hne : name ≠ other) :
    mapGet (withMetric reg name f) other = mapGet reg other := by
  unfold withMetric
  cases h : mapGet reg name with
  | none => rfl
  | some m => simp [mapGet_mapSet_ne _ _ _ _ hne]

theorem mapKeys_withMetric (reg : Registry) (name : String)
    (f : ServerMetric → ServerMetric) : mapKeys (withMetric reg name f) = mapKeys reg := by
  unfold withMetric
  cases h : mapGet reg name with
  | none => rfl
  | some m => simpa using mapKeys_mapSet_of_mem reg name (f m) m h

theorem allRecords_withMetric (P Q : String → ServerMetric → Prop) (reg : Registry)
    (name : String) (f : ServerMetric → ServerMetric) (hall : AllRecords P reg)
    (hweak : ∀ k m, P k m → Q k m) (hupd : ∀ m, P name m → Q name (f m)) :
    AllRecords Q (withMetric reg name f) := by
  intro k m hmem
  unfold withMetric at hmem
  cases h : mapGet reg name with
  | none =>
    rw [h] at hmem
    exact hweak k m (hall k m hmem)
  | some m0 =>
    rw [h] at hmem
    rcases mem_mapSet reg name (f m0) k m hmem with ⟨hk, hm⟩ | hold
    · subst hk
      subst hm
      exact hupd m0 (hall k m0 (mapGet_mem reg k m0 h))
    · exact hweak k m (hall k m hold)

theorem OpenConnection_eq (keepDays : Int) (now : String) (reg : Registry) (name : String) :
    OpenConnection keepDays now reg name = withMetric reg name (fun metric =>
      { metric with
        CurrentConns := wrap64 (metric.CurrentConns + 1)
        Daily := DealDailyData keepDays now metric.Daily incAccept }) := rfl

theorem CloseConnection_eq (reg : Registry) (name : String) :
    CloseConnection reg name = withMetric reg name (fun metric =>
      { metric with CurrentConns := wrap64 (metric.CurrentConns - 1) }) := rfl

theorem AddFlowIn_eq (keepDays : Int) (now : String) (reg : Registry) (name : String)
    (value : Int) :
    AddFlowIn keepDays now reg name value = withMetric reg name (fun metric =>
      { metric with Daily := DealDailyData keepDays now metric.Daily (addIn value) }) := rfl

theorem AddFlowOut_eq (keepDays : Int) (now : String) (reg : Registry) (name : String)
    (value : Int) :
    AddFlowOut keepDays now reg name value = withMetric reg name (fun metric =>
      { metric with Daily := DealDailyData keepDays now metric.Daily (addOut value) }) := rfl

theorem SetStatus_absent (statusStr : List String) (reg : Registry) (name : String)
    (status : Int) (hget : mapGet reg name = none) :
    SetStatus statusStr reg name status = some reg := by
  simp [SetStatus, hget]

theorem SetStatus_some (statusStr : List String) (reg reg1 : Registry) (name : String)
    (status : Int) (h : SetStatus statusStr reg name status = some reg1) :
    reg1 = reg ∨ ∃ label, reg1 = withMetric reg name (fun metric =>
      { metric with Status := label }) := by
  unfold SetStatus at h
  cases hg : mapGet reg name with
  | none =>
    rw [hg] at h
    simp at h
    exact Or.inl h.symm
  | some m =>
    rw [hg] at h
    cases hl : statusLabel statusStr status with
    | none => simp [hl] at h
    | some label =>
      simp [hl] at h
      exact Or.inr ⟨label, by simp [withMetric, hg, h]⟩

theorem statusLabel_in_range (statusStr : List String) (status : Int)
    (h0 : 0 ≤ status) (hlt : status < statusStr.length) :
    ∃ label, statusStr[status.toNat]? = some label
      ∧ statusLabel statusStr status = some label := by
  have hn : status.toNat < statusStr.length := by omega
  exact ⟨statusStr[status.toNat], List.getElem?_eq_getElem hn,
    by simp [statusLabel, h0, List.getElem?_eq_getElem hn]⟩

theorem statusLabel_out_of_range (statusStr : List String) (status : Int)
    (h : status < 0 ∨ (statusStr.length : Int) ≤ status) :
    statusLabel statusStr status = none := by
  unfold statusLabel
  by_cases h0 : 0 ≤ status
  · have hn : statusStr.length ≤ status.toNat := by omega
    simp [h0, List.getElem?_eq_none hn]
  · simp [h0]

theorem allRecords_SetProxyInfo (P Q : String → ServerMetric → Prop) (reg : Registry)
    (name proxyType bindAddr : String) (useEncryption useGzip privilegeMode : Bool)
    (customDomains : List String) (listenPort : Int) (hall : AllRecords P reg)
    (hweak : ∀ k m, P k m → Q k m)
    (hupd : ∀ m, P name m → Q name
      { m with
        Name := name, ProxyType := proxyType, UseEncryption := useEncryption,
        UseGzip := useGzip, PrivilegeMode := privilegeMode, BindAddr := bindAddr,
        ListenPort := listenPort, CustomDomains := customDomains })
    (hfresh : Q name
      { zeroMetric with
        Name := name, ProxyType := proxyType, UseEncryption := useEncryption,
        UseGzip := useGzip, PrivilegeMode := privilegeMode, BindAddr := bindAddr,
        ListenPort := listenPort, CustomDomains := customDomains }) :
    AllRecords Q (SetProxyInfo reg name proxyType bindAddr useEncryption useGzip
      privilegeMode customDomains listenPort) := by
  intro k m hmem
  unfold SetProxyInfo at hmem
  rcases mem_mapSet _ _ _ k m hmem with ⟨hk, hm⟩ | hold
  · subst hk
    subst hm
    cases h : mapGet reg k with
    | none => exact hfresh
    | some m0 => exact hupd m0 (hall k m0 (mapGet_mem reg k m0 h))
  · exact hweak k m (hall k m hold)

theorem allRecords_SetStatus (P Q : String → ServerMetric → Prop)
    (statusStr : List String) (reg reg1 : Registry) (name : String) (status : Int)
    (hall : AllRecords P reg) (hweak : ∀ k m, P k m → Q k m)
    (hupd : ∀ m label, P name m → Q name { m with Status := label })
    (h : SetStatus statusStr reg name status = some reg1) : AllRecords Q reg1 := by
  rcases SetStatus_some statusStr reg reg1 name status h with rfl | ⟨label, rfl⟩
  · exact fun k m hmem => hweak k m (hall k m hmem)
  · exact allRecords_withMetric P Q reg name _ hall hweak (fun m hm => hupd m label hm)

theorem name_eq_key_step (keepDays : Int) (statusStr : List String) (reg reg1 : Registry)
    (c : Call) (hall : AllRecords (fun k m => m.Name = k) reg)
    (h : step keepDays statusStr reg c = some reg1) :
    AllRecords (fun k m => m.Name = k) reg1 := by
  cases c with
  | setProxyInfo n t b e g p cd l =>
    simp only [step, Option.some.injEq] at h
    subst h
    exact allRecords_SetProxyInfo _ _ reg n t b e g p cd l hall (fun _ _ hm => hm)
      (fun _ _ => rfl) rfl
  | setStatus n st =>
    exact allRecords_SetStatus _ _ statusStr reg reg1 n st hall (fun _ _ hm => hm)
      (fun _ _ hm => hm) h
  | openConnection now n =>
    simp only [step, Option.some.injEq] at h
    subst h
    exact allRecords_withMetric _ _ reg n _ hall (fun _ _ hm => hm) (fun _ hm => hm)
  | closeConnection n =>
    simp only [step, Option.some.injEq] at h
    subst h
    exact allRecords_withMetric _ _ reg n _ hall (fun _ _ hm => hm) (fun _ hm => hm)
  | addFlowIn now n v =>
    simp only [step, Option.some.injEq] at h
    subst h
    exact allRecords_withMetric _ _ reg n _ hall (fun _ _ hm => hm) (fun _ hm => hm)
  | addFlowOut now n v =>
    simp only [step, Option.some.injEq] at h
    subst h
    exact allRecords_withMetric _ _ reg n _ hall (fun _ _ hm => hm) (fun _ hm => hm)

theorem name_eq_key_run (keepDays : Int) (statusStr : List String) (cs : List Call)
    (reg reg1 : Registry) (hall : AllRecords (fun k m => m.Name = k) reg)
    (h : run keepDays statusStr reg cs = some reg1) :
    AllRecords (fun k m => m.Name = k) reg1 := by
  induction cs generalizing reg with
  | nil =>
    simp only [run, Option.some.injEq] at h
    subst h
    exact hall
  | cons c cs ih =>
    simp only [run] at h
    cases hs : step keepDays statusStr reg c with
    | none => simp [hs] at h
    | some r =>
      rw [hs] at h
      exact ih r (name_eq_key_step keepDays statusStr reg r c hall hs) h

/-! ## Lemmas on the daily window -/

theorem length_shiftStep (d : List DailyServerStats) (i : Nat) :
    (shiftStep d i).length = d.length := by
  unfold shiftStep
  split <;> simp

theorem shiftStep_of_some (d : List DailyServerStats) (i : Nat) (v : DailyServerStats)
    (hv : d[i + 1]? = some v) : shiftStep d i = d.set i v := by
  simp [shiftStep, hv]

theorem length_shiftFold (d : List DailyServerStats) (k : Nat) :
    ((List.range k).foldl shiftStep d).length = d.length := by
  induction k with
  | zero => simp
  | succ n ihn =>
    rw [List.range_succ, List.foldl_append]
    simp only [List.foldl_cons, List.foldl_nil, length_shiftStep]
    exact ihn

theorem getElem?_shiftFold (d : List DailyServerStats) (k : Nat) (hk : k + 1 ≤ d.length)
    (j : Nat) :
    ((List.range k).foldl shiftStep d)[j]? = if j < k then d[j + 1]? else d[j]? := by
  induction k generalizing j with
  | zero => simp
  | succ k ih =>
    have hlen := length_shiftFold d k
    rw [List.range_succ, List.foldl_append]
    simp only [List.foldl_cons, List.foldl_nil]
    have hnext : ((List.range k).foldl shiftStep d)[k + 1]? = d[k + 1]? := by
      rw [ih (by omega) (k + 1)]
      simp
    obtain ⟨v, hv⟩ : ∃ v, d[k + 1]? = some v :=
      ⟨d[k + 1], List.getElem?_eq_getElem (by omega)⟩
    rw [shiftStep_of_some _ _ v (hnext.trans hv)]
    simp only [List.getElem?_set, hlen]
    by_cases hkj : k = j
    · subst hkj
      have : k < d.length := by omega
      simp [this, hv]
    · rw [if_neg hkj, ih (by omega) j]
      by_cases hj : j < k
      · have : j < k + 1 := by omega
        simp [hj, this]
      · have : ¬ j < k + 1 := by omega
        simp [hj, this]

theorem shiftLoop_set_last (ys : List DailyServerStats) (last x : DailyServerStats) :
    (shiftLoop (ys ++ [last]).length (ys ++ [last])).set ((ys ++ [last]).length - 1) x
      = (ys ++ [last]).tail ++ [x] := by
  apply List.ext_getElem?
  intro j
  have hlen : (shiftLoop (ys ++ [last]).length (ys ++ [last])).length = ys.length + 1 := by
    unfold shiftLoop
    rw [length_shiftFold]
    simp
  have hR : ((ys ++ [last]).tail ++ [x])[j]?
      = if j < ys.length then (ys ++ [last])[j + 1]? else [x][j - ys.length]? := by
    rw [List.getElem?_append, List.getElem?_tail]
    simp
  have hk : (ys ++ [last]).length - 1 = ys.length := by simp
  rw [hR, List.getElem?_set, hlen, hk]
  unfold shiftLoop
  rw [hk, getElem?_shiftFold _ _ (by simp)]
  by_cases hj : ys.length = j
  · subst hj
    simp
  · rw [if_neg hj]
    by_cases hlt : j < ys.length
    · simp [hlt]
    · have h2 : (ys ++ [last]).length ≤ j := by simp; omega
      have h3 : [x].length ≤ j - ys.length := by simp; omega
      rw [if_neg hlt, if_neg hlt, List.getElem?_eq_none h2, List.getElem?_eq_none h3]

theorem set_last_concat (ys : List DailyServerStats) (last x : DailyServerStats) :
    (ys ++ [last]).set ((ys ++ [last]).length - 1) x = ys ++ [x] := by
  simp

theorem getElem?_last_concat (ys : List DailyServerStats) (last : DailyServerStats) :
    (ys ++ [last])[(ys ++ [last]).length - 1]? = some last := by
  simp

theorem DealDailyData_nil (keepDays : Int) (now : String)
    (fn : DailyServerStats → DailyServerStats) :
    DealDailyData keepDays now [] fn = [fn { zeroDaily with Time := now }] := by
  simp [DealDailyData]

theorem DealDailyData_same (keepDays : Int) (now : String) (ys : List DailyServerStats)
    (last : DailyServerStats) (fn : DailyServerStats → DailyServerStats)
    (hday : last.Time = now) :
    DealDailyData keepDays now (ys ++ [last]) fn = ys ++ [fn last] := by
  unfold DealDailyData
  simp only [getElem?_last_concat, set_last_concat]
  simp [hday]

theorem DealDailyData_rotate (keepDays : Int) (now : String) (ys : List DailyServerStats)
    (last : DailyServerStats) (fn : DailyServerStats → DailyServerStats)
    (hday : last.Time ≠ now) (hlen : ((ys ++ [last]).length : Int) = keepDays) :
    DealDailyData keepDays now (ys ++ [last]) fn
      = (ys ++ [last]).tail ++ [fn { zeroDaily with Time := now }] := by
  unfold DealDailyData
  simp only [getElem?_last_concat, shiftLoop_set_last]
  rw [if_neg (by simp), if_neg hday, if_pos hlen]

theorem DealDailyData_append (keepDays : Int) (now : String) (ys : List DailyServerStats)
    (last : DailyServerStats) (fn : DailyServerStats → DailyServerStats)
    (hday : last.Time ≠ now) (hlen : ((ys ++ [last]).length : Int) ≠ keepDays) :
    DealDailyData keepDays now (ys ++ [last]) fn
      = (ys ++ [last]) ++ [fn { zeroDaily with Time := now }] := by
  unfold DealDailyData
  simp only [getElem?_last_concat]
  rw [if_neg (by simp), if_neg hday, if_neg hlen]

theorem DealDailyData_cases (keepDays : Int) (now : String)
    (daily : List DailyServerStats) (fn : DailyServerStats → DailyServerStats) :
    (daily = [] ∧ DealDailyData keepDays now daily fn = [fn { zeroDaily with Time := now }])
    ∨ (∃ ys last, daily = ys ++ [last] ∧ last.Time = now
        ∧ DealDailyData keepDays now daily fn = ys ++ [fn last])
    ∨ (∃ ys last, daily = ys ++ [last] ∧ last.Time ≠ now
        ∧ (daily.length : Int) = keepDays
        ∧ DealDailyData keepDays now daily fn
            = daily.tail ++ [fn { zeroDaily with Time := now }])
    ∨ (∃ ys last, daily = ys ++ [last] ∧ last.Time ≠ now
        ∧ (daily.length : Int) ≠ keepDays
        ∧ DealDailyData keepDays now daily fn
            = daily ++ [fn { zeroDaily with Time := now }]) := by
  rcases List.eq_nil_or_concat daily with hnil | ⟨ys, last, hcat⟩
  · subst hnil
    exact Or.inl ⟨rfl, DealDailyData_nil keepDays now fn⟩
  · rw [List.concat_eq_append] at hcat
    subst hcat
    by_cases hday : last.Time = now
    · exact Or.inr (Or.inl ⟨ys, last, rfl, hday, DealDailyData_same keepDays now ys last fn hday⟩)
    · by_cases hlen : ((ys ++ [last]).length : Int) = keepDays
      · exact Or.inr (Or.inr (Or.inl ⟨ys, last, rfl, hday, hlen,
          DealDailyData_rotate keepDays now ys last fn hday hlen⟩))
      · exact Or.inr (Or.inr (Or.inr ⟨ys, last, rfl, hday, hlen,
          DealDailyData_append keepDays now ys last fn hday hlen⟩))

theorem DealDailyData_length_le (keepDays : Int) (now : String)
    (daily : List DailyServerStats) (fn : DailyServerStats → DailyServerStats)
    (hkeep : 1 ≤ keepDays) (hlen : (daily.length : Int) ≤ keepDays) :
    ((DealDailyData keepDays now daily fn).length : Int) ≤ keepDays := by
  rcases DealDailyData_cases keepDays now daily fn with ⟨_, hr⟩ | ⟨ys, last, hd, _, hr⟩
    | ⟨ys, last, hd, _, heq, hr⟩ | ⟨ys, last, hd, _, hne, hr⟩
  · rw [hr]
    simpa using hkeep
  · rw [hr]
    subst hd
    simpa using hlen
  · rw [hr]
    subst hd
    simp only [List.length_append, List.length_tail, List.length_singleton] at heq ⊢
    omega
  · rw [hr]
    simp only [List.length_append, List.length_singleton]
    push_cast
    omega

theorem DealDailyData_sorted (keepDays : Int) (now : String)
    (daily : List DailyServerStats) (fn : DailyServerStats → DailyServerStats)
    (hfn : ∀ d, (fn d).Time = d.Time)
    (hs : (daily.map (fun d => d.Time)).Pairwise (fun a b => a < b))
    (hb : ∀ d ∈ daily, d.Time ≤ now) :
    ((DealDailyData keepDays now daily fn).map (fun d => d.Time)).Pairwise (fun a b => a < b)
      ∧ ∀ d ∈ DealDailyData keepDays now daily fn, d.Time ≤ now := by
  have hstrict : ∀ ys last, daily = ys ++ [last] → last.Time ≠ now →
      ∀ d ∈ daily, d.Time < now := by
    intro ys last hd hday d hmem
    subst hd
    have hlast : last.Time < now := lt_of_le_of_ne (hb last (by simp)) hday
    rw [List.map_append, List.pairwise_append] at hs
    rcases List.mem_append.mp hmem with h | h
    · exact lt_trans (hs.2.2 d.Time (List.mem_map_of_mem _ h) last.Time (by simp)) hlast
    · simp only [List.mem_singleton] at h
      rw [h]
      exact hlast
  have hnew : (fn { zeroDaily with Time := now }).Time = now := by rw [hfn]
  rcases DealDailyData_cases keepDays now daily fn with ⟨_, hr⟩ | ⟨ys, last, hd, hday, hr⟩
    | ⟨ys, last, hd, hday, _, hr⟩ | ⟨ys, last, hd, hday, _, hr⟩
  · rw [hr]
    refine ⟨by simp, ?_⟩
    intro d hmem
    simp only [List.mem_singleton] at hmem
    rw [hmem, hnew]
  · rw [hr]
    subst hd
    constructor
    · simpa [hfn] using hs
    · intro d hmem
      rcases List.mem_append.mp hmem with h | h
      · exact hb d (List.mem_append_left _ h)
      · simp only [List.mem_singleton] at h
        rw [h, hfn]
        exact hb last (by simp)
  · rw [hr]
    have hlt := hstrict ys last hd hday
    constructor
    · rw [List.map_append, List.pairwise_append]
      refine ⟨?_, by simp, ?_⟩
      · rw [List.map_tail]
        exact hs.sublist (List.tail_sublist _)
      · intro a ha b hbm
        simp only [List.map_cons, List.map_nil, List.mem_singleton] at hbm
        rw [hbm, hnew]
        obtain ⟨d, hdm, rfl⟩ := List.mem_map.mp ha
        exact hlt d (List.mem_of_mem_tail hdm)
    · intro d hmem
      rcases List.mem_append.mp hmem with h | h
      · exact hb d (List.mem_of_mem_tail h)
      · simp only [List.mem_singleton] at h
        rw [h, hnew]
  · rw [hr]
    have hlt := hstrict ys last hd hday
    constructor
    · rw [List.map_append, List.pairwise_append]
      refine ⟨hs, by simp, ?_⟩
      intro a ha b hbm
      simp only [List.map_cons, List.map_nil, List.mem_singleton] at hbm
      rw [hbm, hnew]
      obtain ⟨d, hdm, rfl⟩ := List.mem_map.mp ha
      exact hlt d hdm
    · intro d hmem
      rcases List.mem_append.mp hmem with h | h
      · exact hb d h
      · simp only [List.mem_singleton] at h
        rw [h, hnew]

/-! ## Lemmas on call sequences -/

theorem length_le_step (keepDays : Int) (statusStr : List String) (reg reg1 : Registry)
    (c : Call) (hkeep : 1 ≤ keepDays)
    (hall : AllRecords (fun _ m => (m.Daily.length : Int) ≤ keepDays) reg)
    (h : step keepDays statusStr reg c = some reg1) :
    AllRecords (fun _ m => (m.Daily.length : Int) ≤ keepDays) reg1 := by
  cases c with
  | setProxyInfo n t b e g p cd l =>
    simp only [step, Option.some.injEq] at h
    subst h
    exact allRecords_SetProxyInfo _ _ reg n t b e g p cd l hall (fun _ _ hm => hm)
      (fun _ hm => hm) (by simpa [zeroMetric] using le_trans (by decide) hkeep)
  | setStatus n st =>
    exact allRecords_SetStatus _ _ statusStr reg reg1 n st hall (fun _ _ hm => hm)
      (fun _ _ hm => hm) h
  | openConnection now n =>
    simp only [step, Option.some.injEq] at h
    subst h
    exact allRecords_withMetric _ _ reg n _ hall (fun _ _ hm => hm)
      (fun m hm => DealDailyData_length_le keepDays now m.Daily incAccept hkeep hm)
  | closeConnection n =>
    simp only [step, Option.some.injEq] at h
    subst h
    exact allRecords_withMetric _ _ reg n _ hall (fun _ _ hm => hm) (fun _ hm => hm)
  | addFlowIn now n v =>
    simp only [step, Option.some.injEq] at h
    subst h
    exact allRecords_withMetric _ _ reg n _ hall (fun _ _ hm => hm)
      (fun m hm => DealDailyData_length_le keepDays now m.Daily (addIn v) hkeep hm)
  | addFlowOut now n v =>
    simp only [step, Option.some.injEq] at h
    subst h
    exact allRecords_withMetric _ _ reg n _ hall (fun _ _ hm => hm)
      (fun m hm => DealDailyData_length_le keepDays now m.Daily (addOut v) hkeep hm)

theorem length_le_run (keepDays : Int) (statusStr : List String) (cs : List Call)
    (reg reg1 : Registry) (hkeep : 1 ≤ keepDays)
    (hall : AllRecords (fun _ m => (m.Daily.length : Int) ≤ keepDays) reg)
    (h : run keepDays statusStr reg cs = some reg1) :
    AllRecords (fun _ m => (m.Daily.length : Int) ≤ keepDays) reg1 := by
  induction cs generalizing reg with
  | nil =>
    simp only [run, Option.some.injEq] at h
    subst h
    exact hall
  | cons c cs ih =>
    simp only [run] at h
    cases hs : step keepDays statusStr reg c with
    | none => simp [hs] at h
    | some r =>
      rw [hs] at h
      exact ih r (length_le_step keepDays statusStr reg r c hkeep hall hs) h

/-- The invariant behind the ordering of the buckets: the day keys of a record
increase strictly and none is later than a clock reading still to come. -/
theorem sorted_upd (keepDays : Int) (now : String) (rest : List String)
    (fn : DailyServerStats → DailyServerStats) (hfn : ∀ d, (fn d).Time = d.Time)
    (hnow : ∀ t ∈ rest, now ≤ t) (daily : List DailyServerStats)
    (hm : (daily.map (fun d => d.Time)).Pairwise (fun a b => a < b)
      ∧ ∀ d ∈ daily, ∀ t ∈ now :: rest, d.Time ≤ t) :
    ((DealDailyData keepDays now daily fn).map (fun d => d.Time)).Pairwise
        (fun a b => a < b)
      ∧ ∀ d ∈ DealDailyData keepDays now daily fn, ∀ t ∈ rest, d.Time ≤ t := by
  have h := DealDailyData_sorted keepDays now daily fn hfn hm.1
    (fun d hd => hm.2 d hd now (by simp))
  exact ⟨h.1, fun d hd t ht => le_trans (h.2 d hd) (hnow t ht)⟩

theorem sorted_run (keepDays : Int) (statusStr : List String) (cs : List Call)
    (reg reg1 : Registry)
    (hall : AllRecords (fun _ m =>
      (m.Daily.map (fun d => d.Time)).Pairwise (fun a b => a < b)
        ∧ ∀ d ∈ m.Daily, ∀ t ∈ clockReadings cs, d.Time ≤ t) reg)
    (hclock : (clockReadings cs).Pairwise (fun a b => a ≤ b))
    (h : run keepDays statusStr reg cs = some reg1) :
    AllRecords (fun _ m =>
      (m.Daily.map (fun d => d.Time)).Pairwise (fun a b => a < b)) reg1 := by
  induction cs generalizing reg with
  | nil =>
    simp only [run, Option.some.injEq] at h
    subst h
    exact fun k m hmem => (hall k m hmem).1
  | cons c cs ih =>
    simp only [run] at h
    cases hs : step keepDays statusStr reg c with
    | none => simp [hs] at h
    | some r =>
      rw [hs] at h
      cases c with
      | setProxyInfo n t b e g p cd l =>
        simp only [step, Option.some.injEq] at hs
        subst hs
        simp only [clockReadings] at hall hclock
        refine ih _ ?_ hclock h
        exact (allRecords_SetProxyInfo _ _ reg n t b e g p cd l hall
          (fun _ _ hm => hm) (fun _ hm => hm) (by simp [zeroMetric]))
      | setStatus n st =>
        simp only [step] at hs
        simp only [clockReadings] at hall hclock
        refine ih _ ?_ hclock h
        exact (allRecords_SetStatus _ _ statusStr reg r n st hall
          (fun _ _ hm => hm) (fun _ _ hm => hm) hs)
      | closeConnection n =>
        simp only [step, Option.some.injEq] at hs
        subst hs
        simp only [clockReadings] at hall hclock
        refine ih _ ?_ hclock h
        exact allRecords_withMetric _ _ reg n _ hall (fun _ _ hm => hm) (fun _ hm => hm)
      | openConnection now n =>
        simp only [step, Option.some.injEq] at hs
        subst hs
        simp only [clockReadings, List.pairwise_cons] at hall hclock
        refine ih _ ?_ hclock.2 h
        exact (allRecords_withMetric _ _ reg n _ hall
          (fun _ m hm => ⟨hm.1, fun d hd t ht => hm.2 d hd t (List.mem_cons_of_mem _ ht)⟩)
          (fun m hm => sorted_upd keepDays now _ incAccept (fun _ => rfl) hclock.1
            m.Daily hm))
      | addFlowIn now n v =>
        simp only [step, Option.some.injEq] at hs
        subst hs
        simp only [clockReadings, List.pairwise_cons] at hall hclock
        refine ih _ ?_ hclock.2 h
        exact (allRecords_withMetric _ _ reg n _ hall
          (fun _ m hm => ⟨hm.1, fun d hd t ht => hm.2 d hd t (List.mem_cons_of_mem _ ht)⟩)
          (fun m hm => sorted_upd keepDays now _ (addIn v) (fun _ => rfl) hclock.1
            m.Daily hm))
      | addFlowOut now n v =>
        simp only [step, Option.some.injEq] at hs
        subst hs
        simp only [clockReadings, List.pairwise_cons] at hall hclock
        refine ih _ ?_ hclock.2 h
        exact (allRecords_withMetric _ _ reg n _ hall
          (fun _ m hm => ⟨hm.1, fun d hd t ht => hm.2 d hd t (List.mem_cons_of_mem _ ht)⟩)
          (fun m hm => sorted_upd keepDays now _ (addOut v) (fun _ => rfl) hclock.1
            m.Daily hm))

/-! ## Lemmas on the connection counter -/

theorem wrap64_wrap64_add (a b : Int) : wrap64 (wrap64 a + b) = wrap64 (a + b) := by
  unfold wrap64
  have h : (a + 2 ^ 63) % 2 ^ 64 - 2 ^ 63 + b + 2 ^ 63 = (a + 2 ^ 63) % 2 ^ 64 + b := by
    ring
  rw [h, Int.emod_add_emod]
  congr 2
  ring

theorem wrap64_zero : wrap64 0 = 0 := by decide

theorem mapGet_SetProxyInfo_ne (reg : Registry) (name other proxyType bindAddr : String)
    (useEncryption useGzip privilegeMode : Bool) (customDomains : List String)
    (listenPort : Int) (hne : name ≠ other) :
    mapGet (SetProxyInfo reg name proxyType bindAddr useEncryption useGzip privilegeMode
      customDomains listenPort) other = mapGet reg other := by
  unfold SetProxyInfo
  exact mapGet_mapSet_ne _ _ _ _ hne

theorem mapGet_SetProxyInfo_self (reg : Registry) (name proxyType bindAddr : String)
    (useEncryption useGzip privilegeMode : Bool) (customDomains : List String)
    (listenPort : Int) :
    ∃ m, mapGet (SetProxyInfo reg name proxyType bindAddr useEncryption useGzip
        privilegeMode customDomains listenPort) name = some m
      ∧ m.CurrentConns = ((mapGet reg name).map (fun o => o.CurrentConns)).getD 0 := by
  unfold SetProxyInfo
  rw [mapGet_mapSet_self]
  cases h : mapGet reg name with
  | none => exact ⟨_, rfl, rfl⟩
  | some o => exact ⟨_, rfl, rfl⟩

theorem conns_step (keepDays : Int) (statusStr : List String) (name : String)
    (reg reg1 : Registry) (c : Call) (m : ServerMetric) (hget : mapGet reg name = some m)
    (h : step keepDays statusStr reg c = some reg1) :
    ∃ m1, mapGet reg1 name = some m1
      ∧ m1.CurrentConns
          = if isOpenOf name c then wrap64 (m.CurrentConns + 1)
            else if isCloseOf name c then wrap64 (m.CurrentConns - 1)
            else m.CurrentConns := by
  cases c with
  | setProxyInfo n t b e g p cd l =>
    simp only [step, Option.some.injEq] at h
    subst h
    by_cases hn : n = name
    · subst hn
      obtain ⟨m1, h1, h2⟩ := mapGet_SetProxyInfo_self reg n t b e g p cd l
      exact ⟨m1, h1, by simp [h2, hget, isOpenOf, isCloseOf]⟩
    · exact ⟨m, by rw [mapGet_SetProxyInfo_ne _ _ _ _ _ _ _ _ _ _ hn, hget],
        by simp [isOpenOf, isCloseOf]⟩
  | setStatus n st =>
    simp only [step] at h
    rcases SetStatus_some statusStr reg reg1 n st h with rfl | ⟨label, rfl⟩
    · exact ⟨m, hget, by simp [isOpenOf, isCloseOf]⟩
    · by_cases hn : n = name
      · subst hn
        exact ⟨_, by rw [mapGet_withMetric_self, hget]; rfl, by simp [isOpenOf, isCloseOf]⟩
      · exact ⟨m, by rw [mapGet_withMetric_ne _ _ _ _ hn, hget],
          by simp [isOpenOf, isCloseOf]⟩
  | openConnection now n =>
    simp only [step, Option.some.injEq] at h
    subst h
    by_cases hn : n = name
    · subst hn
      exact ⟨_, by rw [OpenConnection_eq, mapGet_withMetric_self, hget]; rfl,
        by simp [isOpenOf]⟩
    · exact ⟨m, by rw [OpenConnection_eq, mapGet_withMetric_ne _ _ _ _ hn, hget],
        by simp [isOpenOf, isCloseOf, hn]⟩
  | closeConnection n =>
    simp only [step, Option.some.injEq] at h
    subst h
    by_cases hn : n = name
    · subst hn
      exact ⟨_, by rw [CloseConnection_eq, mapGet_withMetric_self, hget]; rfl,
        by simp [isOpenOf, isCloseOf]⟩
    · exact ⟨m, by rw [CloseConnection_eq, mapGet_withMetric_ne _ _ _ _ hn, hget],
        by simp [isOpenOf, isCloseOf, hn]⟩
  | addFlowIn now n v =>
    simp only [step, Option.some.injEq] at h
    subst h
    by_cases hn : n = name
    · subst hn
      exact ⟨_, by rw [AddFlowIn_eq, mapGet_withMetric_self, hget]; rfl,
        by simp [isOpenOf, isCloseOf]⟩
    · exact ⟨m, by rw [AddFlowIn_eq, mapGet_withMetric_ne _ _ _ _ hn, hget],
        by simp [isOpenOf, isCloseOf]⟩
  | addFlowOut now n v =>
    simp only [step, Option.some.injEq] at h
    subst h
    by_cases hn : n = name
    · subst hn
      exact ⟨_, by rw [AddFlowOut_eq, mapGet_withMetric_self, hget]; rfl,
        by simp [isOpenOf, isCloseOf]⟩
    · exact ⟨m, by rw [AddFlowOut_eq, mapGet_withMetric_ne _ _ _ _ hn, hget],
        by simp [isOpenOf, isCloseOf]⟩

theorem conns_run (keepDays : Int) (statusStr : List String) (name : String)
    (cs : List Call) (reg reg1 : Registry) (m : ServerMetric) (base : Int)
    (hget : mapGet reg name = some m) (hbase : m.CurrentConns = wrap64 base)
    (h : run keepDays statusStr reg cs = some reg1) :
    ∃ m1, mapGet reg1 name = some m1
      ∧ m1.CurrentConns
          = wrap64 (base + ((openCount name cs : Int) - (closeCount name cs : Int))) := by
  induction cs generalizing reg m base with
  | nil =>
    simp only [run, Option.some.injEq] at h
    subst h
    exact ⟨m, hget, by simp [openCount, closeCount, hbase]⟩
  | cons c cs ih =>
    simp only [run] at h
    cases hs : step keepDays statusStr reg c with
    | none => simp [hs] at h
    | some r =>
      rw [hs] at h
      obtain ⟨m1, hget1, hc1⟩ := conns_step keepDays statusStr name reg r c m hget hs
      by_cases ho : isOpenOf name c = true
      · have hcl : isCloseOf name c = false := by
          cases c <;> simp_all [isOpenOf, isCloseOf]
        rw [if_pos ho, hbase, wrap64_wrap64_add] at hc1
        obtain ⟨m2, hget2, hc2⟩ := ih r m1 (base + 1) hget1 hc1 h
        refine ⟨m2, hget2, ?_⟩
        rw [hc2]
        simp only [openCount, closeCount, List.countP_cons, ho, hcl]
        congr 1
        simp
        ring
      · by_cases hcl : isCloseOf name c = true
        · rw [if_neg ho, if_pos hcl, hbase, sub_eq_add_neg, wrap64_wrap64_add] at hc1
          obtain ⟨m2, hget2, hc2⟩ := ih r m1 (base + -1) hget1 hc1 h
          refine ⟨m2, hget2, ?_⟩
          rw [hc2]
          simp only [openCount, closeCount, List.countP_cons, ho, hcl]
          congr 1
          simp
          ring
        · rw [if_neg ho, if_neg hcl, hbase] at hc1
          obtain ⟨m2, hget2, hc2⟩ := ih r m1 base hget1 hc1 h
          refine ⟨m2, hget2, ?_⟩
          rw [hc2]
          simp only [openCount, closeCount, List.countP_cons, ho, hcl]
          simp

theorem absent_step (keepDays : Int) (statusStr : List String) (name : String)
    (reg reg1 : Registry) (c : Call) (hget : mapGet reg name = none)
    (hc : ∀ t b e g p cd l, c ≠ .setProxyInfo name t b e g p cd l)
    (h : step keepDays statusStr reg c = some reg1) : mapGet reg1 name = none := by
  have hwith : ∀ n f, mapGet (withMetric reg n f) name = none := by
    intro n f
    by_cases hn : n = name
    · subst hn
      rw [mapGet_withMetric_self, hget]
      rfl
    · rw [mapGet_withMetric_ne _ _ _ _ hn, hget]
  cases c with
  | setProxyInfo n t b e g p cd l =>
    simp only [step, Option.some.injEq] at h
    subst h
    have hn : n ≠ name := fun hn => hc t b e g p cd l (by rw [hn])
    rw [mapGet_SetProxyInfo_ne _ _ _ _ _ _ _ _ _ _ hn, hget]
  | setStatus n st =>
    simp only [step] at h
    rcases SetStatus_some statusStr reg reg1 n st h with rfl | ⟨label, rfl⟩
    · exact hget
    · exact hwith n _
  | openConnection now n =>
    simp only [step, Option.some.injEq] at h
    subst h
    exact hwith n _
  | closeConnection n =>
    simp only [step, Option.some.injEq] at h
    subst h
    exact hwith n _
  | addFlowIn now n v =>
    simp only [step, Option.some.injEq] at h
    subst h
    exact hwith n _
  | addFlowOut now n v =>
    simp only [step, Option.some.injEq] at h
    subst h
    exact hwith n _

theorem conns_run_absent (keepDays : Int) (statusStr : List String) (name : String)
    (cs : List Call) (reg reg1 : Registry) (hget : mapGet reg name = none)
    (h : run keepDays statusStr reg cs = some reg1) (m1 : ServerMetric)
    (hget1 : mapGet reg1 name = some m1) :
    m1.CurrentConns
      = wrap64 ((openCount name (sinceRegistered name cs) : Int)
          - (closeCount name (sinceRegistered name cs) : Int)) := by
  induction cs generalizing reg with
  | nil =>
    simp only [run, Option.some.injEq] at h
    subst h
    rw [hget] at hget1
    exact absurd hget1 (by simp)
  | cons c cs ih =>
    simp only [run] at h
    cases hs : step keepDays statusStr reg c with
    | none => simp [hs] at h
    | some r =>
      rw [hs] at h
      by_cases hc : ∃ t b e g p cd l, c = .setProxyInfo name t b e g p cd l
      · obtain ⟨t, b, e, g, p, cd, l, rfl⟩ := hc
        simp only [step, Option.some.injEq] at hs
        subst hs
        obtain ⟨m0, hm0, hc0⟩ := mapGet_SetProxyInfo_self reg name t b e g p cd l
        rw [hget] at hc0
        obtain ⟨m2, hget2, hc2⟩ := conns_run keepDays statusStr name cs _ reg1 m0 0 hm0
          (by rw [hc0, wrap64_zero]; rfl) h
        rw [hget1] at hget2
        cases hget2
        simpa [sinceRegistered] using hc2
      · have hc1 : ∀ t b e g p cd l, c ≠ .setProxyInfo name t b e g p cd l :=
          fun t b e g p cd l heq => hc ⟨t, b, e, g, p, cd, l, heq⟩
        have hsince : sinceRegistered name (c :: cs) = sinceRegistered name cs := by
          cases c with
          | setProxyInfo n t b e g p cd l =>
            have hn : n ≠ name := fun hn => hc1 t b e g p cd l (by rw [hn])
            simp [sinceRegistered, hn]
          | _ => simp [sinceRegistered]
        rw [hsince]
        exact ih r (absent_step keepDays statusStr name reg r c hget hc1 hs) h

/-! ## The three branches of the daily window -/

/-- Claim C3. Rotation at capacity: when `daily` is not empty, its length equals
`DailyDataKeepDays` and its last bucket is not dated today, `DealDailyData` returns
`daily` without its first bucket, the other buckets unmodified and in order, followed
by `fn` applied to the zeroed bucket dated today; the length stays
`DailyDataKeepDays`. -/
theorem DealDailyData_rotation_at_capacity (keepDays : Int) (now : String)
    (daily : List DailyServerStats) (fn : DailyServerStats → DailyServerStats)
    (last : DailyServerStats) (hlast : daily.getLast? = some last)
    (hday : last.Time ≠ now) (hlen : (daily.length : Int) = keepDays) :
    DealDailyData keepDays now daily fn
        = daily.drop 1
          ++ [fn { Time := now, FlowIn := 0, FlowOut := 0, TotalAcceptConns := 0 }]
      ∧ ((DealDailyData keepDays now daily fn).length : Int) = keepDays := by
  obtain ⟨ys, rfl⟩ := List.getLast?_eq_some_iff.mp hlast
  have h := DealDailyData_rotate keepDays now ys last fn hday hlen
  have hz : ({ zeroDaily with Time := now } : DailyServerStats)
      = { Time := now, FlowIn := 0, FlowOut := 0, TotalAcceptConns := 0 } := rfl
  rw [hz] at h
  refine ⟨by rw [h, List.drop_one], ?_⟩
  rw [h, ← hlen]
  simp

/-- Scenario S5 of the specification: three buckets at capacity 3, a fourth day. -/
theorem DealDailyData_rotation_at_capacity_witness :
    DealDailyData 3 "20240104"
        [⟨"20240101", 1, 0, 0⟩, ⟨"20240102", 1, 0, 0⟩, ⟨"20240103", 1, 0, 0⟩] (addIn 7)
      = [⟨"20240102", 1, 0, 0⟩, ⟨"20240103", 1, 0, 0⟩, ⟨"20240104", 7, 0, 0⟩] := by
  have h := (DealDailyData_rotation_at_capacity 3 "20240104"
    [⟨"20240101", 1, 0, 0⟩, ⟨"20240102", 1, 0, 0⟩, ⟨"20240103", 1, 0, 0⟩] (addIn 7)
    ⟨"20240103", 1, 0, 0⟩ (by rfl) (by decide) (by decide)).1
  rw [h]
  decide

/-- Claim C4. Append below capacity: when `daily` is empty, or its last bucket is not
dated today and its length is below `DailyDataKeepDays`, `DealDailyData` returns
`daily` unmodified followed by `fn` applied to the zeroed bucket dated today. -/
theorem DealDailyData_append_below_capacity (keepDays : Int) (now : String)
    (daily : List DailyServerStats) (fn : DailyServerStats → DailyServerStats)
    (h : daily = [] ∨
      ((∀ last, daily.getLast? = some last → last.Time ≠ now)
        ∧ (daily.length : Int) < keepDays)) :
    DealDailyData keepDays now daily fn
      = daily ++ [fn { Time := now, FlowIn := 0, FlowOut := 0, TotalAcceptConns := 0 }] := by
  have hz : ({ zeroDaily with Time := now } : DailyServerStats)
      = { Time := now, FlowIn := 0, FlowOut := 0, TotalAcceptConns := 0 } := rfl
  by_cases hnil : daily = []
  · subst hnil
    rw [DealDailyData_nil, hz]
    rfl
  · rcases h with h | ⟨hday, hlen⟩
    · exact absurd h hnil
    · obtain ⟨last, hlast⟩ : ∃ last, daily.getLast? = some last := by
        cases hl : daily.getLast? with
        | none => exact absurd (List.getLast?_eq_none_iff.mp hl) hnil
        | some l => exact ⟨l, rfl⟩
      have hd := hday last hlast
      obtain ⟨ys, rfl⟩ := List.getLast?_eq_some_iff.mp hlast
      rw [DealDailyData_append keepDays now ys last fn hd (by omega), hz]

/-- Scenario S4 of the specification: the third day below capacity 3. -/
theorem DealDailyData_append_below_capacity_witness :
    DealDailyData 3 "20240103" [⟨"20240101", 1, 0, 0⟩, ⟨"20240102", 1, 0, 0⟩] (addIn 1)
      = [⟨"20240101", 1, 0, 0⟩, ⟨"20240102", 1, 0, 0⟩, ⟨"20240103", 1, 0, 0⟩] := by
  have h := DealDailyData_append_below_capacity 3 "20240103"
    [⟨"20240101", 1, 0, 0⟩, ⟨"20240102", 1, 0, 0⟩] (addIn 1)
    (Or.inr ⟨by intro last hl; cases hl; decide, by decide⟩)
  rw [h]
  decide

/-- Claim C5. Same-day update: when the last bucket of `daily` is dated today,
`DealDailyData` returns a sequence of the same length whose last bucket is `fn`
applied to the last bucket of `daily` and whose other buckets are those of `daily`;
no bucket is created, whatever `DailyDataKeepDays` is. -/
theorem DealDailyData_same_day (keepDays : Int) (now : String)
    (daily : List DailyServerStats) (fn : DailyServerStats → DailyServerStats)
    (last : DailyServerStats) (hlast : daily.getLast? = some last)
    (hday : last.Time = now) :
    (DealDailyData keepDays now daily fn).length = daily.length
      ∧ (DealDailyData keepDays now daily fn).getLast? = some (fn last)
      ∧ (DealDailyData keepDays now daily fn).dropLast = daily.dropLast
      ∧ ∀ i, i + 1 < daily.length →
          (DealDailyData keepDays now daily fn)[i]? = daily[i]? := by
  obtain ⟨ys, rfl⟩ := List.getLast?_eq_some_iff.mp hlast
  rw [DealDailyData_same keepDays now ys last fn hday]
  refine ⟨by simp, by simp, by simp, ?_⟩
  intro i hi
  have hi1 : i < ys.length := by simpa using hi
  rw [List.getElem?_append_left hi1, List.getElem?_append_left hi1]

/-- A second open connection on the day of the only bucket, at capacity 1. -/
theorem DealDailyData_same_day_witness :
    (DealDailyData 1 "20240101" [⟨"20240101", 5, 6, 1⟩] incAccept).length = 1
      ∧ (DealDailyData 1 "20240101" [⟨"20240101", 5, 6, 1⟩] incAccept).getLast?
          = some ⟨"20240101", 5, 6, 2⟩ := by
  have h := DealDailyData_same_day 1 "20240101" [⟨"20240101", 5, 6, 1⟩] incAccept
    ⟨"20240101", 5, 6, 1⟩ (by rfl) (by rfl)
  exact ⟨h.1, by rw [h.2.1]; decide⟩

/-! ## Registration and status -/

/-- Claim C6. Re-registration preserves the statistics: when `name` is registered,
after `SetProxyInfo(name, ...)` its record has the previous `CurrentConns`, `Daily`
and `Status`, and each of the eight configuration fields equals its argument. -/
theorem SetProxyInfo_reregister (reg : Registry) (name proxyType bindAddr : String)
    (useEncryption useGzip privilegeMode : Bool) (customDomains : List String)
    (listenPort : Int) (old : ServerMetric) (hget : mapGet reg name = some old) :
    ∃ new, mapGet (SetProxyInfo reg name proxyType bindAddr useEncryption useGzip
        privilegeMode customDomains listenPort) name = some new
      ∧ new.CurrentConns = old.CurrentConns ∧ new.Daily = old.Daily
      ∧ new.Status = old.Status
      ∧ new.Name = name ∧ new.ProxyType = proxyType ∧ new.BindAddr = bindAddr
      ∧ new.ListenPort = listenPort ∧ new.CustomDomains = customDomains
      ∧ new.UseEncryption = useEncryption ∧ new.UseGzip = useGzip
      ∧ new.PrivilegeMode = privilegeMode := by
  unfold SetProxyInfo
  simp only [hget, mapGet_mapSet_self]
  exact ⟨_, rfl, rfl, rfl, rfl, rfl, rfl, rfl, rfl, rfl, rfl, rfl, rfl⟩

/-- A record with two open connections and one bucket is registered again. -/
theorem SetProxyInfo_reregister_witness :
    ∃ new, mapGet (SetProxyInfo
        [("p", { zeroMetric with Name := "p", Status := "working", CurrentConns := 2,
                                 Daily := [⟨"20240101", 10, 20, 2⟩] })]
        "p" "http" "127.0.0.1" true false true ["a.example"] 8080) "p" = some new
      ∧ new.CurrentConns = 2 ∧ new.Daily = [⟨"20240101", 10, 20, 2⟩]
      ∧ new.Status = "working"
      ∧ new.Name = "p" ∧ new.ProxyType = "http" ∧ new.BindAddr = "127.0.0.1"
      ∧ new.ListenPort = 8080 ∧ new.CustomDomains = ["a.example"]
      ∧ new.UseEncryption = true ∧ new.UseGzip = false ∧ new.PrivilegeMode = true :=
  SetProxyInfo_reregister
    [("p", { zeroMetric with Name := "p", Status := "working", CurrentConns := 2,
                             Daily := [⟨"20240101", 10, 20, 2⟩] })]
    "p" "http" "127.0.0.1" true false true ["a.example"] 8080 _ (by rfl)

/-- Claim C7. First registration: when `name` is absent, after
`SetProxyInfo(name, ...)` the registry maps `name` to the record whose `Name` is
`name`, whose configuration fields are the arguments, and whose `Daily` is empty,
`CurrentConns` 0 and `Status` the empty string; and in every state reached from the
empty registry by mutator calls, every record is stored under its own `Name`. -/
theorem SetProxyInfo_first_registration :
    (∀ (reg : Registry) (name proxyType bindAddr : String)
        (useEncryption useGzip privilegeMode : Bool) (customDomains : List String)
        (listenPort : Int), mapGet reg name = none →
        mapGet (SetProxyInfo reg name proxyType bindAddr useEncryption useGzip
            privilegeMode customDomains listenPort) name
          = some { Name := name, ProxyType := proxyType, BindAddr := bindAddr,
                   ListenPort := listenPort, CustomDomains := customDomains,
                   Status := "", UseEncryption := useEncryption, UseGzip := useGzip,
                   PrivilegeMode := privilegeMode, CurrentConns := 0, Daily := [] })
    ∧ (∀ (keepDays : Int) (statusStr : List String) (calls : List Call) (reg : Registry),
        run keepDays statusStr emptyRegistry calls = some reg →
        ∀ k m, (k, m) ∈ reg → m.Name = k) := by
  constructor
  · intro reg name proxyType bindAddr useEncryption useGzip privilegeMode customDomains
      listenPort hget
    unfold SetProxyInfo
    simp only [hget, mapGet_mapSet_self]
    rfl
  · intro keepDays statusStr calls reg hrun
    exact name_eq_key_run keepDays statusStr calls emptyRegistry reg
      (fun k m hmem => by simp [emptyRegistry] at hmem) hrun

/-- A first registration of `q` next to `p`, and the state after scenario S1. -/
theorem SetProxyInfo_first_registration_witness :
    mapGet (SetProxyInfo [("p", { zeroMetric with Name := "p" })]
        "q" "tcp" "0.0.0.0" false false true [] 80) "q"
      = some { Name := "q", ProxyType := "tcp", BindAddr := "0.0.0.0", ListenPort := 80,
               CustomDomains := [], Status := "", UseEncryption := false,
               UseGzip := false, PrivilegeMode := true, CurrentConns := 0, Daily := [] }
    ∧ (∀ k m, (k, m) ∈ [("p",
          { zeroMetric with
            Name := "p", ProxyType := "tcp", BindAddr := "0.0.0.0", ListenPort := 80,
            PrivilegeMode := true, CurrentConns := 1,
            Daily := [⟨"20240101", 100, 0, 1⟩] })]
        → m.Name = k) :=
  ⟨SetProxyInfo_first_registration.1 [("p", { zeroMetric with Name := "p" })]
      "q" "tcp" "0.0.0.0" false false true [] 80 (by decide),
    SetProxyInfo_first_registration.2 7 sampleStatusStr
      [.setProxyInfo "p" "tcp" "0.0.0.0" false false true [] 80,
        .openConnection "20240101" "p", .addFlowIn "20240101" "p" 100] _ (by decide)⟩

/-- Claim C8, as stated, fails: with `p` registered and the three-label table, the
code 3 is outside the table, yet `SetStatus(p, 3)` does not return normally with the
registry unchanged: the index expression fails at run time. -/
theorem SetStatus_out_of_range_counterexample :
    ¬ ((mapGet [("p", { zeroMetric with Name := "p" })] "p" = none
          ∨ (3 : Int) < 0 ∨ (sampleStatusStr.length : Int) ≤ 3) →
        SetStatus sampleStatusStr [("p", { zeroMetric with Name := "p" })] "p" 3
          = some [("p", { zeroMetric with Name := "p" })]) := by
  decide

/-- Claim C8, amended. When `name` is not registered, `SetStatus(name, code)` returns
normally and leaves the whole registry unchanged, whatever the code; when `name` is
registered and the code is outside the table, the call does not return normally and
no state is produced. -/
theorem SetStatus_bad_input (statusStr : List String) (reg : Registry) (name : String)
    (code : Int) :
    (mapGet reg name = none → SetStatus statusStr reg name code = some reg)
    ∧ (∀ m, mapGet reg name = some m →
        (code < 0 ∨ (statusStr.length : Int) ≤ code) →
        SetStatus statusStr reg name code = none) := by
  constructor
  · exact SetStatus_absent statusStr reg name code
  · intro m hget hcode
    simp [SetStatus, hget, statusLabel_out_of_range statusStr code hcode]

/-- An unknown name with a code outside the table, and a known name with it. -/
theorem SetStatus_bad_input_witness :
    SetStatus sampleStatusStr [("p", { zeroMetric with Name := "p" })] "ghost" 3
        = some [("p", { zeroMetric with Name := "p" })]
    ∧ SetStatus sampleStatusStr [("p", { zeroMetric with Name := "p" })] "p" (-1)
        = none :=
  ⟨(SetStatus_bad_input sampleStatusStr [("p", { zeroMetric with Name := "p" })]
      "ghost" 3).1 (by decide),
    (SetStatus_bad_input sampleStatusStr [("p", { zeroMetric with Name := "p" })]
      "p" (-1)).2 _ (by rfl) (by decide)⟩

/-- Claim C9. `SetStatus` on valid input: when `name` is registered and the code is
inside the table, the call returns normally, the record's `Status` becomes
`StatusStr[code]`, its other fields are unchanged, every other record is unchanged and
so is the set of registered names. -/
theorem SetStatus_valid (statusStr : List String) (reg : Registry) (name : String)
    (code : Int) (m : ServerMetric) (hget : mapGet reg name = some m)
    (h0 : 0 ≤ code) (hlt : code < statusStr.length) :
    ∃ label reg1, statusStr[code.toNat]? = some label
      ∧ SetStatus statusStr reg name code = some reg1
      ∧ mapGet reg1 name = some { m with Status := label }
      ∧ (∀ other, other ≠ name → mapGet reg1 other = mapGet reg other)
      ∧ mapKeys reg1 = mapKeys reg := by
  obtain ⟨label, hidx, hlabel⟩ := statusLabel_in_range statusStr code h0 hlt
  refine ⟨label, mapSet reg name { m with Status := label }, hidx, ?_, ?_, ?_, ?_⟩
  · simp [SetStatus, hget, hlabel]
  · exact mapGet_mapSet_self _ _ _
  · intro other hne
    exact mapGet_mapSet_ne _ _ _ _ (fun h => hne h.symm)
  · exact mapKeys_mapSet_of_mem reg name _ m hget

/-- The code 1 of the three-label table is written to `p` and `q` is left alone. -/
theorem SetStatus_valid_witness :
    ∃ label reg1, sampleStatusStr[(1 : Int).toNat]? = some label
      ∧ SetStatus sampleStatusStr
          [("p", { zeroMetric with Name := "p" }), ("q", { zeroMetric with Name := "q" })]
          "p" 1 = some reg1
      ∧ mapGet reg1 "p" = some { zeroMetric with Name := "p", Status := label }
      ∧ (∀ other, other ≠ "p" → mapGet reg1 other
          = mapGet [("p", { zeroMetric with Name := "p" }),
              ("q", { zeroMetric with Name := "q" })] other)
      ∧ mapKeys reg1 = mapKeys
          [("p", { zeroMetric with Name := "p" }), ("q", { zeroMetric with Name := "q" })] :=
  SetStatus_valid sampleStatusStr
    [("p", { zeroMetric with Name := "p" }), ("q", { zeroMetric with Name := "q" })]
    "p" 1 _ (by rfl) (by decide) (by decide)

/-! ## Invariants of the reachable states -/

/-- Claim C1. For `DailyDataKeepDays ≥ 1` held fixed, in every state reached from the
empty registry by a finite sequence of `SetProxyInfo`, `SetStatus`, `OpenConnection`,
`CloseConnection`, `AddFlowIn` and `AddFlowOut` calls, whatever the clock readings,
every record has at most `DailyDataKeepDays` buckets. -/
theorem daily_length_le_keepDays (keepDays : Int) (statusStr : List String)
    (calls : List Call) (reg : Registry) (hkeep : 1 ≤ keepDays)
    (hrun : run keepDays statusStr emptyRegistry calls = some reg) :
    ∀ k m, (k, m) ∈ reg → (m.Daily.length : Int) ≤ keepDays :=
  length_le_run keepDays statusStr calls emptyRegistry reg hkeep
    (fun k m hmem => by simp [emptyRegistry] at hmem) hrun

/-- Capacity 2 and a clock that goes back from the 3rd to the 2nd and the 1st: the
record of `p` ends with two buckets. -/
theorem daily_length_le_keepDays_witness :
    run 2 sampleStatusStr emptyRegistry
        [.setProxyInfo "p" "tcp" "0.0.0.0" false false true [] 80,
          .addFlowIn "20240103" "p" 5, .addFlowIn "20240102" "p" 6,
          .openConnection "20240101" "p"]
      = some [("p",
          { zeroMetric with
            Name := "p", ProxyType := "tcp", BindAddr := "0.0.0.0", ListenPort := 80,
            PrivilegeMode := true, CurrentConns := 1,
            Daily := [⟨"20240102", 6, 0, 0⟩, ⟨"20240101", 0, 0, 1⟩] })]
    ∧ (([⟨"20240102", 6, 0, 0⟩, ⟨"20240101", 0, 0, 1⟩] :
        List DailyServerStats).length : Int) ≤ 2 :=
  ⟨by decide,
    daily_length_le_keepDays 2 sampleStatusStr
      [.setProxyInfo "p" "tcp" "0.0.0.0" false false true [] 80,
        .addFlowIn "20240103" "p" 5, .addFlowIn "20240102" "p" 6,
        .openConnection "20240101" "p"]
      [("p",
        { zeroMetric with
          Name := "p", ProxyType := "tcp", BindAddr := "0.0.0.0", ListenPort := 80,
          PrivilegeMode := true, CurrentConns := 1,
          Daily := [⟨"20240102", 6, 0, 0⟩, ⟨"20240101", 0, 0, 1⟩] })]
      (by decide) (by decide) "p" _ (List.mem_singleton.mpr rfl)⟩

/-- Claim C2. In every state reached from the empty registry by a finite sequence of
mutator calls whose clock readings never go back to an earlier day, the day keys of
every record increase strictly along `Daily`: the sequence is sorted ascending (the
order of the `YYYYMMDD` keys is the order of strings) and no two buckets share a
key. -/
theorem daily_strictly_increasing (keepDays : Int) (statusStr : List String)
    (calls : List Call) (reg : Registry)
    (hclock : (clockReadings calls).Pairwise (fun a b => a ≤ b))
    (hrun : run keepDays statusStr emptyRegistry calls = some reg) :
    ∀ k m, (k, m) ∈ reg →
      (m.Daily.map (fun d => d.Time)).Pairwise (fun a b => a < b) :=
  sorted_run keepDays statusStr calls emptyRegistry reg
    (fun k m hmem => by simp [emptyRegistry] at hmem) hclock hrun

/-- Capacity 2 and the readings 1st, 1st, 2nd, 4th: after one rotation the record of
`p` holds the 2nd and the 4th. -/
theorem daily_strictly_increasing_witness :
    run 2 sampleStatusStr emptyRegistry
        [.setProxyInfo "p" "tcp" "0.0.0.0" false false true [] 80,
          .addFlowIn "20240101" "p" 5, .addFlowOut "20240101" "p" 6,
          .openConnection "20240102" "p", .setStatus "p" 1, .addFlowIn "20240104" "p" 7]
      = some [("p",
          { zeroMetric with
            Name := "p", ProxyType := "tcp", BindAddr := "0.0.0.0", ListenPort := 80,
            Status := "working", PrivilegeMode := true, CurrentConns := 1,
            Daily := [⟨"20240102", 0, 0, 1⟩, ⟨"20240104", 7, 0, 0⟩] })]
    ∧ (([⟨"20240102", 0, 0, 1⟩, ⟨"20240104", 7, 0, 0⟩] : List DailyServerStats).map
        (fun d => d.Time)).Pairwise (fun a b => a < b) :=
  ⟨by decide,
    daily_strictly_increasing 2 sampleStatusStr
      [.setProxyInfo "p" "tcp" "0.0.0.0" false false true [] 80,
        .addFlowIn "20240101" "p" 5, .addFlowOut "20240101" "p" 6,
        .openConnection "20240102" "p", .setStatus "p" 1, .addFlowIn "20240104" "p" 7]
      [("p",
        { zeroMetric with
          Name := "p", ProxyType := "tcp", BindAddr := "0.0.0.0", ListenPort := 80,
          Status := "working", PrivilegeMode := true, CurrentConns := 1,
          Daily := [⟨"20240102", 0, 0, 1⟩, ⟨"20240104", 7, 0, 0⟩] })]
      (by
        simp only [clockReadings, List.pairwise_cons, List.mem_cons, forall_eq_or_imp,
          String.le_iff_toList_le]
        decide)
      (by decide) "p" _ (List.mem_singleton.mpr rfl)⟩

/-- Claim C10. Connection balance: in every state reached from the empty registry by
a finite sequence of calls, for every registered name, `CurrentConns` is the number
of `OpenConnection(name)` calls minus the number of `CloseConnection(name)` calls
made after the first registration of the name, as an `int64` (modulo `2^64`);
registrations made again, `SetStatus`, flow calls and calls on other names do not
count, and the value may be negative. -/
theorem current_conns_balance (keepDays : Int) (statusStr : List String)
    (calls : List Call) (reg : Registry) (name : String) (m : ServerMetric)
    (hrun : run keepDays statusStr emptyRegistry calls = some reg)
    (hget : mapGet reg name = some m) :
    m.CurrentConns
      = wrap64 ((openCount name (sinceRegistered name calls) : Int)
          - (closeCount name (sinceRegistered name calls) : Int)) :=
  conns_run_absent keepDays statusStr name calls emptyRegistry reg rfl hrun m hget

/-- One open before the registration, then two closes, a second registration, one
open, and a close of another name: the balance is -1. -/
theorem current_conns_balance_witness :
    ({ zeroMetric with
        Name := "p", ProxyType := "udp", BindAddr := "0.0.0.0", ListenPort := 81,
        PrivilegeMode := true, CurrentConns := -1,
        Daily := [⟨"20240101", 0, 0, 1⟩] } : ServerMetric).CurrentConns
      = wrap64 ((openCount "p" (sinceRegistered "p"
            [.openConnection "20240101" "p",
              .setProxyInfo "p" "tcp" "0.0.0.0" false false true [] 80,
              .closeConnection "p", .closeConnection "p",
              .setProxyInfo "p" "udp" "0.0.0.0" false false true [] 81,
              .openConnection "20240101" "p", .closeConnection "q"]) : Int)
          - (closeCount "p" (sinceRegistered "p"
            [.openConnection "20240101" "p",
              .setProxyInfo "p" "tcp" "0.0.0.0" false false true [] 80,
              .closeConnection "p", .closeConnection "p",
              .setProxyInfo "p" "udp" "0.0.0.0" false false true [] 81,
              .openConnection "20240101" "p", .closeConnection "q"]) : Int)) :=
  current_conns_balance 7 sampleStatusStr
    [.openConnection "20240101" "p",
      .setProxyInfo "p" "tcp" "0.0.0.0" false false true [] 80,
      .closeConnection "p", .closeConnection "p",
      .setProxyInfo "p" "udp" "0.0.0.0" false false true [] 81,
      .openConnection "20240101" "p", .closeConnection "q"]
    [("p", { zeroMetric with
        Name := "p", ProxyType := "udp", BindAddr := "0.0.0.0", ListenPort := 81,
        PrivilegeMode := true, CurrentConns := -1,
        Daily := [⟨"20240101", 0, 0, 1⟩] })] "p" _ (by decide) (by decide)

/-! ## Lemmas on the per-day counters -/

theorem wrap64_of_range (x : Int) (hlo : -2 ^ 63 ≤ x) (hhi : x < 2 ^ 63) : wrap64 x = x := by
  unfold wrap64
  rw [Int.emod_eq_of_lt (by omega) (by omega)]
  ring

theorem daily_step (keepDays : Int) (statusStr : List String) (name : String)
    (reg reg1 : Registry) (c : Call) (m : ServerMetric) (hget : mapGet reg name = some m)
    (h : step keepDays statusStr reg c = some reg1) :
    ∃ m1, mapGet reg1 name = some m1 ∧ m1.Daily = dailyAfter keepDays name c m.Daily := by
  cases c with
  | setProxyInfo n t b e g p cd l =>
    simp only [step, Option.some.injEq] at h
    subst h
    by_cases hn : n = name
    · subst hn
      refine ⟨_, by unfold SetProxyInfo; rw [mapGet_mapSet_self], ?_⟩
      simp [hget, dailyAfter]
    · exact ⟨m, by rw [mapGet_SetProxyInfo_ne _ _ _ _ _ _ _ _ _ _ hn, hget], rfl⟩
  | setStatus n st =>
    simp only [step] at h
    rcases SetStatus_some statusStr reg reg1 n st h with rfl | ⟨label, rfl⟩
    · exact ⟨m, hget, rfl⟩
    · by_cases hn : n = name
      · subst hn
        exact ⟨{ m with Status := label }, by rw [mapGet_withMetric_self, hget]; rfl, rfl⟩
      · exact ⟨m, by rw [mapGet_withMetric_ne _ _ _ _ hn, hget], rfl⟩
  | openConnection now n =>
    simp only [step, Option.some.injEq] at h
    subst h
    by_cases hn : n = name
    · subst hn
      exact ⟨_, by rw [OpenConnection_eq, mapGet_withMetric_self, hget]; rfl,
        by simp [dailyAfter]⟩
    · exact ⟨m, by rw [OpenConnection_eq, mapGet_withMetric_ne _ _ _ _ hn, hget],
        by simp [dailyAfter, hn]⟩
  | closeConnection n =>
    simp only [step, Option.some.injEq] at h
    subst h
    by_cases hn : n = name
    · subst hn
      exact ⟨{ m with CurrentConns := wrap64 (m.CurrentConns - 1) },
        by rw [CloseConnection_eq, mapGet_withMetric_self, hget]; rfl, rfl⟩
    · exact ⟨m, by rw [CloseConnection_eq, mapGet_withMetric_ne _ _ _ _ hn, hget], rfl⟩
  | addFlowIn now n v =>
    simp only [step, Option.some.injEq] at h
    subst h
    by_cases hn : n = name
    · subst hn
      exact ⟨_, by rw [AddFlowIn_eq, mapGet_withMetric_self, hget]; rfl,
        by simp [dailyAfter]⟩
    · exact ⟨m, by rw [AddFlowIn_eq, mapGet_withMetric_ne _ _ _ _ hn, hget],
        by simp [dailyAfter, hn]⟩
  | addFlowOut now n v =>
    simp only [step, Option.some.injEq] at h
    subst h
    by_cases hn : n = name
    · subst hn
      exact ⟨_, by rw [AddFlowOut_eq, mapGet_withMetric_self, hget]; rfl,
        by simp [dailyAfter]⟩
    · exact ⟨m, by rw [AddFlowOut_eq, mapGet_withMetric_ne _ _ _ _ hn, hget],
        by simp [dailyAfter, hn]⟩

theorem lt_now_of_last_ne (now : String) (ys : List DailyServerStats)
    (last : DailyServerStats)
    (hs : ((ys ++ [last]).map (fun d => d.Time)).Pairwise (fun a b => a < b))
    (hb : ∀ d ∈ ys ++ [last], d.Time ≤ now) (hday : last.Time ≠ now) :
    ∀ d ∈ ys ++ [last], d.Time < now := by
  intro d hmem
  have hlast : last.Time < now := lt_of_le_of_ne (hb last (by simp)) hday
  rw [List.map_append, List.pairwise_append] at hs
  rcases List.mem_append.mp hmem with h | h
  · exact lt_trans (hs.2.2 d.Time (List.mem_map_of_mem _ h) last.Time (by simp)) hlast
  · simp only [List.mem_singleton] at h
    rw [h]
    exact hlast

theorem DealDailyData_accept (keepDays : Int) (now : String)
    (daily : List DailyServerStats) (fn : DailyServerStats → DailyServerStats)
    (δ : Int) (acc : String → Int) (hfn : ∀ d, (fn d).Time = d.Time)
    (hfnT : ∀ d x, d.TotalAcceptConns = wrap64 x →
      (fn d).TotalAcceptConns = wrap64 (x + δ))
    (hs : (daily.map (fun d => d.Time)).Pairwise (fun a b => a < b))
    (hb : ∀ d ∈ daily, d.Time ≤ now)
    (h3 : ∀ d ∈ daily, d.TotalAcceptConns = wrap64 (acc d.Time))
    (h4 : ∀ t, (∀ d ∈ daily, d.Time < t) → acc t = 0) :
    (∀ d ∈ DealDailyData keepDays now daily fn,
        d.TotalAcceptConns = wrap64 (acc d.Time + if d.Time = now then δ else 0))
      ∧ (∀ t, (∀ d ∈ DealDailyData keepDays now daily fn, d.Time < t) →
        acc t + (if t = now then δ else 0) = 0) := by
  have hnewT : (fn { zeroDaily with Time := now }).Time = now := by rw [hfn]
  have hnewC : acc now = 0 →
      (fn { zeroDaily with Time := now }).TotalAcceptConns = wrap64 (acc now + δ) := by
    intro h0
    rw [h0]
    exact hfnT _ 0 (by simp [zeroDaily, wrap64_zero])
  rcases DealDailyData_cases keepDays now daily fn with ⟨hd, hr⟩ | ⟨ys, last, hd, hday, hr⟩
    | ⟨ys, last, hd, hday, _, hr⟩ | ⟨ys, last, hd, hday, _, hr⟩
  · subst hd
    have h0 : acc now = 0 := h4 now (by simp)
    rw [hr]
    constructor
    · intro d hmem
      simp only [List.mem_singleton] at hmem
      rw [hmem, hnewT, if_pos rfl]
      exact hnewC h0
    · intro t ht
      have hlt : now < t := by simpa [hnewT] using ht
      rw [if_neg (ne_of_gt hlt), h4 t (by simp)]
      rfl
  · subst hd
    rw [hr]
    have hsorted := hs
    rw [List.map_append, List.pairwise_append] at hsorted
    constructor
    · intro d hmem
      rcases List.mem_append.mp hmem with h | h
      · have hlt : d.Time < last.Time :=
          hsorted.2.2 d.Time (List.mem_map_of_mem _ h) last.Time (by simp)
        rw [hday] at hlt
        rw [if_neg (ne_of_lt hlt), add_zero]
        exact h3 d (List.mem_append_left _ h)
      · simp only [List.mem_singleton] at h
        rw [h, hfn, if_pos hday, hday]
        have := hfnT last (acc last.Time) (h3 last (by simp))
        rw [hday] at this
        exact this
    · intro t ht
      have hlt : now < t := by
        have := ht (fn last) (by simp)
        rwa [hfn, hday] at this
      rw [if_neg (ne_of_gt hlt), add_zero]
      apply h4
      intro d hmem
      rcases List.mem_append.mp hmem with h | h
      · exact ht d (List.mem_append_left _ h)
      · simp only [List.mem_singleton] at h
        rw [h, hday]
        exact hlt
  · subst hd
    have hlt := lt_now_of_last_ne now ys last hs hb hday
    have h0 : acc now = 0 := h4 now hlt
    rw [hr]
    constructor
    · intro d hmem
      rcases List.mem_append.mp hmem with h | h
      · have hd := List.mem_of_mem_tail h
        rw [if_neg (ne_of_lt (hlt d hd)), add_zero]
        exact h3 d hd
      · simp only [List.mem_singleton] at h
        rw [h, hnewT, if_pos rfl]
        exact hnewC h0
    · intro t ht
      have hnt : now < t := by
        have := ht (fn { zeroDaily with Time := now }) (by simp)
        rwa [hnewT] at this
      rw [if_neg (ne_of_gt hnt), add_zero]
      exact h4 t (fun d hd => lt_trans (hlt d hd) hnt)
  · subst hd
    have hlt := lt_now_of_last_ne now ys last hs hb hday
    have h0 : acc now = 0 := h4 now hlt
    rw [hr]
    constructor
    · intro d hmem
      rcases List.mem_append.mp hmem with h | h
      · rw [if_neg (ne_of_lt (hlt d h)), add_zero]
        exact h3 d h
      · simp only [List.mem_singleton] at h
        rw [h, hnewT, if_pos rfl]
        exact hnewC h0
    · intro t ht
      have hnt : now < t := by
        have := ht (fn { zeroDaily with Time := now }) (by simp)
        rwa [hnewT] at this
      rw [if_neg (ne_of_gt hnt), add_zero]
      exact h4 t (fun d hd => lt_trans (hlt d hd) hnt)

theorem accept_DealDailyData_call (keepDays : Int) (now : String) (rest : List String)
    (daily : List DailyServerStats) (fn : DailyServerStats → DailyServerStats)
    (δ : Int) (acc : String → Int) (hfn : ∀ d, (fn d).Time = d.Time)
    (hfnT : ∀ d x, d.TotalAcceptConns = wrap64 x →
      (fn d).TotalAcceptConns = wrap64 (x + δ))
    (hclock : (now :: rest).Pairwise (fun a b => a ≤ b))
    (hs : (daily.map (fun d => d.Time)).Pairwise (fun a b => a < b))
    (hb : ∀ d ∈ daily, ∀ t ∈ now :: rest, d.Time ≤ t)
    (h3 : ∀ d ∈ daily, d.TotalAcceptConns = wrap64 (acc d.Time))
    (h4 : ∀ t, (∀ d ∈ daily, d.Time < t) → acc t = 0) :
    ((DealDailyData keepDays now daily fn).map (fun d => d.Time)).Pairwise
        (fun a b => a < b)
      ∧ (∀ d ∈ DealDailyData keepDays now daily fn, ∀ t ∈ rest, d.Time ≤ t)
      ∧ (∀ d ∈ DealDailyData keepDays now daily fn,
          d.TotalAcceptConns = wrap64 (acc d.Time + if d.Time = now then δ else 0))
      ∧ (∀ t, (∀ d ∈ DealDailyData keepDays now daily fn, d.Time < t) →
          acc t + (if t = now then δ else 0) = 0) := by
  rw [List.pairwise_cons] at hclock
  have h12 := sorted_upd keepDays now rest fn hfn hclock.1 daily ⟨hs, hb⟩
  have h34 := DealDailyData_accept keepDays now daily fn δ acc hfn hfnT hs
    (fun d hd => hb d hd now (by simp)) h3 h4
  exact ⟨h12.1, h12.2, h34.1, h34.2⟩

theorem pairwise_clockReadings_tail (c : Call) (rest : List Call)
    (hclock : (clockReadings (c :: rest)).Pairwise (fun a b => a ≤ b)) :
    (clockReadings rest).Pairwise (fun a b => a ≤ b) := by
  cases c <;> simp only [clockReadings, List.pairwise_cons] at hclock <;>
    first
      | exact hclock.2
      | exact hclock

theorem mem_clockReadings_tail (c : Call) (rest : List Call) (t : String)
    (ht : t ∈ clockReadings rest) : t ∈ clockReadings (c :: rest) := by
  cases c <;> simp only [clockReadings, List.mem_cons] <;>
    first
      | exact Or.inr ht
      | exact ht

theorem accept_dailyAfter (keepDays : Int) (name : String) (c : Call) (rest : List Call)
    (daily : List DailyServerStats) (acc : String → Int)
    (hclock : (clockReadings (c :: rest)).Pairwise (fun a b => a ≤ b))
    (hs : (daily.map (fun d => d.Time)).Pairwise (fun a b => a < b))
    (hb : ∀ d ∈ daily, ∀ t ∈ clockReadings (c :: rest), d.Time ≤ t)
    (h3 : ∀ d ∈ daily, d.TotalAcceptConns = wrap64 (acc d.Time))
    (h4 : ∀ t, (∀ d ∈ daily, d.Time < t) → acc t = 0) :
    ((dailyAfter keepDays name c daily).map (fun d => d.Time)).Pairwise
        (fun a b => a < b)
      ∧ (∀ d ∈ dailyAfter keepDays name c daily, ∀ t ∈ clockReadings rest, d.Time ≤ t)
      ∧ (∀ d ∈ dailyAfter keepDays name c daily,
          d.TotalAcceptConns
            = wrap64 (acc d.Time + if isOpenOn name d.Time c = true then 1 else 0))
      ∧ (∀ t, (∀ d ∈ dailyAfter keepDays name c daily, d.Time < t) →
          acc t + (if isOpenOn name t c = true then 1 else 0) = 0) := by
  have hkeepAll : dailyAfter keepDays name c daily = daily →
      (∀ t, isOpenOn name t c = false) →
      ((dailyAfter keepDays name c daily).map (fun d => d.Time)).Pairwise
          (fun a b => a < b)
        ∧ (∀ d ∈ dailyAfter keepDays name c daily, ∀ t ∈ clockReadings rest, d.Time ≤ t)
        ∧ (∀ d ∈ dailyAfter keepDays name c daily,
            d.TotalAcceptConns
              = wrap64 (acc d.Time + if isOpenOn name d.Time c = true then 1 else 0))
        ∧ (∀ t, (∀ d ∈ dailyAfter keepDays name c daily, d.Time < t) →
            acc t + (if isOpenOn name t c = true then 1 else 0) = 0) := by
    intro heq hno
    rw [heq]
    refine ⟨hs, fun d hd t ht => hb d hd t (mem_clockReadings_tail c rest t ht), ?_, ?_⟩
    · intro d hd
      simp [hno, h3 d hd]
    · intro t ht
      simp [hno, h4 t ht]
  have hzero : ∀ (fn : DailyServerStats → DailyServerStats),
      (∀ d, (fn d).TotalAcceptConns = d.TotalAcceptConns) →
      ∀ d x, d.TotalAcceptConns = wrap64 x → (fn d).TotalAcceptConns = wrap64 (x + 0) := by
    intro fn hfn d x hd
    rw [hfn, hd, add_zero]
  cases c with
  | setProxyInfo n t b e g p cd l => exact hkeepAll rfl (fun _ => rfl)
  | setStatus n st => exact hkeepAll rfl (fun _ => rfl)
  | closeConnection n => exact hkeepAll rfl (fun _ => rfl)
  | openConnection now n =>
    by_cases hn : n = name
    · subst hn
      have h := accept_DealDailyData_call keepDays now (clockReadings rest) daily incAccept
        1 acc (fun _ => rfl)
        (fun d x hd => by
          show wrap64 (d.TotalAcceptConns + 1) = wrap64 (x + 1)
          rw [hd, wrap64_wrap64_add])
        hclock hs hb h3 h4
      simp only [dailyAfter, if_true, isOpenOn, beq_self_eq_true, Bool.true_and,
        beq_iff_eq]
      refine ⟨h.1, h.2.1, ?_, ?_⟩
      · intro d hd
        rw [h.2.2.1 d hd]
        by_cases hdn : d.Time = now
        · simp [hdn]
        · have hdn1 : ¬ now = d.Time := fun h => hdn h.symm
          simp [hdn, hdn1]
      · intro t ht
        have := h.2.2.2 t ht
        by_cases htn : t = now
        · simpa [htn] using this
        · have htn1 : ¬ now = t := fun h => htn h.symm
          simpa [htn, htn1] using this
    · exact hkeepAll (by simp [dailyAfter, hn]) (fun _ => by simp [isOpenOn, hn])
  | addFlowIn now n v =>
    by_cases hn : n = name
    · subst hn
      have h := accept_DealDailyData_call keepDays now (clockReadings rest) daily (addIn v)
        0 acc (fun _ => rfl) (hzero (addIn v) (fun _ => rfl)) hclock hs hb h3 h4
      simp only [dailyAfter, if_true, isOpenOn]
      refine ⟨h.1, h.2.1, ?_, ?_⟩
      · intro d hd
        simpa using h.2.2.1 d hd
      · intro t ht
        simpa using h.2.2.2 t ht
    · exact hkeepAll (by simp [dailyAfter, hn]) (fun _ => rfl)
  | addFlowOut now n v =>
    by_cases hn : n = name
    · subst hn
      have h := accept_DealDailyData_call keepDays now (clockReadings rest) daily (addOut v)
        0 acc (fun _ => rfl) (hzero (addOut v) (fun _ => rfl)) hclock hs hb h3 h4
      simp only [dailyAfter, if_true, isOpenOn]
      refine ⟨h.1, h.2.1, ?_, ?_⟩
      · intro d hd
        simpa using h.2.2.1 d hd
      · intro t ht
        simpa using h.2.2.2 t ht
    · exact hkeepAll (by simp [dailyAfter, hn]) (fun _ => rfl)

theorem accept_run (keepDays : Int) (statusStr : List String) (name : String)
    (cs : List Call) (reg reg1 : Registry) (m : ServerMetric) (acc : String → Int)
    (hget : mapGet reg name = some m)
    (hclock : (clockReadings cs).Pairwise (fun a b => a ≤ b))
    (hs : (m.Daily.map (fun d => d.Time)).Pairwise (fun a b => a < b))
    (hb : ∀ d ∈ m.Daily, ∀ t ∈ clockReadings cs, d.Time ≤ t)
    (h3 : ∀ d ∈ m.Daily, d.TotalAcceptConns = wrap64 (acc d.Time))
    (h4 : ∀ t, (∀ d ∈ m.Daily, d.Time < t) → acc t = 0)
    (h : run keepDays statusStr reg cs = some reg1) :
    ∃ m1, mapGet reg1 name = some m1
      ∧ ∀ d ∈ m1.Daily,
          d.TotalAcceptConns = wrap64 (acc d.Time + (openCountOn name d.Time cs : Int)) := by
  induction cs generalizing reg m acc with
  | nil =>
    simp only [run, Option.some.injEq] at h
    subst h
    exact ⟨m, hget, fun d hd => by simp [openCountOn, h3 d hd]⟩
  | cons c cs ih =>
    simp only [run] at h
    cases hstep : step keepDays statusStr reg c with
    | none => simp [hstep] at h
    | some r =>
      rw [hstep] at h
      obtain ⟨m1, hget1, hdaily1⟩ := daily_step keepDays statusStr name reg r c m hget hstep
      have hinv := accept_dailyAfter keepDays name c cs m.Daily acc hclock hs hb h3 h4
      rw [← hdaily1] at hinv
      obtain ⟨m2, hget2, hcount⟩ := ih r m1
        (fun t => acc t + if isOpenOn name t c = true then 1 else 0) hget1
        (pairwise_clockReadings_tail c cs hclock) hinv.1 hinv.2.1 hinv.2.2.1 hinv.2.2.2 h
      refine ⟨m2, hget2, ?_⟩
      intro d hd
      rw [hcount d hd]
      congr 1
      simp only [openCountOn, List.countP_cons]
      by_cases ho : isOpenOn name d.Time c = true
      · simp only [ho, if_true]
        push_cast
        ring
      · simp only [ho]
        simp

theorem mapGet_SetProxyInfo_absent (reg : Registry) (name proxyType bindAddr : String)
    (useEncryption useGzip privilegeMode : Bool) (customDomains : List String)
    (listenPort : Int) (hget : mapGet reg name = none) :
    ∃ m, mapGet (SetProxyInfo reg name proxyType bindAddr useEncryption useGzip
        privilegeMode customDomains listenPort) name = some m
      ∧ m.Daily = [] ∧ m.CurrentConns = 0 := by
  unfold SetProxyInfo
  rw [mapGet_mapSet_self, hget]
  exact ⟨_, rfl, rfl, rfl⟩

theorem sinceRegistered_cons_of_ne (name : String) (c : Call) (cs : List Call)
    (hc : ∀ t b e g p cd l, c ≠ .setProxyInfo name t b e g p cd l) :
    sinceRegistered name (c :: cs) = sinceRegistered name cs := by
  cases c with
  | setProxyInfo n t b e g p cd l =>
    have hn : n ≠ name := fun hn => hc t b e g p cd l (by rw [hn])
    simp [sinceRegistered, hn]
  | _ => simp [sinceRegistered]

theorem accept_run_absent (keepDays : Int) (statusStr : List String) (name : String)
    (cs : List Call) (reg reg1 : Registry) (hget : mapGet reg name = none)
    (hclock : (clockReadings cs).Pairwise (fun a b => a ≤ b))
    (h : run keepDays statusStr reg cs = some reg1) (m1 : ServerMetric)
    (hget1 : mapGet reg1 name = some m1) :
    ∀ d ∈ m1.Daily,
      d.TotalAcceptConns
        = wrap64 (openCountOn name d.Time (sinceRegistered name cs) : Int) := by
  induction cs generalizing reg with
  | nil =>
    simp only [run, Option.some.injEq] at h
    subst h
    rw [hget] at hget1
    exact absurd hget1 (by simp)
  | cons c cs ih =>
    simp only [run] at h
    cases hstep : step keepDays statusStr reg c with
    | none => simp [hstep] at h
    | some r =>
      rw [hstep] at h
      have hclock1 := pairwise_clockReadings_tail c cs hclock
      by_cases hc : ∃ t b e g p cd l, c = .setProxyInfo name t b e g p cd l
      · obtain ⟨t, b, e, g, p, cd, l, rfl⟩ := hc
        simp only [step, Option.some.injEq] at hstep
        subst hstep
        obtain ⟨m0, hm0, hd0, _⟩ := mapGet_SetProxyInfo_absent reg name t b e g p cd l hget
        obtain ⟨m2, hget2, hcount⟩ := accept_run keepDays statusStr name cs _ reg1 m0
          (fun _ => 0) hm0 hclock1 (by simp [hd0]) (by simp [hd0]) (by simp [hd0])
          (fun _ _ => rfl) h
        rw [hget1] at hget2
        cases hget2
        intro d hd
        simpa [sinceRegistered] using hcount d hd
      · have hc1 : ∀ t b e g p cd l, c ≠ .setProxyInfo name t b e g p cd l :=
          fun t b e g p cd l heq => hc ⟨t, b, e, g, p, cd, l, heq⟩
        rw [sinceRegistered_cons_of_ne name c cs hc1]
        exact ih r (absent_step keepDays statusStr name reg r c hget hc1 hstep) hclock1 h

/-! ## Per-day accept count -/

/-- Claim C11. Per-day accept count: with `DailyDataKeepDays ≥ 1` held fixed and clock
readings that never go back to an earlier day, in every state reached from the empty
registry, for every registered name and every bucket of its `Daily`, the bucket's
`TotalAcceptConns` is the number of `OpenConnection(name)` calls made, once the name
was registered, while the clock read the day of the bucket. The counter is an
`int64`: the equality holds modulo `2^64`, hence exactly as long as the number of
calls is below `2^63`. -/
theorem accept_count_per_day (keepDays : Int) (statusStr : List String)
    (calls : List Call) (reg : Registry) (name : String) (m : ServerMetric)
    (d : DailyServerStats) (_hkeep : 1 ≤ keepDays)
    (hclock : (clockReadings calls).Pairwise (fun a b => a ≤ b))
    (hrun : run keepDays statusStr emptyRegistry calls = some reg)
    (hget : mapGet reg name = some m) (hd : d ∈ m.Daily) :
    d.TotalAcceptConns
        = wrap64 (openCountOn name d.Time (sinceRegistered name calls) : Int)
      ∧ ((openCountOn name d.Time (sinceRegistered name calls) : Int) < 2 ^ 63 →
          d.TotalAcceptConns
            = (openCountOn name d.Time (sinceRegistered name calls) : Int)) := by
  have h := accept_run_absent keepDays statusStr name calls emptyRegistry reg rfl hclock
    hrun m hget d hd
  refine ⟨h, fun hlt => ?_⟩
  rw [h]
  exact wrap64_of_range _ (by
    have : (0 : Int) ≤ (openCountOn name d.Time (sinceRegistered name calls) : Int) :=
      Int.ofNat_nonneg _
    omega) hlt

/-- In `sampleAcceptCalls` the bucket of the 1st counts the two opens of `p` made on
the 1st after the registration. -/
theorem accept_count_per_day_witness :
    run 7 sampleStatusStr emptyRegistry sampleAcceptCalls = some [("p", sampleAcceptMetric)]
    ∧ (⟨"20240101", 5, 0, 2⟩ : DailyServerStats).TotalAcceptConns
        = wrap64 (openCountOn "p" "20240101" (sinceRegistered "p" sampleAcceptCalls) : Int)
    ∧ ((openCountOn "p" "20240101" (sinceRegistered "p" sampleAcceptCalls) : Int) < 2 ^ 63 →
        (⟨"20240101", 5, 0, 2⟩ : DailyServerStats).TotalAcceptConns
          = (openCountOn "p" "20240101" (sinceRegistered "p" sampleAcceptCalls) : Int)) :=
  ⟨by decide,
    accept_count_per_day 7 sampleStatusStr sampleAcceptCalls [("p", sampleAcceptMetric)]
      "p" sampleAcceptMetric ⟨"20240101", 5, 0, 2⟩ (by decide)
      (by
        simp only [sampleAcceptCalls, clockReadings, List.pairwise_cons, List.mem_cons,
          forall_eq_or_imp, String.le_iff_toList_le]
        decide)
      (by decide) (by decide) (by decide)⟩

/-! ## Frame properties of the data plane -/

/-- Claim C12. `CloseConnection` does not touch the daily history: when `name` is
registered, after `CloseConnection(name)` its record is the previous record with
`CurrentConns` decreased by 1 (an `int64` decrement, which is the integer minus 1
unless the counter is at the least `int64`), `Daily` and every other field unchanged;
and after `SetProxyInfo` on a fresh name followed by `CloseConnection`,
`CurrentConns` is -1 and `Daily` is empty. -/
theorem CloseConnection_frame :
    (∀ (reg : Registry) (name : String) (m : ServerMetric), mapGet reg name = some m →
        mapGet (CloseConnection reg name) name
            = some { m with CurrentConns := wrap64 (m.CurrentConns - 1) }
          ∧ (-2 ^ 63 < m.CurrentConns → m.CurrentConns < 2 ^ 63 →
              wrap64 (m.CurrentConns - 1) = m.CurrentConns - 1))
    ∧ (∀ (reg : Registry) (name proxyType bindAddr : String)
        (useEncryption useGzip privilegeMode : Bool) (customDomains : List String)
        (listenPort : Int), mapGet reg name = none →
        ∃ m1, mapGet (CloseConnection (SetProxyInfo reg name proxyType bindAddr
            useEncryption useGzip privilegeMode customDomains listenPort) name) name
            = some m1
          ∧ m1.CurrentConns = -1 ∧ m1.Daily = []) := by
  constructor
  · intro reg name m hget
    refine ⟨by rw [CloseConnection_eq, mapGet_withMetric_self, hget]; rfl, ?_⟩
    intro hlo hhi
    exact wrap64_of_range _ (by omega) (by omega)
  · intro reg name proxyType bindAddr useEncryption useGzip privilegeMode customDomains
      listenPort hget
    obtain ⟨m0, hm0, hd0, hc0⟩ := mapGet_SetProxyInfo_absent reg name proxyType bindAddr
      useEncryption useGzip privilegeMode customDomains listenPort hget
    refine ⟨{ m0 with CurrentConns := wrap64 (m0.CurrentConns - 1) },
      by rw [CloseConnection_eq, mapGet_withMetric_self, hm0]; rfl, ?_, hd0⟩
    show wrap64 (m0.CurrentConns - 1) = -1
    rw [hc0]
    decide

/-- Scenario S2 of the specification, and a close on a record with two connections
and one bucket. -/
theorem CloseConnection_frame_witness :
    (mapGet (CloseConnection
          [("p", { zeroMetric with Name := "p", CurrentConns := 2,
                                   Daily := [⟨"20240101", 10, 20, 2⟩] })] "p") "p"
        = some { zeroMetric with Name := "p", CurrentConns := wrap64 (2 - 1),
                                 Daily := [⟨"20240101", 10, 20, 2⟩] }
      ∧ (-2 ^ 63 < (2 : Int) → (2 : Int) < 2 ^ 63 → wrap64 (2 - 1) = 2 - 1))
    ∧ ∃ m1, mapGet (CloseConnection (SetProxyInfo emptyRegistry "p" "tcp" "0.0.0.0"
          false false true [] 80) "p") "p" = some m1
        ∧ m1.CurrentConns = -1 ∧ m1.Daily = [] :=
  ⟨CloseConnection_frame.1
      [("p", { zeroMetric with Name := "p", CurrentConns := 2,
                               Daily := [⟨"20240101", 10, 20, 2⟩] })] "p" _ (by rfl),
    CloseConnection_frame.2 emptyRegistry "p" "tcp" "0.0.0.0" false false true [] 80
      (by rfl)⟩

/-- Claim C13. Unknown-name mutators are silent no-ops: when `name` is not
registered, each of `OpenConnection(name)`, `CloseConnection(name)`,
`AddFlowIn(name, delta)` and `AddFlowOut(name, delta)` returns with the registry
exactly as it was, whatever the clock reading and the delta. -/
theorem unknown_name_noop (keepDays : Int) (now : String) (reg : Registry)
    (name : String) (delta : Int) (hget : mapGet reg name = none) :
    OpenConnection keepDays now reg name = reg
      ∧ CloseConnection reg name = reg
      ∧ AddFlowIn keepDays now reg name delta = reg
      ∧ AddFlowOut keepDays now reg name delta = reg := by
  refine ⟨?_, ?_, ?_, ?_⟩
  · simp [OpenConnection, hget]
  · simp [CloseConnection, hget]
  · simp [AddFlowIn, hget]
  · simp [AddFlowOut, hget]

/-- Scenario S3 of the specification: calls on `ghost` next to a registered `p`. -/
theorem unknown_name_noop_witness :
    OpenConnection 7 "20240101" [("p", { zeroMetric with Name := "p" })] "ghost"
        = [("p", { zeroMetric with Name := "p" })]
      ∧ CloseConnection [("p", { zeroMetric with Name := "p" })] "ghost"
        = [("p", { zeroMetric with Name := "p" })]
      ∧ AddFlowIn 7 "20240101" [("p", { zeroMetric with Name := "p" })] "ghost" 10
        = [("p", { zeroMetric with Name := "p" })]
      ∧ AddFlowOut 7 "20240101" [("p", { zeroMetric with Name := "p" })] "ghost" 10
        = [("p", { zeroMetric with Name := "p" })] :=
  unknown_name_noop 7 "20240101" [("p", { zeroMetric with Name := "p" })] "ghost" 10
    (by decide)

/-! ## Lemmas on snapshots -/

theorem unmarshalDaily_marshalDaily (d : DailyServerStats) :
    unmarshalDaily (marshalDaily d) = d := by
  simp [unmarshalDaily, marshalDaily, setDailyField, decodeString, decodeInt, zeroDaily]

theorem unmarshalMetric_marshalMetric (m : ServerMetric) :
    unmarshalMetric (marshalMetric m) = m := by
  have hd : List.map (unmarshalDaily ∘ marshalDaily) m.Daily = m.Daily := by
    rw [show (unmarshalDaily ∘ marshalDaily) = id from
      funext unmarshalDaily_marshalDaily]
    simp
  have hs : List.map (decodeString "" ∘ JsonValue.str) m.CustomDomains = m.CustomDomains := by
    rw [show (decodeString "" ∘ JsonValue.str) = id from funext (fun _ => rfl)]
    simp
  simp [unmarshalMetric, marshalMetric, setMetricField, decodeString, decodeInt,
    decodeBool, decodeStrings, decodeDailies, zeroMetric, hd, hs]

theorem mapGet_eq_none_iff (reg : Registry) (name : String) :
    mapGet reg name = none ↔ name ∉ mapKeys reg := by
  induction reg with
  | nil => simp [mapGet, mapKeys]
  | cons kv rest ih =>
    obtain ⟨k, m⟩ := kv
    by_cases hk : k = name
    · simp [mapGet, mapKeys, hk]
    · have hk1 : ¬ name = k := fun h => hk h.symm
      simp only [mapKeys] at ih
      simp [mapGet, mapKeys, hk, hk1, ih]

theorem mapKeys_mapSet_of_not_mem (reg : Registry) (name : String) (v : ServerMetric)
    (hget : mapGet reg name = none) : mapKeys (mapSet reg name v) = mapKeys reg ++ [name] := by
  induction reg with
  | nil => simp [mapSet, mapKeys]
  | cons kv rest ih =>
    obtain ⟨k, m⟩ := kv
    by_cases hk : k = name
    · simp [mapGet, hk] at hget
    · simp only [mapGet, hk, if_false] at hget
      have := ih hget
      simp only [mapKeys] at this
      simp [mapSet, mapKeys, hk, this]

theorem mapGet_snapshot_fold (entries : Registry) (result : Registry) (name : String)
    (hnodup : (mapKeys entries).Nodup) :
    mapGet (entries.foldl (fun result entry =>
        mapSet result entry.1 (unmarshalMetric (marshalMetric entry.2))) result) name
      = match mapGet entries name with
        | some m => some (unmarshalMetric (marshalMetric m))
        | none => mapGet result name := by
  induction entries generalizing result with
  | nil => simp [mapGet]
  | cons kv rest ih =>
    obtain ⟨k, m⟩ := kv
    simp only [mapKeys, List.map_cons, List.nodup_cons] at hnodup
    rw [List.foldl_cons, ih _ hnodup.2]
    by_cases hk : k = name
    · subst hk
      have hnone : mapGet rest k = none := (mapGet_eq_none_iff rest k).mpr hnodup.1
      simp [hnone, mapGet, mapGet_mapSet_self]
    · simp only [mapGet, hk, if_false]
      cases hr : mapGet rest name with
      | none => simp [mapGet_mapSet_ne _ _ _ _ hk]
      | some m1 => rfl

theorem nodup_keys_step (keepDays : Int) (statusStr : List String) (reg reg1 : Registry)
    (c : Call) (hnodup : (mapKeys reg).Nodup)
    (h : step keepDays statusStr reg c = some reg1) : (mapKeys reg1).Nodup := by
  cases c with
  | setProxyInfo n t b e g p cd l =>
    simp only [step, Option.some.injEq] at h
    subst h
    unfold SetProxyInfo
    cases hg : mapGet reg n with
    | none =>
      rw [mapKeys_mapSet_of_not_mem _ _ _ hg]
      exact List.Nodup.append hnodup (by simp)
        (by simpa using (mapGet_eq_none_iff reg n).mp hg)
    | some m0 =>
      rw [mapKeys_mapSet_of_mem _ _ _ m0 hg]
      exact hnodup
  | setStatus n st =>
    simp only [step] at h
    rcases SetStatus_some statusStr reg reg1 n st h with rfl | ⟨label, rfl⟩
    · exact hnodup
    · rw [mapKeys_withMetric]
      exact hnodup
  | openConnection now n =>
    simp only [step, Option.some.injEq] at h
    subst h
    rw [OpenConnection_eq, mapKeys_withMetric]
    exact hnodup
  | closeConnection n =>
    simp only [step, Option.some.injEq] at h
    subst h
    rw [CloseConnection_eq, mapKeys_withMetric]
    exact hnodup
  | addFlowIn now n v =>
    simp only [step, Option.some.injEq] at h
    subst h
    rw [AddFlowIn_eq, mapKeys_withMetric]
    exact hnodup
  | addFlowOut now n v =>
    simp only [step, Option.some.injEq] at h
    subst h
    rw [AddFlowOut_eq, mapKeys_withMetric]
    exact hnodup

theorem nodup_keys_run (keepDays : Int) (statusStr : List String) (cs : List Call)
    (reg reg1 : Registry) (hnodup : (mapKeys reg).Nodup)
    (h : run keepDays statusStr reg cs = some reg1) : (mapKeys reg1).Nodup := by
  induction cs generalizing reg with
  | nil =>
    simp only [run, Option.some.injEq] at h
    subst h
    exact hnodup
  | cons c cs ih =>
    simp only [run] at h
    cases hs : step keepDays statusStr reg c with
    | none => simp [hs] at h
    | some r =>
      rw [hs] at h
      exact ih r (nodup_keys_step keepDays statusStr reg r c hnodup hs) h

/-! ## Lemmas on Go strings -/

theorem Raw.toNat_ofNat (r : Nat) (h : r.isValidChar) : (Char.ofNat r).toNat = r := by
  unfold Char.ofNat
  rw [dif_pos h]
  rfl

theorem Raw.isCont_iff (b : Nat) : Raw.isCont b = true ↔ 0x80 ≤ b ∧ b ≤ 0xBF := by
  simp [Raw.isCont]

theorem Raw.decodeRune_encodeRune (s rest : Raw.GoString) (r : Nat)
    (h : Raw.decodeRune s = some (r, rest)) :
    r.isValidChar ∧ Raw.encodeRune r ++ rest = s := by
  unfold Nat.isValidChar
  cases s with
  | nil => simp [Raw.decodeRune] at h
  | cons b0 s1 =>
    dsimp only [Raw.decodeRune] at h
    by_cases hb : b0 < 0x80
    · rw [if_pos hb] at h
      simp only [Option.some.injEq, Prod.mk.injEq] at h
      obtain ⟨rfl, rfl⟩ := h
      refine ⟨by omega, ?_⟩
      simp [Raw.encodeRune, hb]
    · rw [if_neg hb] at h
      cases s1 with
      | nil => simp at h
      | cons b1 s2 =>
        dsimp only at h
        by_cases h2 : (decide (0xC2 ≤ b0) && decide (b0 ≤ 0xDF) && Raw.isCont b1) = true
        · rw [if_pos h2] at h
          simp only [Bool.and_eq_true, decide_eq_true_eq, Raw.isCont_iff] at h2
          simp only [Option.some.injEq, Prod.mk.injEq] at h
          obtain ⟨rfl, rfl⟩ := h
          refine ⟨by omega, ?_⟩
          have e1 : ¬ ((b0 - 0xC0) * 64 + (b1 - 0x80) < 0x80) := by omega
          have e2 : (b0 - 0xC0) * 64 + (b1 - 0x80) < 0x800 := by omega
          have e3 : 0xC0 + ((b0 - 0xC0) * 64 + (b1 - 0x80)) / 64 = b0 := by omega
          have e4 : 0x80 + ((b0 - 0xC0) * 64 + (b1 - 0x80)) % 64 = b1 := by omega
          simp only [Raw.encodeRune, if_neg e1, if_pos e2, e3, e4, List.cons_append,
            List.nil_append]
        · rw [if_neg h2] at h
          cases s2 with
          | nil => simp at h
          | cons b2 s3 =>
            dsimp only at h
            by_cases h3 : (Raw.startsThree b0 b1 && Raw.isCont b2) = true
            · rw [if_pos h3] at h
              simp only [Raw.startsThree, Bool.and_eq_true, Bool.or_eq_true,
                decide_eq_true_eq, Raw.isCont_iff] at h3
              simp only [Option.some.injEq, Prod.mk.injEq] at h
              obtain ⟨rfl, rfl⟩ := h
              refine ⟨by omega, ?_⟩
              have e1 : ¬ ((b0 - 0xE0) * 4096 + (b1 - 0x80) * 64 + (b2 - 0x80) < 0x80) := by
                omega
              have e2 : ¬ ((b0 - 0xE0) * 4096 + (b1 - 0x80) * 64 + (b2 - 0x80) < 0x800) := by
                omega
              have e3 : (b0 - 0xE0) * 4096 + (b1 - 0x80) * 64 + (b2 - 0x80) < 0x10000 := by
                omega
              have e4 : 0xE0 + ((b0 - 0xE0) * 4096 + (b1 - 0x80) * 64 + (b2 - 0x80)) / 4096
                  = b0 := by omega
              have e5 : 0x80 + ((b0 - 0xE0) * 4096 + (b1 - 0x80) * 64 + (b2 - 0x80)) / 64 % 64
                  = b1 := by omega
              have e6 : 0x80 + ((b0 - 0xE0) * 4096 + (b1 - 0x80) * 64 + (b2 - 0x80)) % 64
                  = b2 := by omega
              simp only [Raw.encodeRune, if_neg e1, if_neg e2, if_pos e3, e4, e5, e6,
                List.cons_append, List.nil_append]
            · rw [if_neg h3] at h
              cases s3 with
              | nil => simp at h
              | cons b3 s4 =>
                dsimp only at h
                by_cases h4 : (Raw.startsFour b0 b1 && Raw.isCont b2 && Raw.isCont b3) = true
                · rw [if_pos h4] at h
                  simp only [Raw.startsFour, Bool.and_eq_true, Bool.or_eq_true,
                    decide_eq_true_eq, Raw.isCont_iff] at h4
                  simp only [Option.some.injEq, Prod.mk.injEq] at h
                  obtain ⟨rfl, rfl⟩ := h
                  refine ⟨by omega, ?_⟩
                  have e1 : ¬ ((b0 - 0xF0) * 262144 + (b1 - 0x80) * 4096 + (b2 - 0x80) * 64
                      + (b3 - 0x80) < 0x80) := by omega
                  have e2 : ¬ ((b0 - 0xF0) * 262144 + (b1 - 0x80) * 4096 + (b2 - 0x80) * 64
                      + (b3 - 0x80) < 0x800) := by omega
                  have e3 : ¬ ((b0 - 0xF0) * 262144 + (b1 - 0x80) * 4096 + (b2 - 0x80) * 64
                      + (b3 - 0x80) < 0x10000) := by omega
                  have e4 : 0xF0 + ((b0 - 0xF0) * 262144 + (b1 - 0x80) * 4096
                      + (b2 - 0x80) * 64 + (b3 - 0x80)) / 262144 = b0 := by omega
                  have e5 : 0x80 + ((b0 - 0xF0) * 262144 + (b1 - 0x80) * 4096
                      + (b2 - 0x80) * 64 + (b3 - 0x80)) / 4096 % 64 = b1 := by omega
                  have e6 : 0x80 + ((b0 - 0xF0) * 262144 + (b1 - 0x80) * 4096
                      + (b2 - 0x80) * 64 + (b3 - 0x80)) / 64 % 64 = b2 := by omega
                  have e7 : 0x80 + ((b0 - 0xF0) * 262144 + (b1 - 0x80) * 4096
                      + (b2 - 0x80) * 64 + (b3 - 0x80)) % 64 = b3 := by omega
                  simp only [Raw.encodeRune, if_neg e1, if_neg e2, if_neg e3, e4, e5, e6, e7,
                    List.cons_append, List.nil_append]
                · rw [if_neg h4] at h
                  simp at h

theorem Raw.encodeChars_textChars (fuel : Nat) (s : Raw.GoString)
    (h : Raw.validFuel fuel s = true) : Raw.encodeChars (Raw.textChars fuel s) = s := by
  induction fuel generalizing s with
  | zero =>
    cases s with
    | nil => rfl
    | cons b rest => simp [Raw.validFuel] at h
  | succ fuel ih =>
    cases s with
    | nil => rfl
    | cons b0 rest =>
      simp only [Raw.validFuel] at h
      simp only [Raw.textChars]
      cases hd : Raw.decodeRune (b0 :: rest) with
      | none => simp [hd] at h
      | some p =>
        obtain ⟨r, rest1⟩ := p
        simp only [hd] at h
        obtain ⟨hvalid, henc⟩ := Raw.decodeRune_encodeRune _ _ _ hd
        simp only [Raw.encodeChars, Raw.toNat_ofNat r hvalid, ih rest1 h]
        exact henc

theorem Raw.coerceUTF8_valid (s : Raw.GoString) (h : Raw.validUTF8 s = true) :
    Raw.coerceUTF8 s = s :=
  Raw.encodeChars_textChars s.length s h

theorem Raw.map_coerceUTF8_valid (l : List Raw.GoString)
    (h : l.all Raw.validUTF8 = true) : l.map Raw.coerceUTF8 = l := by
  induction l with
  | nil => rfl
  | cons s rest ih =>
    simp only [List.all_cons, Bool.and_eq_true] at h
    simp only [List.map_cons, Raw.coerceUTF8_valid s h.1, ih h.2]

theorem Raw.map_coerceDaily_valid (l : List Raw.DailyServerStats)
    (h : l.all (fun d => Raw.validUTF8 d.Time) = true) :
    l.map (fun d => { d with Time := Raw.coerceUTF8 d.Time }) = l := by
  induction l with
  | nil => rfl
  | cons d rest ih =>
    simp only [List.all_cons, Bool.and_eq_true] at h
    simp only [List.map_cons, Raw.coerceUTF8_valid d.Time h.1, ih h.2]

theorem Raw.roundtrip_coerces (m : Raw.ServerMetric) :
    Raw.unmarshalMetric (Raw.marshalMetric m)
      = { Name := Raw.coerceUTF8 m.Name, ProxyType := Raw.coerceUTF8 m.ProxyType,
          BindAddr := Raw.coerceUTF8 m.BindAddr, ListenPort := m.ListenPort,
          CustomDomains := m.CustomDomains.map Raw.coerceUTF8,
          Status := Raw.coerceUTF8 m.Status, UseEncryption := m.UseEncryption,
          UseGzip := m.UseGzip, PrivilegeMode := m.PrivilegeMode,
          CurrentConns := m.CurrentConns,
          Daily := m.Daily.map (fun d => { d with Time := Raw.coerceUTF8 d.Time }) } := by
  unfold Raw.unmarshalMetric Raw.marshalMetric
  rw [Metric.unmarshalMetric_marshalMetric]
  simp [Raw.bytesOfMetric, Raw.textOfMetric, Raw.coerceUTF8, Raw.bytesOfDaily,
    Raw.textOfDaily, Function.comp_def]

/-! ## The query plane -/

/-- Claim C14, as stated, fails. After `SetProxyInfo("\xff", ...)` on the empty registry
the name `"\xff"` is registered and the Name of its record is the byte `0xff`; the Name
of the snapshot `GetProxyMetrics("\xff")` is the three bytes `0xef 0xbf 0xbd` of U+FFFD,
which `json.Marshal` wrote for the invalid byte: the round trip is not the identity on
the field Name. -/
theorem GetProxyMetrics_invalid_utf8_counterexample :
    ∃ m s, Raw.mapGet Raw.badNameRegistry [0xff] = some m
      ∧ (Raw.GetProxyMetrics Raw.badNameRegistry [0xff]).2 = some s
      ∧ m.Name = [0xff] ∧ s.Name = [0xEF, 0xBF, 0xBD] ∧ s.Name ≠ m.Name :=
  ⟨_, _, rfl, rfl, rfl, by decide, by decide⟩

/-- Claim C14, amended. For every registry state and name, `GetProxyMetrics(name)`
returns `nil` exactly when `name` is not registered. When it is registered, the result
is a record equal to the registry record in the fields ListenPort, UseEncryption,
UseGzip, PrivilegeMode, CurrentConns and in the numbers of every entry of Daily, in
order; each string (Name, Type, BindAddr, Status, every element of CustomDomains, the
Time of every entry of Daily) is the string of the record with every byte that starts
no valid UTF-8 encoding replaced by the encoding of U+FFFD. When every string of the
record is valid UTF-8 the result equals the record in every public field: a string that
is valid UTF-8 is left as it is. The call leaves the registry unchanged. -/
theorem GetProxyMetrics_faithful_up_to_utf8 (reg : Raw.Registry) (name : Raw.GoString) :
    ((Raw.GetProxyMetrics reg name).2 = none ↔ Raw.mapGet reg name = none)
      ∧ (∀ m, Raw.mapGet reg name = some m →
          ∃ s, (Raw.GetProxyMetrics reg name).2 = some s
            ∧ s.Name = Raw.coerceUTF8 m.Name ∧ s.ProxyType = Raw.coerceUTF8 m.ProxyType
            ∧ s.BindAddr = Raw.coerceUTF8 m.BindAddr ∧ s.ListenPort = m.ListenPort
            ∧ s.CustomDomains = m.CustomDomains.map Raw.coerceUTF8
            ∧ s.Status = Raw.coerceUTF8 m.Status ∧ s.UseEncryption = m.UseEncryption
            ∧ s.UseGzip = m.UseGzip ∧ s.PrivilegeMode = m.PrivilegeMode
            ∧ s.CurrentConns = m.CurrentConns
            ∧ s.Daily = m.Daily.map (fun d => { d with Time := Raw.coerceUTF8 d.Time }))
      ∧ (∀ m, Raw.mapGet reg name = some m → Raw.validMetric m = true →
          (Raw.GetProxyMetrics reg name).2 = some m)
      ∧ (∀ t : Raw.GoString, Raw.validUTF8 t = true → Raw.coerceUTF8 t = t)
      ∧ (Raw.GetProxyMetrics reg name).1 = reg := by
  refine ⟨?_, ?_, ?_, Raw.coerceUTF8_valid, ?_⟩
  · unfold Raw.GetProxyMetrics
    cases h : Raw.mapGet reg name <;> simp
  · intro m hget
    refine ⟨Raw.unmarshalMetric (Raw.marshalMetric m), ?_, ?_⟩
    · simp only [Raw.GetProxyMetrics, hget]
    · rw [Raw.roundtrip_coerces]
      exact ⟨rfl, rfl, rfl, rfl, rfl, rfl, rfl, rfl, rfl, rfl, rfl⟩
  · intro m hget hvalid
    simp only [Raw.validMetric, Bool.and_eq_true] at hvalid
    obtain ⟨⟨⟨⟨⟨h1, h2⟩, h3⟩, h4⟩, h5⟩, h6⟩ := hvalid
    simp only [Raw.GetProxyMetrics, hget, Raw.roundtrip_coerces,
      Raw.coerceUTF8_valid _ h1, Raw.coerceUTF8_valid _ h2, Raw.coerceUTF8_valid _ h3,
      Raw.coerceUTF8_valid _ h4, Raw.map_coerceUTF8_valid _ h5,
      Raw.map_coerceDaily_valid _ h6]
  · unfold Raw.GetProxyMetrics
    cases h : Raw.mapGet reg name <;> rfl

/-- The snapshot of a record with an invalid status, the snapshot of a record of valid
strings, and the absent result for a name that is not registered. -/
theorem GetProxyMetrics_faithful_up_to_utf8_witness :
    (∃ s, (Raw.GetProxyMetrics [(Raw.ascii "p", Raw.sampleBadMetric)] (Raw.ascii "p")).2
          = some s
        ∧ s.Name = Raw.coerceUTF8 Raw.sampleBadMetric.Name
        ∧ s.ProxyType = Raw.coerceUTF8 Raw.sampleBadMetric.ProxyType
        ∧ s.BindAddr = Raw.coerceUTF8 Raw.sampleBadMetric.BindAddr
        ∧ s.ListenPort = Raw.sampleBadMetric.ListenPort
        ∧ s.CustomDomains = Raw.sampleBadMetric.CustomDomains.map Raw.coerceUTF8
        ∧ s.Status = Raw.coerceUTF8 Raw.sampleBadMetric.Status
        ∧ s.UseEncryption = Raw.sampleBadMetric.UseEncryption
        ∧ s.UseGzip = Raw.sampleBadMetric.UseGzip
        ∧ s.PrivilegeMode = Raw.sampleBadMetric.PrivilegeMode
        ∧ s.CurrentConns = Raw.sampleBadMetric.CurrentConns
        ∧ s.Daily = Raw.sampleBadMetric.Daily.map
            (fun d => { d with Time := Raw.coerceUTF8 d.Time }))
      ∧ Raw.coerceUTF8 Raw.sampleBadMetric.Status
          = [0x6F, 0xEF, 0xBF, 0xBD, 0x6B, 0xEF, 0xBF, 0xBD]
      ∧ (Raw.GetProxyMetrics [(Raw.ascii "p", Raw.sampleMetric)] (Raw.ascii "p")).2
          = some Raw.sampleMetric
      ∧ ((Raw.GetProxyMetrics [(Raw.ascii "p", Raw.sampleMetric)] (Raw.ascii "ghost")).2 = none
          ↔ Raw.mapGet [(Raw.ascii "p", Raw.sampleMetric)] (Raw.ascii "ghost") = none)
      ∧ (Raw.GetProxyMetrics [(Raw.ascii "p", Raw.sampleMetric)] (Raw.ascii "p")).1
          = [(Raw.ascii "p", Raw.sampleMetric)] :=
  ⟨(GetProxyMetrics_faithful_up_to_utf8 [(Raw.ascii "p", Raw.sampleBadMetric)]
        (Raw.ascii "p")).2.1 Raw.sampleBadMetric (by decide),
    by decide,
    (GetProxyMetrics_faithful_up_to_utf8 [(Raw.ascii "p", Raw.sampleMetric)]
        (Raw.ascii "p")).2.2.1 Raw.sampleMetric (by decide) (by decide),
    (GetProxyMetrics_faithful_up_to_utf8 [(Raw.ascii "p", Raw.sampleMetric)]
        (Raw.ascii "ghost")).1,
    (GetProxyMetrics_faithful_up_to_utf8 [(Raw.ascii "p", Raw.sampleMetric)]
        (Raw.ascii "p")).2.2.2.2⟩

/-- Claim C16. `GetAllProxyMetrics` covers exactly the registered names: for a
registry state (a map: no name occurs twice), the names of the returned map are the
registered names, each name is mapped to the snapshot that `GetProxyMetrics` returns
for it in the same state, and the call leaves the registry unchanged. -/
theorem GetAllProxyMetrics_covers (reg : Registry) (hmap : (mapKeys reg).Nodup) :
    (∀ name, name ∈ mapKeys (GetAllProxyMetrics reg).2 ↔ name ∈ mapKeys reg)
      ∧ (∀ name, mapGet (GetAllProxyMetrics reg).2 name = (GetProxyMetrics reg name).2)
      ∧ (GetAllProxyMetrics reg).1 = reg := by
  have hget : ∀ name,
      mapGet (GetAllProxyMetrics reg).2 name = (GetProxyMetrics reg name).2 := by
    intro name
    unfold GetAllProxyMetrics GetProxyMetrics
    simp only []
    rw [mapGet_snapshot_fold reg [] name hmap]
    cases h : mapGet reg name <;> simp [mapGet]
  refine ⟨?_, hget, rfl⟩
  intro name
  have h1 := mapGet_eq_none_iff (GetAllProxyMetrics reg).2 name
  have h2 := mapGet_eq_none_iff reg name
  rw [hget name] at h1
  have h3 : (GetProxyMetrics reg name).2 = none ↔ mapGet reg name = none := by
    unfold GetProxyMetrics
    cases h : mapGet reg name <;> simp
  rw [h3] at h1
  constructor
  · intro hin
    by_contra hout
    exact (h1.mp (h2.mpr hout)) hin
  · intro hin
    by_contra hout
    exact (h2.mp (h1.mpr hout)) hin

/-- Two registered names: the returned map has their snapshots and nothing for
`ghost`. -/
theorem GetAllProxyMetrics_covers_witness :
    (∀ name, name ∈ mapKeys (GetAllProxyMetrics
          [("p", sampleAcceptMetric), ("q", { zeroMetric with Name := "q" })]).2
        ↔ name ∈ mapKeys [("p", sampleAcceptMetric), ("q", { zeroMetric with Name := "q" })])
      ∧ (∀ name, mapGet (GetAllProxyMetrics
          [("p", sampleAcceptMetric), ("q", { zeroMetric with Name := "q" })]).2 name
        = (GetProxyMetrics
          [("p", sampleAcceptMetric), ("q", { zeroMetric with Name := "q" })] name).2)
      ∧ (GetAllProxyMetrics
          [("p", sampleAcceptMetric), ("q", { zeroMetric with Name := "q" })]).1
        = [("p", sampleAcceptMetric), ("q", { zeroMetric with Name := "q" })] :=
  GetAllProxyMetrics_covers
    [("p", sampleAcceptMetric), ("q", { zeroMetric with Name := "q" })] (by decide)

/-! ## Clock regression and isolation -/

/-- Claim C19. Clock regression produces duplicate days: there are a
`DailyDataKeepDays ≥ 1`, a sequence with strictly increasing day keys and a value of
today equal to the key of a bucket that is not the last one, for which
`DealDailyData` still appends a new last bucket dated today, so that the result has
two buckets with the same key and is not sorted strictly ascending. -/
theorem DealDailyData_clock_regression :
    ∃ (keepDays : Int) (daily : List DailyServerStats) (now : String)
      (fn : DailyServerStats → DailyServerStats),
      1 ≤ keepDays
        ∧ (daily.map (fun d => d.Time)).Pairwise (fun a b => a < b)
        ∧ now ∈ daily.dropLast.map (fun d => d.Time)
        ∧ DealDailyData keepDays now daily fn
            = daily ++ [fn { Time := now, FlowIn := 0, FlowOut := 0, TotalAcceptConns := 0 }]
        ∧ (DealDailyData keepDays now daily fn).getLast?.map (fun d => d.Time) = some now
        ∧ ¬ ((DealDailyData keepDays now daily fn).map (fun d => d.Time)).Nodup
        ∧ ¬ ((DealDailyData keepDays now daily fn).map (fun d => d.Time)).Pairwise
            (fun a b => a < b) := by
  refine ⟨7, [⟨"20240101", 1, 0, 0⟩, ⟨"20240102", 1, 0, 0⟩], "20240101", incAccept,
    by decide, ?_, by decide, by decide, by decide, by decide, ?_⟩
  · simp only [List.map_cons, List.map_nil, List.pairwise_cons, List.mem_cons,
      List.mem_singleton, forall_eq_or_imp, String.lt_iff_toList_lt]
    decide
  · have hr : (DealDailyData 7 "20240101"
        [⟨"20240101", 1, 0, 0⟩, ⟨"20240102", 1, 0, 0⟩] incAccept).map (fun d => d.Time)
        = ["20240101", "20240102", "20240101"] := by decide
    rw [hr]
    intro hp
    rw [List.pairwise_cons] at hp
    exact lt_irrefl _ (hp.1 "20240101" (by simp))

/-- Claim C20. Per-name isolation: for two distinct names `a` and `b` with `b`
registered, each of `SetProxyInfo(a, ...)`, `SetStatus(a, code)` with the code inside
the table, `OpenConnection(a)`, `CloseConnection(a)`, `AddFlowIn(a, d)` and
`AddFlowOut(a, d)` leaves the record of `b` as it was, and leaves the registered names
as they were, except that `SetProxyInfo` adds `a` when it was not registered. -/
theorem per_name_isolation (keepDays : Int) (statusStr : List String) (now : String)
    (reg : Registry) (a b : String) (mb : ServerMetric)
    (proxyType bindAddr : String) (useEncryption useGzip privilegeMode : Bool)
    (customDomains : List String) (listenPort code d : Int)
    (hab : a ≠ b) (hb : mapGet reg b = some mb) :
    (mapGet (SetProxyInfo reg a proxyType bindAddr useEncryption useGzip privilegeMode
          customDomains listenPort) b = some mb
        ∧ ∀ k, k ∈ mapKeys (SetProxyInfo reg a proxyType bindAddr useEncryption useGzip
            privilegeMode customDomains listenPort) ↔ k ∈ mapKeys reg ∨ k = a)
      ∧ (0 ≤ code → code < statusStr.length →
          ∃ reg1, SetStatus statusStr reg a code = some reg1
            ∧ mapGet reg1 b = some mb ∧ mapKeys reg1 = mapKeys reg)
      ∧ (mapGet (OpenConnection keepDays now reg a) b = some mb
          ∧ mapKeys (OpenConnection keepDays now reg a) = mapKeys reg)
      ∧ (mapGet (CloseConnection reg a) b = some mb
          ∧ mapKeys (CloseConnection reg a) = mapKeys reg)
      ∧ (mapGet (AddFlowIn keepDays now reg a d) b = some mb
          ∧ mapKeys (AddFlowIn keepDays now reg a d) = mapKeys reg)
      ∧ (mapGet (AddFlowOut keepDays now reg a d) b = some mb
          ∧ mapKeys (AddFlowOut keepDays now reg a d) = mapKeys reg) := by
  refine ⟨⟨?_, ?_⟩, ?_, ⟨?_, ?_⟩, ⟨?_, ?_⟩, ⟨?_, ?_⟩, ⟨?_, ?_⟩⟩
  · rw [mapGet_SetProxyInfo_ne _ _ _ _ _ _ _ _ _ _ hab, hb]
  · intro k
    unfold SetProxyInfo
    cases hg : mapGet reg a with
    | none =>
      rw [mapKeys_mapSet_of_not_mem _ _ _ hg]
      simp
    | some m0 =>
      rw [mapKeys_mapSet_of_mem _ _ _ m0 hg]
      constructor
      · exact fun h => Or.inl h
      · rintro (h | h)
        · exact h
        · rw [h]
          by_contra hout
          rw [(mapGet_eq_none_iff reg a).mpr hout] at hg
          exact absurd hg (by simp)
  · intro h0 hlt
    obtain ⟨label, _, hlabel⟩ := statusLabel_in_range statusStr code h0 hlt
    cases hg : mapGet reg a with
    | none => exact ⟨reg, by simp [SetStatus, hg], hb, rfl⟩
    | some m0 =>
      exact ⟨mapSet reg a { m0 with Status := label }, by simp [SetStatus, hg, hlabel],
        by rw [mapGet_mapSet_ne _ _ _ _ hab, hb], mapKeys_mapSet_of_mem _ _ _ m0 hg⟩
  · rw [OpenConnection_eq, mapGet_withMetric_ne _ _ _ _ hab, hb]
  · rw [OpenConnection_eq, mapKeys_withMetric]
  · rw [CloseConnection_eq, mapGet_withMetric_ne _ _ _ _ hab, hb]
  · rw [CloseConnection_eq, mapKeys_withMetric]
  · rw [AddFlowIn_eq, mapGet_withMetric_ne _ _ _ _ hab, hb]
  · rw [AddFlowIn_eq, mapKeys_withMetric]
  · rw [AddFlowOut_eq, mapGet_withMetric_ne _ _ _ _ hab, hb]
  · rw [AddFlowOut_eq, mapKeys_withMetric]

/-- Calls on `q`, registered or not, next to the record of `p` reached by
`sampleAcceptCalls`. -/
theorem per_name_isolation_witness :
    (mapGet (SetProxyInfo [("p", sampleAcceptMetric)] "q" "udp" "127.0.0.1" true true false
          ["q.example"] 53) "p" = some sampleAcceptMetric
        ∧ ∀ k, k ∈ mapKeys (SetProxyInfo [("p", sampleAcceptMetric)] "q" "udp" "127.0.0.1"
            true true false ["q.example"] 53)
          ↔ k ∈ mapKeys [("p", sampleAcceptMetric)] ∨ k = "q")
      ∧ (mapGet (OpenConnection 7 "20240103" [("p", sampleAcceptMetric)] "q") "p"
          = some sampleAcceptMetric
        ∧ mapKeys (OpenConnection 7 "20240103" [("p", sampleAcceptMetric)] "q")
          = mapKeys [("p", sampleAcceptMetric)]) :=
  ⟨(per_name_isolation 7 sampleStatusStr "20240103" [("p", sampleAcceptMetric)] "q" "p"
      sampleAcceptMetric "udp" "127.0.0.1" true true false ["q.example"] 53 1 10
      (by decide) (by decide)).1,
    (per_name_isolation 7 sampleStatusStr "20240103" [("p", sampleAcceptMetric)] "q" "p"
      sampleAcceptMetric "udp" "127.0.0.1" true true false ["q.example"] 53 1 10
      (by decide) (by decide)).2.2.1⟩

/-! ## Lemmas on one day of traffic -/

theorem sameDay_step (keepDays : Int) (statusStr : List String) (name day : String)
    (c : Call) (reg : Registry) (m : ServerMetric) (a b k cc : Int)
    (hget : mapGet reg name = some m) (hcc : m.CurrentConns = wrap64 cc)
    (hdaily : (m.Daily = [] ∧ a = 0 ∧ b = 0 ∧ k = 0)
      ∨ m.Daily = [⟨day, wrap64 a, wrap64 b, wrap64 k⟩])
    (hc : isSameDayCall name day c = true) :
    ∃ reg1, step keepDays statusStr reg c = some reg1
      ∧ mapGet reg1 name = some
          { m with
            CurrentConns := wrap64 (cc + (openCount name [c] : Int))
            Daily := [⟨day, wrap64 (a + flowInSum [c]), wrap64 (b + flowOutSum [c]),
              wrap64 (k + (openCount name [c] : Int))⟩] } := by
  have hdeal : ∀ (fn : DailyServerStats → DailyServerStats) (a1 b1 k1 : Int),
      fn ⟨day, wrap64 a, wrap64 b, wrap64 k⟩ = ⟨day, wrap64 a1, wrap64 b1, wrap64 k1⟩ →
      DealDailyData keepDays day m.Daily fn = [⟨day, wrap64 a1, wrap64 b1, wrap64 k1⟩] := by
    intro fn a1 b1 k1 hfn
    rcases hdaily with ⟨hnil, ha, hb, hk⟩ | hone
    · rw [hnil, DealDailyData_nil]
      subst ha hb hk
      rw [← hfn]
      simp [zeroDaily, wrap64_zero]
    · rw [hone]
      have := DealDailyData_same keepDays day [] ⟨day, wrap64 a, wrap64 b, wrap64 k⟩ fn rfl
      simp only [List.nil_append] at this
      rw [this, hfn]
  cases c with
  | setProxyInfo n t b1 e g p cd l => simp [isSameDayCall] at hc
  | setStatus n st => simp [isSameDayCall] at hc
  | closeConnection n => simp [isSameDayCall] at hc
  | openConnection now n =>
    simp only [isSameDayCall, Bool.and_eq_true, beq_iff_eq] at hc
    obtain ⟨rfl, rfl⟩ := hc
    refine ⟨_, rfl, ?_⟩
    rw [OpenConnection_eq, mapGet_withMetric_self, hget]
    simp only [Option.map_some']
    rw [hdeal incAccept a b (k + 1) (by simp [incAccept, wrap64_wrap64_add]), hcc,
      wrap64_wrap64_add]
    simp [openCount, isOpenOf, flowInSum, flowOutSum]
  | addFlowIn now n v =>
    simp only [isSameDayCall, Bool.and_eq_true, beq_iff_eq, decide_eq_true_eq] at hc
    obtain ⟨⟨rfl, rfl⟩, _⟩ := hc
    refine ⟨_, rfl, ?_⟩
    rw [AddFlowIn_eq, mapGet_withMetric_self, hget]
    simp only [Option.map_some']
    rw [hdeal (addIn v) (a + v) b k (by simp [addIn, wrap64_wrap64_add])]
    simp [openCount, isOpenOf, flowInSum, flowOutSum, hcc]
  | addFlowOut now n v =>
    simp only [isSameDayCall, Bool.and_eq_true, beq_iff_eq, decide_eq_true_eq] at hc
    obtain ⟨⟨rfl, rfl⟩, _⟩ := hc
    refine ⟨_, rfl, ?_⟩
    rw [AddFlowOut_eq, mapGet_withMetric_self, hget]
    simp only [Option.map_some']
    rw [hdeal (addOut v) a (b + v) k (by simp [addOut, wrap64_wrap64_add])]
    simp [openCount, isOpenOf, flowInSum, flowOutSum, hcc]

theorem openCount_cons (name : String) (c : Call) (cs : List Call) :
    openCount name (c :: cs) = openCount name [c] + openCount name cs := by
  simp only [openCount, List.countP_cons, List.countP_nil]
  omega

theorem flowInSum_cons (c : Call) (cs : List Call) :
    flowInSum (c :: cs) = flowInSum [c] + flowInSum cs := by
  cases c <;> simp [flowInSum]

theorem flowOutSum_cons (c : Call) (cs : List Call) :
    flowOutSum (c :: cs) = flowOutSum [c] + flowOutSum cs := by
  cases c <;> simp [flowOutSum]

theorem flowSums_nonneg (name day : String) (cs : List Call)
    (hcs : ∀ c ∈ cs, isSameDayCall name day c = true) :
    0 ≤ flowInSum cs ∧ 0 ≤ flowOutSum cs := by
  induction cs with
  | nil => simp [flowInSum, flowOutSum]
  | cons c cs ih =>
    have hc := hcs c (by simp)
    have hrest := ih (fun x hx => hcs x (List.mem_cons_of_mem _ hx))
    cases c with
    | setProxyInfo n t b1 e g p cd l => simp [isSameDayCall] at hc
    | setStatus n st => simp [isSameDayCall] at hc
    | closeConnection n => simp [isSameDayCall] at hc
    | openConnection now n => simpa [flowInSum, flowOutSum] using hrest
    | addFlowIn now n v =>
      simp only [isSameDayCall, Bool.and_eq_true, decide_eq_true_eq] at hc
      simp only [flowInSum, flowOutSum]
      exact ⟨by omega, hrest.2⟩
    | addFlowOut now n v =>
      simp only [isSameDayCall, Bool.and_eq_true, decide_eq_true_eq] at hc
      simp only [flowInSum, flowOutSum]
      exact ⟨hrest.1, by omega⟩

theorem flowSums_perm (cs1 cs2 : List Call) (hperm : cs1.Perm cs2) :
    flowInSum cs1 = flowInSum cs2 ∧ flowOutSum cs1 = flowOutSum cs2 := by
  induction hperm with
  | nil => exact ⟨rfl, rfl⟩
  | cons x _ ih =>
    rw [flowInSum_cons, flowOutSum_cons, ih.1, ih.2, ← flowInSum_cons, ← flowOutSum_cons]
    exact ⟨rfl, rfl⟩
  | swap x y l =>
    rw [flowInSum_cons y, flowInSum_cons x, flowInSum_cons x (y :: l), flowInSum_cons y l,
      flowOutSum_cons y, flowOutSum_cons x, flowOutSum_cons x (y :: l), flowOutSum_cons y l]
    exact ⟨by ring, by ring⟩
  | trans _ _ ih1 ih2 => exact ⟨ih1.1.trans ih2.1, ih1.2.trans ih2.2⟩

theorem sameDay_run (keepDays : Int) (statusStr : List String) (name day : String)
    (cs : List Call) (reg : Registry) (m : ServerMetric) (a b k cc : Int)
    (hget : mapGet reg name = some m) (hcc : m.CurrentConns = wrap64 cc)
    (hdaily : (m.Daily = [] ∧ a = 0 ∧ b = 0 ∧ k = 0)
      ∨ m.Daily = [⟨day, wrap64 a, wrap64 b, wrap64 k⟩])
    (hcs : ∀ c ∈ cs, isSameDayCall name day c = true) (hne : cs ≠ []) :
    ∃ reg1, run keepDays statusStr reg cs = some reg1
      ∧ mapGet reg1 name = some
          { m with
            CurrentConns := wrap64 (cc + (openCount name cs : Int))
            Daily := [⟨day, wrap64 (a + flowInSum cs), wrap64 (b + flowOutSum cs),
              wrap64 (k + (openCount name cs : Int))⟩] } := by
  induction cs generalizing reg m a b k cc with
  | nil => exact absurd rfl hne
  | cons c cs ih =>
    obtain ⟨r, hstep, hr⟩ := sameDay_step keepDays statusStr name day c reg m a b k cc hget
      hcc hdaily (hcs c (by simp))
    by_cases hnil : cs = []
    · subst hnil
      exact ⟨r, by simp [run, hstep], hr⟩
    · obtain ⟨reg1, hrun, hfin⟩ := ih r _ (a + flowInSum [c]) (b + flowOutSum [c])
        (k + (openCount name [c] : Int)) (cc + (openCount name [c] : Int)) hr rfl
        (Or.inr rfl) (fun x hx => hcs x (List.mem_cons_of_mem _ hx)) hnil
      refine ⟨reg1, by simp [run, hstep, hrun], ?_⟩
      rw [hfin, openCount_cons name c cs, flowInSum_cons c cs, flowOutSum_cons c cs]
      simp only [Nat.cast_add, add_assoc]

theorem sameDay_snapshot (keepDays : Int) (statusStr : List String) (reg : Registry)
    (name day proxyType bindAddr : String) (useEncryption useGzip privilegeMode : Bool)
    (customDomains : List String) (listenPort : Int) (calls : List Call)
    (hfresh : mapGet reg name = none)
    (hcalls : ∀ c ∈ calls, isSameDayCall name day c = true) (hne : calls ≠ [])
    (hk : (openCount name calls : Int) < 2 ^ 63) (hA : flowInSum calls < 2 ^ 63)
    (hB : flowOutSum calls < 2 ^ 63) :
    ∃ reg1, run keepDays statusStr (SetProxyInfo reg name proxyType bindAddr useEncryption
          useGzip privilegeMode customDomains listenPort) calls = some reg1
      ∧ (GetProxyMetrics reg1 name).2 = some
          { Name := name, ProxyType := proxyType, BindAddr := bindAddr,
            ListenPort := listenPort, CustomDomains := customDomains, Status := "",
            UseEncryption := useEncryption, UseGzip := useGzip,
            PrivilegeMode := privilegeMode, CurrentConns := (openCount name calls : Int),
            Daily := [⟨day, flowInSum calls, flowOutSum calls,
              (openCount name calls : Int)⟩] } := by
  have hreg : mapGet (SetProxyInfo reg name proxyType bindAddr useEncryption useGzip
      privilegeMode customDomains listenPort) name = some
        { Name := name, ProxyType := proxyType, BindAddr := bindAddr,
          ListenPort := listenPort, CustomDomains := customDomains, Status := "",
          UseEncryption := useEncryption, UseGzip := useGzip,
          PrivilegeMode := privilegeMode, CurrentConns := 0, Daily := [] } := by
    unfold SetProxyInfo
    simp only [hfresh, mapGet_mapSet_self]
    rfl
  obtain ⟨reg1, hrun, hfin⟩ := sameDay_run keepDays statusStr name day calls _ _ 0 0 0 0
    hreg (by simp [wrap64_zero]) (Or.inl ⟨rfl, rfl, rfl, rfl⟩) hcalls hne
  have hnn := flowSums_nonneg name day calls hcalls
  have hk0 : (0 : Int) ≤ (openCount name calls : Int) := Int.ofNat_nonneg _
  refine ⟨reg1, hrun, ?_⟩
  simp only [GetProxyMetrics, hfin, unmarshalMetric_marshalMetric, zero_add]
  rw [wrap64_of_range _ (by omega) hk, wrap64_of_range _ (by omega) hA,
    wrap64_of_range _ (by omega) hB]

/-! ## One day of traffic -/

/-- Claim C18. Same-day accumulation: with `DailyDataKeepDays ≥ 1` and the clock
fixed at one day, after `SetProxyInfo` on a fresh name followed by a non-empty
sequence of `OpenConnection`, `AddFlowIn` and `AddFlowOut` calls on that name with
non-negative deltas, in any order, with `k` opens and deltas summing to `A` and `B`,
all below `2^63`, `GetProxyMetrics` returns the registered configuration with
`CurrentConns = k` and `Daily = [{day, A, B, k}]`; a sequence with the same calls in
another order gives the same snapshot. -/
theorem same_day_accumulation (keepDays : Int) (statusStr : List String) (reg : Registry)
    (name day proxyType bindAddr : String) (useEncryption useGzip privilegeMode : Bool)
    (customDomains : List String) (listenPort : Int) (calls : List Call)
    (_hkeep : 1 ≤ keepDays) (hfresh : mapGet reg name = none)
    (hcalls : ∀ c ∈ calls, isSameDayCall name day c = true) (hne : calls ≠ [])
    (hk : (openCount name calls : Int) < 2 ^ 63) (hA : flowInSum calls < 2 ^ 63)
    (hB : flowOutSum calls < 2 ^ 63) :
    ∃ reg1, run keepDays statusStr (SetProxyInfo reg name proxyType bindAddr useEncryption
          useGzip privilegeMode customDomains listenPort) calls = some reg1
      ∧ (GetProxyMetrics reg1 name).2 = some
          { Name := name, ProxyType := proxyType, BindAddr := bindAddr,
            ListenPort := listenPort, CustomDomains := customDomains, Status := "",
            UseEncryption := useEncryption, UseGzip := useGzip,
            PrivilegeMode := privilegeMode, CurrentConns := (openCount name calls : Int),
            Daily := [⟨day, flowInSum calls, flowOutSum calls,
              (openCount name calls : Int)⟩] }
      ∧ ∀ calls1, List.Perm calls1 calls →
          ∃ reg2, run keepDays statusStr (SetProxyInfo reg name proxyType bindAddr
              useEncryption useGzip privilegeMode customDomains listenPort) calls1
              = some reg2
            ∧ (GetProxyMetrics reg2 name).2 = (GetProxyMetrics reg1 name).2 := by
  obtain ⟨reg1, hrun, hsnap⟩ := sameDay_snapshot keepDays statusStr reg name day proxyType
    bindAddr useEncryption useGzip privilegeMode customDomains listenPort calls hfresh
    hcalls hne hk hA hB
  refine ⟨reg1, hrun, hsnap, ?_⟩
  intro calls1 hperm
  have hsum := flowSums_perm calls1 calls hperm
  have hcount : openCount name calls1 = openCount name calls := hperm.countP_eq _
  obtain ⟨reg2, hrun2, hsnap2⟩ := sameDay_snapshot keepDays statusStr reg name day
    proxyType bindAddr useEncryption useGzip privilegeMode customDomains listenPort calls1
    hfresh (fun c hc => hcalls c (hperm.mem_iff.mp hc))
    (fun h => hne (by rw [h] at hperm; exact List.Perm.eq_nil hperm.symm))
    (by rw [hcount]; exact hk) (by rw [hsum.1]; exact hA) (by rw [hsum.2]; exact hB)
  refine ⟨reg2, hrun2, ?_⟩
  rw [hsnap2, hsnap, hcount, hsum.1, hsum.2]

/-- Scenario S1 of the specification: an open, 100 bytes in and 50 bytes out on the
day of the registration of `p`. -/
theorem same_day_accumulation_witness :
    ∃ reg1, run 7 sampleStatusStr (SetProxyInfo emptyRegistry "p" "tcp" "0.0.0.0" false
          false true [] 80)
          [.openConnection "20240101" "p", .addFlowIn "20240101" "p" 100,
            .addFlowOut "20240101" "p" 50] = some reg1
      ∧ (GetProxyMetrics reg1 "p").2 = some
          { Name := "p", ProxyType := "tcp", BindAddr := "0.0.0.0", ListenPort := 80,
            CustomDomains := [], Status := "", UseEncryption := false, UseGzip := false,
            PrivilegeMode := true, CurrentConns := 1,
            Daily := [⟨"20240101", 100, 50, 1⟩] } := by
  obtain ⟨reg1, hrun, hsnap, _⟩ := same_day_accumulation 7 sampleStatusStr emptyRegistry
    "p" "20240101" "tcp" "0.0.0.0" false false true [] 80
    [.openConnection "20240101" "p", .addFlowIn "20240101" "p" 100,
      .addFlowOut "20240101" "p" 50]
    (by decide) (by rfl) (by decide) (by decide) (by decide) (by decide) (by decide)
  exact ⟨reg1, hrun, by rw [hsnap]; decide⟩

/-! ## The snapshot and the record lock -/

theorem runSchedule_mem (ms : List Machine) (hclosed : ∀ mc ∈ ms, ∀ b : Bool, mc.tick b ∈ ms)
    (schedule : List Bool) (mc : Machine) (hmem : mc ∈ ms) :
    mc.runSchedule schedule ∈ ms := by
  induction schedule generalizing mc with
  | nil => exact hmem
  | cons b rest ih => exact ih (mc.tick b) (hclosed mc hmem b)

set_option maxRecDepth 100000 in
/-- Claim C17, on the code. `GetAllProxyMetrics` serializes a record between
`metric.mutex.RLock()` and `metric.mutex.RUnlock()`: under every schedule its snapshot
taken against a concurrent `OpenConnection` is the record before or the record after
the call. `GetProxyMetrics` never takes the lock of the record: under the schedule
where the writer runs up to `metric.CurrentConns++`, the reader runs to its end, and
the writer finishes, both calls return and the snapshot has `CurrentConns = 1` with an
empty `Daily`, which is neither the record before nor the record after the call. -/
theorem GetProxyMetrics_misses_record_lock :
    (Action.recRLock ∈ GetAllProxyMetricsActions ∧ Action.recRLock ∉ GetProxyMetricsActions)
      ∧ (∀ schedule : List Bool,
          (raceGetAllProxyMetrics.runSchedule schedule).reader.seen = none
            ∨ (raceGetAllProxyMetrics.runSchedule schedule).reader.seen = some raceBefore
            ∨ (raceGetAllProxyMetrics.runSchedule schedule).reader.seen = some raceAfter)
      ∧ (raceGetProxyMetrics.runSchedule
            [false, false, false, false, true, true, true, false, false]).writer.todo = []
      ∧ (raceGetProxyMetrics.runSchedule
            [false, false, false, false, true, true, true, false, false]).reader.todo = []
      ∧ (raceGetProxyMetrics.runSchedule
            [false, false, false, false, true, true, true, false, false]).shared.metric
          = raceAfter
      ∧ (raceGetProxyMetrics.runSchedule
            [false, false, false, false, true, true, true, false, false]).reader.seen
          = some { zeroMetric with Name := "p", CurrentConns := 1, Daily := [] }
      ∧ ({ zeroMetric with Name := "p", CurrentConns := 1, Daily := [] } : ServerMetric)
          ≠ raceBefore
      ∧ ({ zeroMetric with Name := "p", CurrentConns := 1, Daily := [] } : ServerMetric)
          ≠ raceAfter := by
  refine ⟨by decide, ?_, by decide, by decide, by decide, by decide, by decide, by decide⟩
  intro schedule
  have hclosed : ∀ mc ∈ Machine.explore 12 [raceGetAllProxyMetrics], ∀ b : Bool,
      mc.tick b ∈ Machine.explore 12 [raceGetAllProxyMetrics] := by decide
  have hall : ∀ mc ∈ Machine.explore 12 [raceGetAllProxyMetrics],
      mc.reader.seen = none ∨ mc.reader.seen = some raceBefore
        ∨ mc.reader.seen = some raceAfter := by decide
  exact hall _ (runSchedule_mem _ hclosed schedule raceGetAllProxyMetrics (by decide))

/-! ## Lemmas on the memory -/

theorem Ptr.same_refl (lo hi : Nat) (mem : Ptr.Memory) : Ptr.Same lo hi mem mem :=
  fun _ _ _ => rfl

theorem Ptr.same_trans (lo hi : Nat) (mem mem1 mem2 : Ptr.Memory)
    (h1 : Ptr.Same lo hi mem mem1) (h2 : Ptr.Same lo hi mem1 mem2) :
    Ptr.Same lo hi mem mem2 :=
  fun i hlo hhi => (h2 i hlo hhi).trans (h1 i hlo hhi)

theorem Ptr.write_sep (lo hi : Nat) (mem : Ptr.Memory) (a : Nat) (c : Ptr.Cell)
    (hsep : Ptr.Sep lo hi mem) (ha : ¬ (lo ≤ a ∧ a < hi))
    (hc : ∀ p ∈ c.ptrs, ¬ (lo ≤ p ∧ p < hi)) :
    Ptr.Sep lo hi (mem.write a c) ∧ Ptr.Same lo hi mem (mem.write a c)
      ∧ (mem.write a c).map = mem.map := by
  refine ⟨⟨?_, ?_, ?_⟩, ?_, rfl⟩
  · simpa [Ptr.Memory.write] using hsep.bound
  · exact hsep.map
  · intro i c1 hget hi1 p hp
    simp only [Ptr.Memory.write, List.getElem?_set] at hget
    by_cases hai : a = i
    · rw [if_pos hai] at hget
      by_cases hlen : a < mem.cells.length
      · rw [if_pos hlen] at hget
        cases hget
        exact hc p hp
      · rw [if_neg hlen] at hget
        exact absurd hget (by simp)
    · rw [if_neg hai] at hget
      exact hsep.cells i c1 hget hi1 p hp
  · intro i hlo hhi
    simp only [Ptr.Memory.write, List.getElem?_set]
    have hai : ¬ a = i := fun h => ha (h ▸ ⟨hlo, hhi⟩)
    rw [if_neg hai]

theorem Ptr.alloc_sep (lo hi : Nat) (mem : Ptr.Memory) (c : Ptr.Cell)
    (hsep : Ptr.Sep lo hi mem) (hc : ∀ p ∈ c.ptrs, ¬ (lo ≤ p ∧ p < hi)) :
    Ptr.Sep lo hi (mem.alloc c).1 ∧ Ptr.Same lo hi mem (mem.alloc c).1
      ∧ ¬ (lo ≤ (mem.alloc c).2 ∧ (mem.alloc c).2 < hi)
      ∧ (mem.alloc c).1.map = mem.map := by
  have hb := hsep.bound
  refine ⟨⟨?_, ?_, ?_⟩, ?_, ?_, rfl⟩
  · simp only [Ptr.Memory.alloc, List.length_append, List.length_singleton]
    omega
  · exact hsep.map
  · intro i c1 hget hi1 p hp
    simp only [Ptr.Memory.alloc] at hget
    by_cases hlt : i < mem.cells.length
    · rw [List.getElem?_append_left hlt] at hget
      exact hsep.cells i c1 hget hi1 p hp
    · rw [List.getElem?_append_right (by omega)] at hget
      by_cases h0 : i - mem.cells.length = 0
      · rw [h0] at hget
        simp only [List.getElem?_cons_zero, Option.some.injEq] at hget
        subst hget
        exact hc p hp
      · have : [c][i - mem.cells.length]? = none :=
          List.getElem?_eq_none (by simp; omega)
        rw [this] at hget
        exact absurd hget (by simp)
  · intro i _ hhi
    simp only [Ptr.Memory.alloc]
    rw [List.getElem?_append_left (by omega)]
  · simp only [Ptr.Memory.alloc]
    omega

theorem Ptr.metric_ptr (lo hi : Nat) (mem : Ptr.Memory) (a : Nat) (r : Ptr.MetricObj)
    (hsep : Ptr.Sep lo hi mem) (ha : ¬ (lo ≤ a ∧ a < hi))
    (hr : mem.metric? a = some r) :
    ∀ arr, r.Daily.array = some arr → ¬ (lo ≤ arr ∧ arr < hi) := by
  intro arr harr
  unfold Ptr.Memory.metric? at hr
  cases hc : mem.cells[a]? with
  | none => simp [hc] at hr
  | some c =>
    rw [hc] at hr
    cases c with
    | metric r1 =>
      simp only [Option.some.injEq] at hr
      subst hr
      exact hsep.cells a _ hc ha arr (by simp [Ptr.Cell.ptrs, harr])
    | stats d => simp at hr
    | array sl => simp at hr

theorem Ptr.slots_ptr (lo hi : Nat) (mem : Ptr.Memory) (s : Ptr.Slice)
    (slots : List (Option Nat)) (hsep : Ptr.Sep lo hi mem)
    (hs : ∀ arr, s.array = some arr → ¬ (lo ≤ arr ∧ arr < hi))
    (hslots : mem.slots? s = some slots) :
    ∀ p, some p ∈ slots → ¬ (lo ≤ p ∧ p < hi) := by
  intro p hp
  cases harr : s.array with
  | none =>
    simp only [Ptr.Memory.slots?, harr, Option.some.injEq] at hslots
    subst hslots
    simp at hp
  | some a =>
    simp only [Ptr.Memory.slots?, harr] at hslots
    unfold Ptr.Memory.array? at hslots
    cases hc : mem.cells[a]? with
    | none => simp [hc] at hslots
    | some c =>
      rw [hc] at hslots
      cases c with
      | array sl =>
        simp only [Option.some.injEq] at hslots
        subst hslots
        exact hsep.cells a _ hc (hs a harr) p (by simp [Ptr.Cell.ptrs, hp])
      | stats d => simp at hslots
      | metric r => simp at hslots

theorem Ptr.mem_shiftSlots (n : Nat) (slots : List (Option Nat)) (x : Option Nat)
    (hx : x ∈ Ptr.shiftSlots n slots) : x ∈ slots := by
  unfold Ptr.shiftSlots at hx
  generalize n - 1 = k at hx
  induction k generalizing x with
  | zero => simpa using hx
  | succ k ih =>
    rw [List.range_succ, List.foldl_append] at hx
    simp only [List.foldl_cons, List.foldl_nil, Ptr.shiftSlot] at hx
    cases hnext : (List.foldl Ptr.shiftSlot slots (List.range k))[k + 1]? with
    | none =>
      rw [hnext] at hx
      exact ih x hx
    | some v =>
      rw [hnext] at hx
      rcases List.mem_or_eq_of_mem_set hx with h | h
      · exact ih x h
      · rw [h]
        exact ih v (List.getElem?_mem hnext)

theorem Ptr.appendPtr_sep (lo hi : Nat) (extra : Nat → Nat) (mem mem1 : Ptr.Memory)
    (s s1 : Ptr.Slice) (p : Nat) (hsep : Ptr.Sep lo hi mem)
    (hs : ∀ arr, s.array = some arr → ¬ (lo ≤ arr ∧ arr < hi))
    (hp : ¬ (lo ≤ p ∧ p < hi))
    (h : Ptr.appendPtr extra mem s p = some (mem1, s1)) :
    Ptr.Sep lo hi mem1 ∧ Ptr.Same lo hi mem mem1 ∧ mem1.map = mem.map
      ∧ ∀ arr, s1.array = some arr → ¬ (lo ≤ arr ∧ arr < hi) := by
  unfold Ptr.appendPtr at h
  cases hslots : mem.slots? s with
  | none => simp [hslots] at h
  | some slots =>
    have hptr := Ptr.slots_ptr lo hi mem s slots hsep hs hslots
    simp only [hslots] at h
    by_cases hlt : s.len < slots.length
    · rw [if_pos hlt] at h
      cases harr : s.array with
      | none => simp [harr] at h
      | some a =>
        simp only [harr, Option.some.injEq, Prod.mk.injEq] at h
        obtain ⟨rfl, rfl⟩ := h
        have hw := Ptr.write_sep lo hi mem a (.array (slots.set s.len (some p))) hsep
          (hs a harr) (by
            intro q hq
            simp only [Ptr.Cell.ptrs, List.mem_filterMap, id] at hq
            obtain ⟨x, hx, rfl⟩ := hq
            rcases List.mem_or_eq_of_mem_set hx with h1 | h1
            · exact hptr q h1
            · cases h1
              exact hp)
        exact ⟨hw.1, hw.2.1, hw.2.2, fun arr h1 => by
          simp only [harr, Option.some.injEq] at h1
          subst h1
          exact hs _ harr⟩
    · rw [if_neg hlt] at h
      simp only [Option.some.injEq, Prod.mk.injEq] at h
      obtain ⟨rfl, rfl⟩ := h
      have ha := Ptr.alloc_sep lo hi mem
        (.array (slots.take s.len ++ [some p] ++ List.replicate (extra s.len) none)) hsep (by
          intro q hq
          simp only [Ptr.Cell.ptrs, List.mem_filterMap, id, List.mem_append,
            List.mem_singleton, List.mem_replicate] at hq
          obtain ⟨x, hx, rfl⟩ := hq
          rcases hx with (h1 | h1) | h1
          · exact hptr q (List.mem_of_mem_take h1)
          · cases h1
            exact hp
          · exact absurd h1.2 (by simp))
      exact ⟨ha.1, ha.2.1, ha.2.2.2, fun arr h1 => by
        simp only [Option.some.injEq] at h1
        subst h1
        exact ha.2.2.1⟩

theorem Ptr.DealDailyData_sep (lo hi : Nat) (extra : Nat → Nat) (keepDays : Int)
    (now : String) (mem mem1 : Ptr.Memory) (s s1 : Ptr.Slice)
    (fn : DailyServerStats → DailyServerStats) (hsep : Ptr.Sep lo hi mem)
    (hs : ∀ arr, s.array = some arr → ¬ (lo ≤ arr ∧ arr < hi))
    (h : Ptr.DealDailyData extra keepDays now mem s fn = some (mem1, s1)) :
    Ptr.Sep lo hi mem1 ∧ Ptr.Same lo hi mem mem1 ∧ mem1.map = mem.map
      ∧ ∀ arr, s1.array = some arr → ¬ (lo ≤ arr ∧ arr < hi) := by
  unfold Ptr.DealDailyData at h
  simp only [] at h
  have hnew := Ptr.alloc_sep lo hi mem (.stats (fn { zeroDaily with Time := now })) hsep
    (by simp [Ptr.Cell.ptrs])
  by_cases hlen : s.len = 0
  · rw [if_pos hlen] at h
    have hap := Ptr.appendPtr_sep lo hi extra _ mem1 s s1 _ hnew.1 hs hnew.2.2.1 h
    exact ⟨hap.1, Ptr.same_trans lo hi _ _ _ hnew.2.1 hap.2.1,
      hap.2.2.1.trans hnew.2.2.2, hap.2.2.2⟩
  · rw [if_neg hlen] at h
    cases hslots : mem.slots? s with
    | none => simp [hslots] at h
    | some slots =>
      have hptr := Ptr.slots_ptr lo hi mem s slots hsep hs hslots
      simp only [hslots] at h
      cases hlast : slots[s.len - 1]? with
      | none => simp [hlast] at h
      | some slot =>
        cases slot with
        | none => simp [hlast] at h
        | some daily =>
          have hdaily : ¬ (lo ≤ daily ∧ daily < hi) := hptr daily (List.getElem?_mem hlast)
          simp only [hlast] at h
          cases hst : mem.stats? daily with
          | none => simp [hst] at h
          | some d =>
            simp only [hst] at h
            by_cases hday : d.Time = now
            · rw [if_pos hday] at h
              simp only [Option.some.injEq, Prod.mk.injEq] at h
              obtain ⟨rfl, rfl⟩ := h
              have hw := Ptr.write_sep lo hi mem daily (.stats (fn d)) hsep hdaily
                (by simp [Ptr.Cell.ptrs])
              exact ⟨hw.1, hw.2.1, hw.2.2, hs⟩
            · rw [if_neg hday] at h
              by_cases hkeep : (s.len : Int) = keepDays
              · rw [if_pos hkeep] at h
                cases harr : s.array with
                | none => simp [harr] at h
                | some a =>
                  simp only [harr, Option.some.injEq, Prod.mk.injEq] at h
                  obtain ⟨rfl, rfl⟩ := h
                  have hw := Ptr.write_sep lo hi _ a
                    (.array ((Ptr.shiftSlots s.len slots).set (s.len - 1)
                      (some (mem.alloc (.stats (fn { zeroDaily with Time := now }))).2)))
                    hnew.1 (hs a harr) (by
                      intro q hq
                      simp only [Ptr.Cell.ptrs, List.mem_filterMap, id] at hq
                      obtain ⟨x, hx, rfl⟩ := hq
                      rcases List.mem_or_eq_of_mem_set hx with h1 | h1
                      · exact hptr q (Ptr.mem_shiftSlots _ _ _ h1)
                      · cases h1
                        exact hnew.2.2.1)
                  exact ⟨hw.1, Ptr.same_trans lo hi _ _ _ hnew.2.1 hw.2.1,
                    hw.2.2.trans hnew.2.2.2, hs⟩
              · rw [if_neg hkeep] at h
                have hap := Ptr.appendPtr_sep lo hi extra _ mem1 s s1 _ hnew.1 hs
                  hnew.2.2.1 h
                exact ⟨hap.1, Ptr.same_trans lo hi _ _ _ hnew.2.1 hap.2.1,
                  hap.2.2.1.trans hnew.2.2.2, hap.2.2.2⟩

theorem Ptr.lookup_mem (map : List (String × Nat)) (name : String) (a : Nat)
    (h : Ptr.lookup map name = some a) : (name, a) ∈ map := by
  induction map with
  | nil => simp [Ptr.lookup] at h
  | cons kv rest ih =>
    obtain ⟨k, b⟩ := kv
    by_cases hk : k = name
    · simp only [Ptr.lookup, hk, if_true, Option.some.injEq] at h
      simp [hk, h]
    · simp only [Ptr.lookup, hk, if_false] at h
      exact List.mem_cons_of_mem _ (ih h)

theorem Ptr.mem_insert (map : List (String × Nat)) (name : String) (a : Nat)
    (k : String) (b : Nat) (hmem : (k, b) ∈ Ptr.insert map name a) :
    (k = name ∧ b = a) ∨ (k, b) ∈ map := by
  induction map with
  | nil =>
    simp [Ptr.insert] at hmem
    exact Or.inl hmem
  | cons kv rest ih =>
    obtain ⟨k1, b1⟩ := kv
    by_cases hk : k1 = name
    · simp [Ptr.insert, hk] at hmem
      rcases hmem with h | h
      · exact Or.inl h
      · exact Or.inr (List.mem_cons_of_mem _ h)
    · simp [Ptr.insert, hk] at hmem
      rcases hmem with h | h
      · right
        simp [h.1, h.2]
      · rcases ih h with h1 | h1
        · exact Or.inl h1
        · exact Or.inr (List.mem_cons_of_mem _ h1)

theorem Ptr.sep_of_map (lo hi : Nat) (mem : Ptr.Memory) (map : List (String × Nat))
    (hsep : Ptr.Sep lo hi mem) (hmap : ∀ k a, (k, a) ∈ map → ¬ (lo ≤ a ∧ a < hi)) :
    Ptr.Sep lo hi { mem with map := map } :=
  ⟨hsep.bound, hmap, hsep.cells⟩

theorem Ptr.SetProxyInfo_sep (lo hi : Nat) (mem mem1 : Ptr.Memory)
    (name proxyType bindAddr : String) (useEncryption useGzip privilegeMode : Bool)
    (customDomains : List String) (listenPort : Int) (hsep : Ptr.Sep lo hi mem)
    (h : Ptr.SetProxyInfo mem name proxyType bindAddr useEncryption useGzip privilegeMode
      customDomains listenPort = some mem1) :
    Ptr.Sep lo hi mem1 ∧ Ptr.Same lo hi mem mem1 := by
  unfold Ptr.SetProxyInfo at h
  cases hl : Ptr.lookup mem.map name with
  | some info =>
    have hinfo := hsep.map name info (Ptr.lookup_mem _ _ _ hl)
    simp only [hl] at h
    cases hr : mem.metric? info with
    | none => simp [hr] at h
    | some r =>
      simp only [hr, Option.some.injEq] at h
      subst h
      have hw := Ptr.write_sep lo hi mem info (.metric
        { r with
          Name := name, ProxyType := proxyType, UseEncryption := useEncryption,
          UseGzip := useGzip, PrivilegeMode := privilegeMode, BindAddr := bindAddr,
          ListenPort := listenPort, CustomDomains := customDomains }) hsep hinfo (by
          intro p hp
          simp only [Ptr.Cell.ptrs, Option.mem_toList, Option.mem_def] at hp
          exact Ptr.metric_ptr lo hi mem info r hsep hinfo hr p hp)
      refine ⟨Ptr.sep_of_map lo hi _ _ hw.1 ?_, hw.2.1⟩
      intro k a hmem
      rcases Ptr.mem_insert _ _ _ _ _ hmem with ⟨_, rfl⟩ | hold
      · exact hinfo
      · exact hsep.map k a hold
  | none =>
    simp only [hl, Option.some.injEq] at h
    subst h
    have ha := Ptr.alloc_sep lo hi mem (.metric
      { Name := name, ProxyType := proxyType, BindAddr := bindAddr,
        ListenPort := listenPort, CustomDomains := customDomains, Status := "",
        UseEncryption := useEncryption, UseGzip := useGzip,
        PrivilegeMode := privilegeMode, CurrentConns := 0,
        Daily := { array := none, len := 0 } }) hsep (by simp [Ptr.Cell.ptrs])
    refine ⟨Ptr.sep_of_map lo hi _ _ ha.1 ?_, ha.2.1⟩
    intro k a hmem
    rcases Ptr.mem_insert _ _ _ _ _ hmem with ⟨_, rfl⟩ | hold
    · exact ha.2.2.1
    · exact hsep.map k a hold

theorem Ptr.SetStatus_sep (lo hi : Nat) (statusStr : List String) (mem mem1 : Ptr.Memory)
    (name : String) (status : Int) (hsep : Ptr.Sep lo hi mem)
    (h : Ptr.SetStatus statusStr mem name status = some mem1) :
    Ptr.Sep lo hi mem1 ∧ Ptr.Same lo hi mem mem1 := by
  unfold Ptr.SetStatus at h
  cases hl : Ptr.lookup mem.map name with
  | none =>
    simp only [hl, Option.some.injEq] at h
    subst h
    exact ⟨hsep, Ptr.same_refl lo hi mem⟩
  | some metric =>
    have hmetric := hsep.map name metric (Ptr.lookup_mem _ _ _ hl)
    simp only [hl] at h
    cases hr : mem.metric? metric with
    | none => simp [hr] at h
    | some r =>
      cases hlabel : statusLabel statusStr status with
      | none => simp [hr, hlabel] at h
      | some label =>
        simp only [hr, hlabel, Option.some.injEq] at h
        subst h
        have hw := Ptr.write_sep lo hi mem metric (.metric { r with Status := label }) hsep
          hmetric (by
            intro p hp
            simp only [Ptr.Cell.ptrs, Option.mem_toList, Option.mem_def] at hp
            exact Ptr.metric_ptr lo hi mem metric r hsep hmetric hr p hp)
        exact ⟨hw.1, hw.2.1⟩

theorem Ptr.CloseConnection_sep (lo hi : Nat) (mem mem1 : Ptr.Memory) (name : String)
    (hsep : Ptr.Sep lo hi mem) (h : Ptr.CloseConnection mem name = some mem1) :
    Ptr.Sep lo hi mem1 ∧ Ptr.Same lo hi mem mem1 := by
  unfold Ptr.CloseConnection at h
  cases hl : Ptr.lookup mem.map name with
  | none =>
    simp only [hl, Option.some.injEq] at h
    subst h
    exact ⟨hsep, Ptr.same_refl lo hi mem⟩
  | some metric =>
    have hmetric := hsep.map name metric (Ptr.lookup_mem _ _ _ hl)
    simp only [hl] at h
    cases hr : mem.metric? metric with
    | none => simp [hr] at h
    | some r =>
      simp only [hr, Option.some.injEq] at h
      subst h
      have hw := Ptr.write_sep lo hi mem metric
        (.metric { r with CurrentConns := wrap64 (r.CurrentConns - 1) }) hsep hmetric (by
          intro p hp
          simp only [Ptr.Cell.ptrs, Option.mem_toList, Option.mem_def] at hp
          exact Ptr.metric_ptr lo hi mem metric r hsep hmetric hr p hp)
      exact ⟨hw.1, hw.2.1⟩

theorem Ptr.deal_write_sep (lo hi : Nat) (extra : Nat → Nat) (keepDays : Int) (now : String)
    (mem mem2 : Ptr.Memory) (metric : Nat) (r : Ptr.MetricObj) (daily : Ptr.Slice)
    (fn : DailyServerStats → DailyServerStats) (hsep : Ptr.Sep lo hi mem)
    (hmetric : ¬ (lo ≤ metric ∧ metric < hi))
    (hr : ∀ arr, r.Daily.array = some arr → ¬ (lo ≤ arr ∧ arr < hi))
    (h : Ptr.DealDailyData extra keepDays now mem r.Daily fn = some (mem2, daily)) :
    Ptr.Sep lo hi (mem2.write metric (.metric { r with Daily := daily }))
      ∧ Ptr.Same lo hi mem (mem2.write metric (.metric { r with Daily := daily })) := by
  have hd := Ptr.DealDailyData_sep lo hi extra keepDays now mem mem2 r.Daily daily fn hsep
    hr h
  have hw := Ptr.write_sep lo hi mem2 metric (.metric { r with Daily := daily }) hd.1
    hmetric (by
      intro p hp
      simp only [Ptr.Cell.ptrs, Option.mem_toList, Option.mem_def] at hp
      exact hd.2.2.2 p hp)
  exact ⟨hw.1, Ptr.same_trans lo hi _ _ _ hd.2.1 hw.2.1⟩

theorem Ptr.OpenConnection_sep (lo hi : Nat) (extra : Nat → Nat) (keepDays : Int)
    (now : String) (mem mem1 : Ptr.Memory) (name : String) (hsep : Ptr.Sep lo hi mem)
    (h : Ptr.OpenConnection extra keepDays now mem name = some mem1) :
    Ptr.Sep lo hi mem1 ∧ Ptr.Same lo hi mem mem1 := by
  unfold Ptr.OpenConnection at h
  cases hl : Ptr.lookup mem.map name with
  | none =>
    simp only [hl, Option.some.injEq] at h
    subst h
    exact ⟨hsep, Ptr.same_refl lo hi mem⟩
  | some metric =>
    have hmetric := hsep.map name metric (Ptr.lookup_mem _ _ _ hl)
    simp only [hl] at h
    cases hr : mem.metric? metric with
    | none => simp [hr] at h
    | some r =>
      simp only [hr] at h
      have hptr := Ptr.metric_ptr lo hi mem metric r hsep hmetric hr
      have hw := Ptr.write_sep lo hi mem metric
        (.metric { r with CurrentConns := wrap64 (r.CurrentConns + 1) }) hsep hmetric (by
          intro p hp
          simp only [Ptr.Cell.ptrs, Option.mem_toList, Option.mem_def] at hp
          exact hptr p hp)
      cases hd : Ptr.DealDailyData extra keepDays now
          (mem.write metric (.metric { r with CurrentConns := wrap64 (r.CurrentConns + 1) }))
          r.Daily incAccept with
      | none => simp [hd] at h
      | some res =>
        obtain ⟨mem2, daily⟩ := res
        simp only [hd, Option.some.injEq] at h
        subst h
        have := Ptr.deal_write_sep lo hi extra keepDays now _ mem2 metric
          { r with CurrentConns := wrap64 (r.CurrentConns + 1) } daily incAccept hw.1
          hmetric hptr hd
        exact ⟨this.1, Ptr.same_trans lo hi _ _ _ hw.2.1 this.2⟩

theorem Ptr.AddFlowIn_sep (lo hi : Nat) (extra : Nat → Nat) (keepDays : Int)
    (now : String) (mem mem1 : Ptr.Memory) (name : String) (value : Int)
    (hsep : Ptr.Sep lo hi mem)
    (h : Ptr.AddFlowIn extra keepDays now mem name value = some mem1) :
    Ptr.Sep lo hi mem1 ∧ Ptr.Same lo hi mem mem1 := by
  unfold Ptr.AddFlowIn at h
  cases hl : Ptr.lookup mem.map name with
  | none =>
    simp only [hl, Option.some.injEq] at h
    subst h
    exact ⟨hsep, Ptr.same_refl lo hi mem⟩
  | some metric =>
    have hmetric := hsep.map name metric (Ptr.lookup_mem _ _ _ hl)
    simp only [hl] at h
    cases hr : mem.metric? metric with
    | none => simp [hr] at h
    | some r =>
      simp only [hr] at h
      have hptr := Ptr.metric_ptr lo hi mem metric r hsep hmetric hr
      cases hd : Ptr.DealDailyData extra keepDays now mem r.Daily (addIn value) with
      | none => simp [hd] at h
      | some res =>
        obtain ⟨mem2, daily⟩ := res
        simp only [hd, Option.some.injEq] at h
        subst h
        exact Ptr.deal_write_sep lo hi extra keepDays now mem mem2 metric r daily
          (addIn value) hsep hmetric hptr hd

theorem Ptr.AddFlowOut_sep (lo hi : Nat) (extra : Nat → Nat) (keepDays : Int)
    (now : String) (mem mem1 : Ptr.Memory) (name : String) (value : Int)
    (hsep : Ptr.Sep lo hi mem)
    (h : Ptr.AddFlowOut extra keepDays now mem name value = some mem1) :
    Ptr.Sep lo hi mem1 ∧ Ptr.Same lo hi mem mem1 := by
  unfold Ptr.AddFlowOut at h
  cases hl : Ptr.lookup mem.map name with
  | none =>
    simp only [hl, Option.some.injEq] at h
    subst h
    exact ⟨hsep, Ptr.same_refl lo hi mem⟩
  | some metric =>
    have hmetric := hsep.map name metric (Ptr.lookup_mem _ _ _ hl)
    simp only [hl] at h
    cases hr : mem.metric? metric with
    | none => simp [hr] at h
    | some r =>
      simp only [hr] at h
      have hptr := Ptr.metric_ptr lo hi mem metric r hsep hmetric hr
      cases hd : Ptr.DealDailyData extra keepDays now mem r.Daily (addOut value) with
      | none => simp [hd] at h
      | some res =>
        obtain ⟨mem2, daily⟩ := res
        simp only [hd, Option.some.injEq] at h
        subst h
        exact Ptr.deal_write_sep lo hi extra keepDays now mem mem2 metric r daily
          (addOut value) hsep hmetric hptr hd

theorem Ptr.step_sep (lo hi : Nat) (extra : Nat → Nat) (keepDays : Int)
    (statusStr : List String) (mem mem1 : Ptr.Memory) (c : Call)
    (hsep : Ptr.Sep lo hi mem) (h : Ptr.step extra keepDays statusStr mem c = some mem1) :
    Ptr.Sep lo hi mem1 ∧ Ptr.Same lo hi mem mem1 := by
  cases c with
  | setProxyInfo n t b e g p cd l => exact Ptr.SetProxyInfo_sep lo hi mem mem1 n t b e g p cd l hsep h
  | setStatus n st => exact Ptr.SetStatus_sep lo hi statusStr mem mem1 n st hsep h
  | openConnection now n => exact Ptr.OpenConnection_sep lo hi extra keepDays now mem mem1 n hsep h
  | closeConnection n => exact Ptr.CloseConnection_sep lo hi mem mem1 n hsep h
  | addFlowIn now n v => exact Ptr.AddFlowIn_sep lo hi extra keepDays now mem mem1 n v hsep h
  | addFlowOut now n v => exact Ptr.AddFlowOut_sep lo hi extra keepDays now mem mem1 n v hsep h

theorem Ptr.run_sep (lo hi : Nat) (extra : Nat → Nat) (keepDays : Int)
    (statusStr : List String) (cs : List Call) (mem mem1 : Ptr.Memory)
    (hsep : Ptr.Sep lo hi mem) (h : Ptr.run extra keepDays statusStr mem cs = some mem1) :
    Ptr.Sep lo hi mem1 ∧ Ptr.Same lo hi mem mem1 := by
  induction cs generalizing mem with
  | nil =>
    simp only [Ptr.run, Option.some.injEq] at h
    subst h
    exact ⟨hsep, Ptr.same_refl lo hi mem⟩
  | cons c cs ih =>
    simp only [Ptr.run] at h
    cases hs : Ptr.step extra keepDays statusStr mem c with
    | none => simp [hs] at h
    | some m =>
      rw [hs] at h
      have h1 := Ptr.step_sep lo hi extra keepDays statusStr mem m c hsep hs
      have h2 := ih m h1.1 h
      exact ⟨h2.1, Ptr.same_trans lo hi _ _ _ h1.2 h2.2⟩

theorem Ptr.closed_map (mem : Ptr.Memory) (hclosed : mem.closed = true) (k : String)
    (a : Nat) (hmem : (k, a) ∈ mem.map) : a < mem.cells.length := by
  simp only [Ptr.Memory.closed, Bool.and_eq_true, List.all_eq_true, decide_eq_true_eq]
    at hclosed
  exact hclosed.1 (k, a) hmem

theorem Ptr.closed_cells (mem : Ptr.Memory) (hclosed : mem.closed = true) (i : Nat)
    (c : Ptr.Cell) (hc : mem.cells[i]? = some c) (p : Nat) (hp : p ∈ c.ptrs) :
    p < mem.cells.length := by
  simp only [Ptr.Memory.closed, Bool.and_eq_true, List.all_eq_true, decide_eq_true_eq]
    at hclosed
  exact hclosed.2 c (List.getElem?_mem hc) p hp

theorem Ptr.readSlots_agree (mem mem1 : Ptr.Memory) (P : Nat → Prop)
    (hagree : ∀ i, P i → mem1.cells[i]? = mem.cells[i]?) (slots : List (Option Nat))
    (hslots : ∀ p, some p ∈ slots → P p) :
    Ptr.readSlots mem1 slots = Ptr.readSlots mem slots := by
  induction slots with
  | nil => rfl
  | cons slot rest ih =>
    cases slot with
    | none => rfl
    | some p =>
      have hp : mem1.stats? p = mem.stats? p := by
        unfold Ptr.Memory.stats?
        rw [hagree p (hslots p (by simp))]
      simp only [Ptr.readSlots, hp,
        ih (fun q hq => hslots q (List.mem_cons_of_mem _ hq))]

theorem Ptr.readMetric_agree (mem mem1 : Ptr.Memory) (P : Nat → Prop) (a : Nat)
    (hagree : ∀ i, P i → mem1.cells[i]? = mem.cells[i]?)
    (hP : ∀ i c, P i → mem.cells[i]? = some c → ∀ p ∈ c.ptrs, P p) (ha : P a) :
    Ptr.readMetric mem1 a = Ptr.readMetric mem a := by
  have hmetric : mem1.metric? a = mem.metric? a := by
    unfold Ptr.Memory.metric?
    rw [hagree a ha]
  unfold Ptr.readMetric
  rw [hmetric]
  cases hr : mem.metric? a with
  | none => rfl
  | some r =>
    have hcell : mem.cells[a]? = some (.metric r) := by
      unfold Ptr.Memory.metric? at hr
      cases hc : mem.cells[a]? with
      | none => simp [hc] at hr
      | some c =>
        rw [hc] at hr
        cases c with
        | metric r1 =>
          simp only [Option.some.injEq] at hr
          rw [hr]
        | stats d => simp at hr
        | array sl => simp at hr
    have hdaily : Ptr.readDaily mem1 r.Daily = Ptr.readDaily mem r.Daily := by
      unfold Ptr.readDaily
      cases harr : r.Daily.array with
      | none => simp [Ptr.Memory.slots?, harr, Ptr.readSlots]
      | some arr =>
        have hParr : P arr := hP a _ ha hcell arr (by simp [Ptr.Cell.ptrs, harr])
        have hslots : mem1.slots? r.Daily = mem.slots? r.Daily := by
          simp only [Ptr.Memory.slots?, harr, Ptr.Memory.array?]
          rw [hagree arr hParr]
        rw [hslots]
        cases hs : mem.slots? r.Daily with
        | none => rfl
        | some slots =>
          have hcellarr : mem.cells[arr]? = some (.array slots) := by
            simp only [Ptr.Memory.slots?, harr, Ptr.Memory.array?] at hs
            cases hc : mem.cells[arr]? with
            | none => simp [hc] at hs
            | some c =>
              rw [hc] at hs
              cases c with
              | array sl =>
                simp only [Option.some.injEq] at hs
                rw [hs]
              | stats d => simp at hs
              | metric r1 => simp at hs
          simp only []
          rw [Ptr.readSlots_agree mem mem1 P hagree (slots.take r.Daily.len) (by
            intro p hp
            exact hP arr _ hParr hcellarr p
              (by simp [Ptr.Cell.ptrs, List.mem_of_mem_take hp]))]
    simp only [hdaily]

theorem Ptr.readSlots_block (mem : Ptr.Memory) (ds : List DailyServerStats) (base : Nat)
    (h : ∀ i d, ds[i]? = some d → mem.cells[base + i]? = some (.stats d)) :
    Ptr.readSlots mem ((List.range ds.length).map (fun i => some (base + i))) = some ds := by
  induction ds generalizing base with
  | nil => rfl
  | cons d rest ih =>
    rw [List.length_cons, List.range_succ_eq_map, List.map_cons, List.map_map]
    have h0 : mem.stats? (base + 0) = some d := by
      unfold Ptr.Memory.stats?
      rw [h 0 d (by simp)]
    have hrest := ih (base + 1) (fun i d1 hd1 => by
      have := h (i + 1) d1 (by simpa using hd1)
      rw [← this]
      congr 1
      omega)
    have hfun : ((fun i => some (base + i)) ∘ Nat.succ)
        = (fun i => some (base + 1 + i) : Nat → Option Nat) := by
      funext i
      simp only [Function.comp, Nat.succ_eq_add_one, Option.some.injEq]
      omega
    rw [hfun]
    simp only [Ptr.readSlots, h0, hrest]

theorem Ptr.allocMetric_cells (mem : Ptr.Memory) (v : ServerMetric) :
    (Ptr.allocMetric mem v).1.cells
      = mem.cells ++ (Ptr.Cell.metric
          { Name := v.Name, ProxyType := v.ProxyType, BindAddr := v.BindAddr,
            ListenPort := v.ListenPort, CustomDomains := v.CustomDomains, Status := v.Status,
            UseEncryption := v.UseEncryption, UseGzip := v.UseGzip,
            PrivilegeMode := v.PrivilegeMode, CurrentConns := v.CurrentConns,
            Daily := { array := some (mem.cells.length + 1 + v.Daily.length),
                       len := v.Daily.length } }
        :: (v.Daily.map Ptr.Cell.stats
          ++ [Ptr.Cell.array ((List.range v.Daily.length).map
                (fun i => some (mem.cells.length + 1 + i)))]))
      ∧ (Ptr.allocMetric mem v).2 = mem.cells.length
      ∧ (Ptr.allocMetric mem v).1.map = mem.map := by
  simp [Ptr.allocMetric]

theorem Ptr.readMetric_allocMetric (mem : Ptr.Memory) (v : ServerMetric) :
    Ptr.readMetric (Ptr.allocMetric mem v).1 (Ptr.allocMetric mem v).2 = some v := by
  obtain ⟨hcells, haddr, _⟩ := Ptr.allocMetric_cells mem v
  rw [haddr]
  have hm : (Ptr.allocMetric mem v).1.metric? mem.cells.length = some
      { Name := v.Name, ProxyType := v.ProxyType, BindAddr := v.BindAddr,
        ListenPort := v.ListenPort, CustomDomains := v.CustomDomains, Status := v.Status,
        UseEncryption := v.UseEncryption, UseGzip := v.UseGzip,
        PrivilegeMode := v.PrivilegeMode, CurrentConns := v.CurrentConns,
        Daily := { array := some (mem.cells.length + 1 + v.Daily.length),
                   len := v.Daily.length } } := by
    unfold Ptr.Memory.metric?
    rw [hcells, List.getElem?_append_right (le_refl _)]
    simp
  have hs : (Ptr.allocMetric mem v).1.array? (mem.cells.length + 1 + v.Daily.length)
      = some ((List.range v.Daily.length).map (fun i => some (mem.cells.length + 1 + i))) := by
    unfold Ptr.Memory.array?
    rw [hcells, List.getElem?_append_right (by omega)]
    have h1 : mem.cells.length + 1 + v.Daily.length - mem.cells.length
        = (v.Daily.length) + 1 := by omega
    rw [h1, List.getElem?_cons_succ,
      List.getElem?_append_right (by simp)]
    simp
  have hstats : ∀ i d, v.Daily[i]? = some d →
      (Ptr.allocMetric mem v).1.cells[mem.cells.length + 1 + i]? = some (.stats d) := by
    intro i d hd
    have hi : i < v.Daily.length := (List.getElem?_eq_some.mp hd).1
    rw [hcells, List.getElem?_append_right (by omega)]
    have h1 : mem.cells.length + 1 + i - mem.cells.length = i + 1 := by omega
    rw [h1, List.getElem?_cons_succ, List.getElem?_append_left (by simpa using hi),
      List.getElem?_map, hd]
    rfl
  unfold Ptr.readMetric
  rw [hm]
  simp only [Ptr.readDaily, Ptr.Memory.slots?, hs, List.length_map, List.length_range,
    le_refl, if_true]
  rw [List.take_of_length_le (by simp),
    Ptr.readSlots_block _ v.Daily (mem.cells.length + 1) hstats]

theorem Ptr.allocMetric_sep (mem : Ptr.Memory) (v : ServerMetric)
    (hclosed : mem.closed = true) :
    Ptr.Sep mem.cells.length (Ptr.allocMetric mem v).1.cells.length (Ptr.allocMetric mem v).1
      ∧ (∀ i, i < mem.cells.length →
          (Ptr.allocMetric mem v).1.cells[i]? = mem.cells[i]?)
      ∧ (∀ i c, mem.cells.length ≤ i → (Ptr.allocMetric mem v).1.cells[i]? = some c →
          ∀ p ∈ c.ptrs, mem.cells.length ≤ p
            ∧ p < (Ptr.allocMetric mem v).1.cells.length) := by
  obtain ⟨hcells, _, hmap⟩ := Ptr.allocMetric_cells mem v
  have hlen : (Ptr.allocMetric mem v).1.cells.length
      = mem.cells.length + (v.Daily.length + 2) := by
    rw [hcells]
    simp
  have hold : ∀ i, i < mem.cells.length →
      (Ptr.allocMetric mem v).1.cells[i]? = mem.cells[i]? := by
    intro i hi
    rw [hcells, List.getElem?_append_left hi]
  refine ⟨⟨le_refl _, ?_, ?_⟩, hold, ?_⟩
  · intro k a hmem
    rw [hmap] at hmem
    have := Ptr.closed_map mem hclosed k a hmem
    omega
  · intro i c hc hi p hp
    have hget := (List.getElem?_eq_some.mp hc).1
    have hi1 : i < mem.cells.length := by omega
    rw [hold i hi1] at hc
    have := Ptr.closed_cells mem hclosed i c hc p hp
    omega
  · intro i c hi hc p hp
    rw [hcells, List.getElem?_append_right hi] at hc
    have hmem := List.getElem?_mem hc
    rw [hlen]
    simp only [List.mem_cons, List.mem_append, List.mem_map, List.mem_singleton,
      List.not_mem_nil, or_false] at hmem
    rcases hmem with rfl | ⟨d, _, rfl⟩ | rfl
    · simp only [Ptr.Cell.ptrs, Option.toList_some, List.mem_singleton] at hp
      omega
    · simp [Ptr.Cell.ptrs] at hp
    · simp only [Ptr.Cell.ptrs, List.mem_filterMap, List.mem_map, List.mem_range, id] at hp
      obtain ⟨x, ⟨j, hj, rfl⟩, hx⟩ := hp
      cases hx
      omega

theorem Ptr.GetProxyMetrics_some (mem mem1 : Ptr.Memory) (name : String) (s : Nat)
    (hsnap : Ptr.GetProxyMetrics mem name = some (mem1, some s)) :
    ∃ a v, Ptr.lookup mem.map name = some a ∧ Ptr.readMetric mem a = some v
      ∧ mem1 = (Ptr.allocMetric mem v).1 ∧ s = (Ptr.allocMetric mem v).2 := by
  unfold Ptr.GetProxyMetrics at hsnap
  cases hl : Ptr.lookup mem.map name with
  | none => simp [hl] at hsnap
  | some a =>
    simp only [hl] at hsnap
    cases hv : Ptr.readMetric mem a with
    | none => simp [hv] at hsnap
    | some v =>
      simp only [hv, unmarshalMetric_marshalMetric, Option.some.injEq, Prod.mk.injEq]
        at hsnap
      exact ⟨a, v, rfl, hv, hsnap.1.symm, hsnap.2.symm⟩

/-! ## Reachable memories have no dangling pointer -/

theorem Ptr.closed_of (mem : Ptr.Memory)
    (hmap : ∀ k a, (k, a) ∈ mem.map → a < mem.cells.length)
    (hcells : ∀ (i : Nat) (c : Ptr.Cell), mem.cells[i]? = some c →
      ∀ p ∈ c.ptrs, p < mem.cells.length) :
    mem.closed = true := by
  simp only [Ptr.Memory.closed, Bool.and_eq_true, List.all_eq_true, decide_eq_true_eq]
  refine ⟨fun entry hentry => hmap entry.1 entry.2 hentry, ?_⟩
  intro c hc p hp
  obtain ⟨i, hi⟩ := List.mem_iff_getElem?.mp hc
  exact hcells i c hi p hp

theorem Ptr.write_closed (mem : Ptr.Memory) (a : Nat) (c : Ptr.Cell)
    (hclosed : mem.closed = true) (hc : ∀ p ∈ c.ptrs, p < mem.cells.length) :
    (mem.write a c).closed = true ∧ (mem.write a c).cells.length = mem.cells.length
      ∧ (mem.write a c).map = mem.map := by
  have hlen : (mem.write a c).cells.length = mem.cells.length := by
    simp [Ptr.Memory.write]
  refine ⟨Ptr.closed_of _ ?_ ?_, hlen, rfl⟩
  · intro k b hmem
    rw [hlen]
    exact Ptr.closed_map mem hclosed k b hmem
  · intro i c1 hget p hp
    rw [hlen]
    simp only [Ptr.Memory.write, List.getElem?_set] at hget
    by_cases hai : a = i
    · rw [if_pos hai] at hget
      by_cases hlt : a < mem.cells.length
      · rw [if_pos hlt] at hget
        cases hget
        exact hc p hp
      · rw [if_neg hlt] at hget
        exact absurd hget (by simp)
    · rw [if_neg hai] at hget
      exact Ptr.closed_cells mem hclosed i c1 hget p hp

theorem Ptr.alloc_closed (mem : Ptr.Memory) (c : Ptr.Cell) (hclosed : mem.closed = true)
    (hc : ∀ p ∈ c.ptrs, p < mem.cells.length + 1) :
    (mem.alloc c).1.closed = true
      ∧ (mem.alloc c).1.cells.length = mem.cells.length + 1
      ∧ (mem.alloc c).2 = mem.cells.length ∧ (mem.alloc c).1.map = mem.map := by
  have hlen : (mem.alloc c).1.cells.length = mem.cells.length + 1 := by
    simp [Ptr.Memory.alloc]
  refine ⟨Ptr.closed_of _ ?_ ?_, hlen, rfl, rfl⟩
  · intro k b hmem
    rw [hlen]
    have := Ptr.closed_map mem hclosed k b hmem
    omega
  · intro i c1 hget p hp
    rw [hlen]
    simp only [Ptr.Memory.alloc] at hget
    by_cases hlt : i < mem.cells.length
    · rw [List.getElem?_append_left hlt] at hget
      have := Ptr.closed_cells mem hclosed i c1 hget p hp
      omega
    · rw [List.getElem?_append_right (by omega)] at hget
      have hmem := List.getElem?_mem hget
      simp only [List.mem_singleton] at hmem
      subst hmem
      exact hc p hp

theorem Ptr.metric_ptr_lt (mem : Ptr.Memory) (a : Nat) (r : Ptr.MetricObj)
    (hclosed : mem.closed = true) (hr : mem.metric? a = some r) :
    ∀ arr, r.Daily.array = some arr → arr < mem.cells.length := by
  intro arr harr
  unfold Ptr.Memory.metric? at hr
  cases hc : mem.cells[a]? with
  | none => simp [hc] at hr
  | some c =>
    rw [hc] at hr
    cases c with
    | metric r1 =>
      simp only [Option.some.injEq] at hr
      subst hr
      exact Ptr.closed_cells mem hclosed a _ hc arr (by simp [Ptr.Cell.ptrs, harr])
    | stats d => simp at hr
    | array sl => simp at hr

theorem Ptr.slots_ptr_lt (mem : Ptr.Memory) (s : Ptr.Slice) (slots : List (Option Nat))
    (hclosed : mem.closed = true) (hslots : mem.slots? s = some slots) :
    ∀ p, some p ∈ slots → p < mem.cells.length := by
  intro p hp
  cases harr : s.array with
  | none =>
    simp only [Ptr.Memory.slots?, harr, Option.some.injEq] at hslots
    subst hslots
    simp at hp
  | some a =>
    simp only [Ptr.Memory.slots?, harr] at hslots
    unfold Ptr.Memory.array? at hslots
    cases hc : mem.cells[a]? with
    | none => simp [hc] at hslots
    | some c =>
      rw [hc] at hslots
      cases c with
      | array sl =>
        simp only [Option.some.injEq] at hslots
        subst hslots
        exact Ptr.closed_cells mem hclosed a _ hc p (by simp [Ptr.Cell.ptrs, hp])
      | stats d => simp at hslots
      | metric r => simp at hslots

theorem Ptr.appendPtr_closed (extra : Nat → Nat) (mem mem1 : Ptr.Memory)
    (s s1 : Ptr.Slice) (p : Nat) (hclosed : mem.closed = true)
    (hs : ∀ arr, s.array = some arr → arr < mem.cells.length)
    (hp : p < mem.cells.length)
    (h : Ptr.appendPtr extra mem s p = some (mem1, s1)) :
    mem1.closed = true ∧ mem.cells.length ≤ mem1.cells.length ∧ mem1.map = mem.map
      ∧ ∀ arr, s1.array = some arr → arr < mem1.cells.length := by
  unfold Ptr.appendPtr at h
  cases hslots : mem.slots? s with
  | none => simp [hslots] at h
  | some slots =>
    have hptr := Ptr.slots_ptr_lt mem s slots hclosed hslots
    simp only [hslots] at h
    by_cases hlt : s.len < slots.length
    · rw [if_pos hlt] at h
      cases harr : s.array with
      | none => simp [harr] at h
      | some a =>
        simp only [harr, Option.some.injEq, Prod.mk.injEq] at h
        obtain ⟨rfl, rfl⟩ := h
        have hw := Ptr.write_closed mem a (.array (slots.set s.len (some p))) hclosed (by
            intro q hq
            simp only [Ptr.Cell.ptrs, List.mem_filterMap, id] at hq
            obtain ⟨x, hx, rfl⟩ := hq
            rcases List.mem_or_eq_of_mem_set hx with h1 | h1
            · exact hptr q h1
            · cases h1
              exact hp)
        exact ⟨hw.1, by rw [hw.2.1], hw.2.2, fun arr h1 => by
          simp only [harr, Option.some.injEq] at h1
          subst h1
          rw [hw.2.1]
          exact hs _ harr⟩
    · rw [if_neg hlt] at h
      simp only [Option.some.injEq, Prod.mk.injEq] at h
      obtain ⟨rfl, rfl⟩ := h
      have ha := Ptr.alloc_closed mem
        (.array (slots.take s.len ++ [some p] ++ List.replicate (extra s.len) none))
        hclosed (by
          intro q hq
          simp only [Ptr.Cell.ptrs, List.mem_filterMap, id, List.mem_append,
            List.mem_singleton, List.mem_replicate] at hq
          obtain ⟨x, hx, rfl⟩ := hq
          rcases hx with (h1 | h1) | h1
          · have := hptr q (List.mem_of_mem_take h1)
            omega
          · cases h1
            omega
          · exact absurd h1.2 (by simp))
      exact ⟨ha.1, by rw [ha.2.1]; omega, ha.2.2.2, fun arr h1 => by
        simp only [Option.some.injEq] at h1
        subst h1
        rw [ha.2.1, ha.2.2.1]
        omega⟩

theorem Ptr.DealDailyData_closed (extra : Nat → Nat) (keepDays : Int) (now : String)
    (mem mem1 : Ptr.Memory) (s s1 : Ptr.Slice)
    (fn : DailyServerStats → DailyServerStats) (hclosed : mem.closed = true)
    (hs : ∀ arr, s.array = some arr → arr < mem.cells.length)
    (h : Ptr.DealDailyData extra keepDays now mem s fn = some (mem1, s1)) :
    mem1.closed = true ∧ mem.cells.length ≤ mem1.cells.length ∧ mem1.map = mem.map
      ∧ ∀ arr, s1.array = some arr → arr < mem1.cells.length := by
  unfold Ptr.DealDailyData at h
  simp only [] at h
  have hnew := Ptr.alloc_closed mem (.stats (fn { zeroDaily with Time := now })) hclosed
    (by simp [Ptr.Cell.ptrs])
  have hs1 : ∀ arr, s.array = some arr →
      arr < (mem.alloc (.stats (fn { zeroDaily with Time := now }))).1.cells.length := by
    intro arr harr
    have := hs arr harr
    rw [hnew.2.1]
    omega
  have hnewp : (mem.alloc (.stats (fn { zeroDaily with Time := now }))).2
      < (mem.alloc (.stats (fn { zeroDaily with Time := now }))).1.cells.length := by
    rw [hnew.2.1, hnew.2.2.1]
    omega
  by_cases hlen : s.len = 0
  · rw [if_pos hlen] at h
    have hap := Ptr.appendPtr_closed extra _ mem1 s s1 _ hnew.1 hs1 hnewp h
    exact ⟨hap.1, by have := hap.2.1; rw [hnew.2.1] at this; omega,
      hap.2.2.1.trans hnew.2.2.2, hap.2.2.2⟩
  · rw [if_neg hlen] at h
    cases hslots : mem.slots? s with
    | none => simp [hslots] at h
    | some slots =>
      have hptr := Ptr.slots_ptr_lt mem s slots hclosed hslots
      simp only [hslots] at h
      cases hlast : slots[s.len - 1]? with
      | none => simp [hlast] at h
      | some slot =>
        cases slot with
        | none => simp [hlast] at h
        | some daily =>
          simp only [hlast] at h
          cases hst : mem.stats? daily with
          | none => simp [hst] at h
          | some d =>
            simp only [hst] at h
            by_cases hday : d.Time = now
            · rw [if_pos hday] at h
              simp only [Option.some.injEq, Prod.mk.injEq] at h
              obtain ⟨rfl, rfl⟩ := h
              have hw := Ptr.write_closed mem daily (.stats (fn d)) hclosed
                (by simp [Ptr.Cell.ptrs])
              exact ⟨hw.1, by rw [hw.2.1], hw.2.2, fun arr harr => by
                rw [hw.2.1]
                exact hs arr harr⟩
            · rw [if_neg hday] at h
              by_cases hkeep : (s.len : Int) = keepDays
              · rw [if_pos hkeep] at h
                cases harr : s.array with
                | none => simp [harr] at h
                | some a =>
                  simp only [harr, Option.some.injEq, Prod.mk.injEq] at h
                  obtain ⟨rfl, rfl⟩ := h
                  have hw := Ptr.write_closed _ a
                    (.array ((Ptr.shiftSlots s.len slots).set (s.len - 1)
                      (some (mem.alloc (.stats (fn { zeroDaily with Time := now }))).2)))
                    hnew.1 (by
                      intro q hq
                      simp only [Ptr.Cell.ptrs, List.mem_filterMap, id] at hq
                      obtain ⟨x, hx, rfl⟩ := hq
                      rcases List.mem_or_eq_of_mem_set hx with h1 | h1
                      · have := hptr q (Ptr.mem_shiftSlots _ _ _ h1)
                        rw [hnew.2.1]
                        omega
                      · cases h1
                        exact hnewp)
                  exact ⟨hw.1, by rw [hw.2.1, hnew.2.1]; omega, hw.2.2.trans hnew.2.2.2,
                    fun arr h1 => by
                      rw [hw.2.1]
                      exact hs1 arr h1⟩
              · rw [if_neg hkeep] at h
                have hap := Ptr.appendPtr_closed extra _ mem1 s s1 _ hnew.1 hs1 hnewp h
                exact ⟨hap.1, by have := hap.2.1; rw [hnew.2.1] at this; omega,
                  hap.2.2.1.trans hnew.2.2.2, hap.2.2.2⟩

theorem Ptr.closed_with_map (mem : Ptr.Memory) (map : List (String × Nat))
    (hclosed : mem.closed = true) (hmap : ∀ k a, (k, a) ∈ map → a < mem.cells.length) :
    ({ mem with map := map } : Ptr.Memory).closed = true :=
  Ptr.closed_of _ hmap (fun i c hc p hp => Ptr.closed_cells mem hclosed i c hc p hp)

theorem Ptr.metric_write_closed (mem : Ptr.Memory) (metric : Nat) (r r1 : Ptr.MetricObj)
    (hclosed : mem.closed = true) (hr : mem.metric? metric = some r)
    (hdaily : r1.Daily = r.Daily) :
    (mem.write metric (.metric r1)).closed = true
      ∧ (mem.write metric (.metric r1)).cells.length = mem.cells.length := by
  have hw := Ptr.write_closed mem metric (.metric r1) hclosed (by
    intro p hp
    simp only [Ptr.Cell.ptrs, Option.mem_toList, Option.mem_def, hdaily] at hp
    exact Ptr.metric_ptr_lt mem metric r hclosed hr p hp)
  exact ⟨hw.1, hw.2.1⟩

theorem Ptr.SetProxyInfo_closed (mem mem1 : Ptr.Memory)
    (name proxyType bindAddr : String) (useEncryption useGzip privilegeMode : Bool)
    (customDomains : List String) (listenPort : Int) (hclosed : mem.closed = true)
    (h : Ptr.SetProxyInfo mem name proxyType bindAddr useEncryption useGzip privilegeMode
      customDomains listenPort = some mem1) : mem1.closed = true := by
  unfold Ptr.SetProxyInfo at h
  cases hl : Ptr.lookup mem.map name with
  | some info =>
    have hinfo := Ptr.closed_map mem hclosed name info (Ptr.lookup_mem _ _ _ hl)
    simp only [hl] at h
    cases hr : mem.metric? info with
    | none => simp [hr] at h
    | some r =>
      simp only [hr, Option.some.injEq] at h
      subst h
      have hw := Ptr.metric_write_closed mem info r
        { r with
          Name := name, ProxyType := proxyType, UseEncryption := useEncryption,
          UseGzip := useGzip, PrivilegeMode := privilegeMode, BindAddr := bindAddr,
          ListenPort := listenPort, CustomDomains := customDomains } hclosed hr rfl
      refine Ptr.closed_with_map _ _ hw.1 ?_
      intro k a hmem
      rw [hw.2]
      rcases Ptr.mem_insert _ _ _ _ _ hmem with ⟨_, rfl⟩ | hold
      · exact hinfo
      · exact Ptr.closed_map mem hclosed k a hold
  | none =>
    simp only [hl, Option.some.injEq] at h
    subst h
    have ha := Ptr.alloc_closed mem (.metric
      { Name := name, ProxyType := proxyType, BindAddr := bindAddr,
        ListenPort := listenPort, CustomDomains := customDomains, Status := "",
        UseEncryption := useEncryption, UseGzip := useGzip,
        PrivilegeMode := privilegeMode, CurrentConns := 0,
        Daily := { array := none, len := 0 } }) hclosed (by simp [Ptr.Cell.ptrs])
    refine Ptr.closed_with_map _ _ ha.1 ?_
    intro k a hmem
    rw [ha.2.1]
    rcases Ptr.mem_insert _ _ _ _ _ hmem with ⟨_, rfl⟩ | hold
    · rw [ha.2.2.1]
      omega
    · have := Ptr.closed_map mem hclosed k a hold
      omega

theorem Ptr.SetStatus_closed (statusStr : List String) (mem mem1 : Ptr.Memory)
    (name : String) (status : Int) (hclosed : mem.closed = true)
    (h : Ptr.SetStatus statusStr mem name status = some mem1) : mem1.closed = true := by
  unfold Ptr.SetStatus at h
  cases hl : Ptr.lookup mem.map name with
  | none =>
    simp only [hl, Option.some.injEq] at h
    subst h
    exact hclosed
  | some metric =>
    simp only [hl] at h
    cases hr : mem.metric? metric with
    | none => simp [hr] at h
    | some r =>
      cases hlabel : statusLabel statusStr status with
      | none => simp [hr, hlabel] at h
      | some label =>
        simp only [hr, hlabel, Option.some.injEq] at h
        subst h
        exact (Ptr.metric_write_closed mem metric r { r with Status := label } hclosed hr
          rfl).1

theorem Ptr.CloseConnection_closed (mem mem1 : Ptr.Memory) (name : String)
    (hclosed : mem.closed = true) (h : Ptr.CloseConnection mem name = some mem1) :
    mem1.closed = true := by
  unfold Ptr.CloseConnection at h
  cases hl : Ptr.lookup mem.map name with
  | none =>
    simp only [hl, Option.some.injEq] at h
    subst h
    exact hclosed
  | some metric =>
    simp only [hl] at h
    cases hr : mem.metric? metric with
    | none => simp [hr] at h
    | some r =>
      simp only [hr, Option.some.injEq] at h
      subst h
      exact (Ptr.metric_write_closed mem metric r
        { r with CurrentConns := wrap64 (r.CurrentConns - 1) } hclosed hr rfl).1

theorem Ptr.deal_write_closed (extra : Nat → Nat) (keepDays : Int) (now : String)
    (mem mem2 : Ptr.Memory) (metric : Nat) (r : Ptr.MetricObj) (daily : Ptr.Slice)
    (fn : DailyServerStats → DailyServerStats) (hclosed : mem.closed = true)
    (hr : ∀ arr, r.Daily.array = some arr → arr < mem.cells.length)
    (h : Ptr.DealDailyData extra keepDays now mem r.Daily fn = some (mem2, daily)) :
    (mem2.write metric (.metric { r with Daily := daily })).closed = true := by
  have hd := Ptr.DealDailyData_closed extra keepDays now mem mem2 r.Daily daily fn hclosed
    hr h
  exact (Ptr.write_closed mem2 metric (.metric { r with Daily := daily }) hd.1 (by
    intro p hp
    simp only [Ptr.Cell.ptrs, Option.mem_toList, Option.mem_def] at hp
    exact hd.2.2.2 p hp)).1

theorem Ptr.OpenConnection_closed (extra : Nat → Nat) (keepDays : Int) (now : String)
    (mem mem1 : Ptr.Memory) (name : String) (hclosed : mem.closed = true)
    (h : Ptr.OpenConnection extra keepDays now mem name = some mem1) :
    mem1.closed = true := by
  unfold Ptr.OpenConnection at h
  cases hl : Ptr.lookup mem.map name with
  | none =>
    simp only [hl, Option.some.injEq] at h
    subst h
    exact hclosed
  | some metric =>
    simp only [hl] at h
    cases hr : mem.metric? metric with
    | none => simp [hr] at h
    | some r =>
      simp only [hr] at h
      have hptr := Ptr.metric_ptr_lt mem metric r hclosed hr
      have hw := Ptr.metric_write_closed mem metric r
        { r with CurrentConns := wrap64 (r.CurrentConns + 1) } hclosed hr rfl
      cases hd : Ptr.DealDailyData extra keepDays now
          (mem.write metric (.metric { r with CurrentConns := wrap64 (r.CurrentConns + 1) }))
          r.Daily incAccept with
      | none => simp [hd] at h
      | some res =>
        obtain ⟨mem2, daily⟩ := res
        simp only [hd, Option.some.injEq] at h
        subst h
        exact Ptr.deal_write_closed extra keepDays now _ mem2 metric
          { r with CurrentConns := wrap64 (r.CurrentConns + 1) } daily incAccept hw.1
          (fun arr harr => by rw [hw.2]; exact hptr arr harr) hd

theorem Ptr.AddFlowIn_closed (extra : Nat → Nat) (keepDays : Int) (now : String)
    (mem mem1 : Ptr.Memory) (name : String) (value : Int) (hclosed : mem.closed = true)
    (h : Ptr.AddFlowIn extra keepDays now mem name value = some mem1) :
    mem1.closed = true := by
  unfold Ptr.AddFlowIn at h
  cases hl : Ptr.lookup mem.map name with
  | none =>
    simp only [hl, Option.some.injEq] at h
    subst h
    exact hclosed
  | some metric =>
    simp only [hl] at h
    cases hr : mem.metric? metric with
    | none => simp [hr] at h
    | some r =>
      simp only [hr] at h
      cases hd : Ptr.DealDailyData extra keepDays now mem r.Daily (addIn value) with
      | none => simp [hd] at h
      | some res =>
        obtain ⟨mem2, daily⟩ := res
        simp only [hd, Option.some.injEq] at h
        subst h
        exact Ptr.deal_write_closed extra keepDays now mem mem2 metric r daily
          (addIn value) hclosed (Ptr.metric_ptr_lt mem metric r hclosed hr) hd

theorem Ptr.AddFlowOut_closed (extra : Nat → Nat) (keepDays : Int) (now : String)
    (mem mem1 : Ptr.Memory) (name : String) (value : Int) (hclosed : mem.closed = true)
    (h : Ptr.AddFlowOut extra keepDays now mem name value = some mem1) :
    mem1.closed = true := by
  unfold Ptr.AddFlowOut at h
  cases hl : Ptr.lookup mem.map name with
  | none =>
    simp only [hl, Option.some.injEq] at h
    subst h
    exact hclosed
  | some metric =>
    simp only [hl] at h
    cases hr : mem.metric? metric with
    | none => simp [hr] at h
    | some r =>
      simp only [hr] at h
      cases hd : Ptr.DealDailyData extra keepDays now mem r.Daily (addOut value) with
      | none => simp [hd] at h
      | some res =>
        obtain ⟨mem2, daily⟩ := res
        simp only [hd, Option.some.injEq] at h
        subst h
        exact Ptr.deal_write_closed extra keepDays now mem mem2 metric r daily
          (addOut value) hclosed (Ptr.metric_ptr_lt mem metric r hclosed hr) hd

theorem Ptr.step_closed (extra : Nat → Nat) (keepDays : Int) (statusStr : List String)
    (mem mem1 : Ptr.Memory) (c : Call) (hclosed : mem.closed = true)
    (h : Ptr.step extra keepDays statusStr mem c = some mem1) : mem1.closed = true := by
  cases c with
  | setProxyInfo n t b e g p cd l =>
    exact Ptr.SetProxyInfo_closed mem mem1 n t b e g p cd l hclosed h
  | setStatus n st => exact Ptr.SetStatus_closed statusStr mem mem1 n st hclosed h
  | openConnection now n =>
    exact Ptr.OpenConnection_closed extra keepDays now mem mem1 n hclosed h
  | closeConnection n => exact Ptr.CloseConnection_closed mem mem1 n hclosed h
  | addFlowIn now n v => exact Ptr.AddFlowIn_closed extra keepDays now mem mem1 n v hclosed h
  | addFlowOut now n v =>
    exact Ptr.AddFlowOut_closed extra keepDays now mem mem1 n v hclosed h

theorem Ptr.run_closed (extra : Nat → Nat) (keepDays : Int) (statusStr : List String)
    (cs : List Call) (mem mem1 : Ptr.Memory) (hclosed : mem.closed = true)
    (h : Ptr.run extra keepDays statusStr mem cs = some mem1) : mem1.closed = true := by
  induction cs generalizing mem with
  | nil =>
    simp only [Ptr.run, Option.some.injEq] at h
    subst h
    exact hclosed
  | cons c cs ih =>
    simp only [Ptr.run] at h
    cases hs : Ptr.step extra keepDays statusStr mem c with
    | none => simp [hs] at h
    | some m =>
      rw [hs] at h
      exact ih m (Ptr.step_closed extra keepDays statusStr mem m c hclosed hs) h

theorem Ptr.GetProxyMetrics_closed (mem mem1 : Ptr.Memory) (name : String)
    (res : Option Nat) (hclosed : mem.closed = true)
    (h : Ptr.GetProxyMetrics mem name = some (mem1, res)) : mem1.closed = true := by
  unfold Ptr.GetProxyMetrics at h
  cases hl : Ptr.lookup mem.map name with
  | none =>
    simp only [hl, Option.some.injEq, Prod.mk.injEq] at h
    rw [← h.1]
    exact hclosed
  | some a =>
    simp only [hl] at h
    cases hv : Ptr.readMetric mem a with
    | none => simp [hv] at h
    | some v =>
      simp only [hv, unmarshalMetric_marshalMetric, Option.some.injEq, Prod.mk.injEq] at h
      rw [← h.1]
      obtain ⟨hsep, hold, hblock⟩ := Ptr.allocMetric_sep mem v hclosed
      obtain ⟨hcells, _, hmap⟩ := Ptr.allocMetric_cells mem v
      have hlen : mem.cells.length ≤ (Ptr.allocMetric mem v).1.cells.length := by
        rw [hcells]
        simp
      refine Ptr.closed_of _ ?_ ?_
      · intro k b hmem
        rw [hmap] at hmem
        have := Ptr.closed_map mem hclosed k b hmem
        omega
      · intro i c hc p hp
        by_cases hi : i < mem.cells.length
        · rw [hold i hi] at hc
          have := Ptr.closed_cells mem hclosed i c hc p hp
          omega
        · exact (hblock i c (by omega) hc p hp).2

/-- The two embeddings on one sequence of calls with appends in place and in a new
array, a same-day update and a rotation at capacity 2: the record read through the
pointers is the record of the embedding on values. -/
theorem embeddings_agree_on_rotation :
    ∃ reg mem a,
      run 2 sampleStatusStr emptyRegistry
          [.setProxyInfo "p" "tcp" "0.0.0.0" false false true ["p.example"] 80,
            .openConnection "20240101" "p", .addFlowIn "20240101" "p" 5,
            .addFlowOut "20240102" "p" 6, .openConnection "20240103" "p",
            .setStatus "p" 1, .closeConnection "p", .addFlowIn "20240104" "p" 7] = some reg
        ∧ Ptr.run (fun n => n) 2 sampleStatusStr Ptr.Memory.empty
          [.setProxyInfo "p" "tcp" "0.0.0.0" false false true ["p.example"] 80,
            .openConnection "20240101" "p", .addFlowIn "20240101" "p" 5,
            .addFlowOut "20240102" "p" 6, .openConnection "20240103" "p",
            .setStatus "p" 1, .closeConnection "p", .addFlowIn "20240104" "p" 7] = some mem
        ∧ Ptr.lookup mem.map "p" = some a
        ∧ Ptr.readMetric mem a = mapGet reg "p"
        ∧ (mapGet reg "p").map (fun m => m.Daily.map (fun d => d.Time))
            = some ["20240103", "20240104"] :=
  ⟨_, _, _, rfl, rfl, rfl, rfl, rfl⟩

/-! ## Lemmas on the cells reached from a pointer -/

theorem Ptr.metric_cell (mem : Ptr.Memory) (a : Nat) (r : Ptr.MetricObj)
    (h : mem.metric? a = some r) : mem.cells[a]? = some (.metric r) := by
  unfold Ptr.Memory.metric? at h
  cases hc : mem.cells[a]? with
  | none => simp [hc] at h
  | some c =>
    rw [hc] at h
    cases c with
    | metric r1 =>
      simp only [Option.some.injEq] at h
      rw [h]
    | stats d => simp at h
    | array sl => simp at h

theorem Ptr.array_cell (mem : Ptr.Memory) (a : Nat) (slots : List (Option Nat))
    (h : mem.array? a = some slots) : mem.cells[a]? = some (.array slots) := by
  unfold Ptr.Memory.array? at h
  cases hc : mem.cells[a]? with
  | none => simp [hc] at h
  | some c =>
    rw [hc] at h
    cases c with
    | array sl =>
      simp only [Option.some.injEq] at h
      rw [h]
    | stats d => simp at h
    | metric r1 => simp at h

theorem Ptr.reach_closed (mem : Ptr.Memory) (P : Nat → Prop) (a : Nat)
    (hP : ∀ i c, P i → mem.cells[i]? = some c → ∀ p ∈ c.ptrs, P p) (ha : P a) :
    ∀ i ∈ Ptr.reach mem a, P i := by
  intro i hi
  unfold Ptr.reach at hi
  cases hr : mem.metric? a with
  | none =>
    simp only [hr, List.mem_singleton] at hi
    rw [hi]
    exact ha
  | some r =>
    have hcell := Ptr.metric_cell mem a r hr
    cases harr : r.Daily.array with
    | none =>
      simp only [hr, harr, List.mem_singleton] at hi
      rw [hi]
      exact ha
    | some arr =>
      have hParr : P arr := hP a _ ha hcell arr (by simp [Ptr.Cell.ptrs, harr])
      cases hs : mem.array? arr with
      | none =>
        simp only [hr, harr, hs, List.mem_cons, List.mem_singleton, List.not_mem_nil,
          or_false] at hi
        rcases hi with rfl | rfl
        · exact ha
        · exact hParr
      | some slots =>
        have hcellarr := Ptr.array_cell mem arr slots hs
        simp only [hr, harr, hs, List.mem_cons] at hi
        rcases hi with rfl | rfl | hi
        · exact ha
        · exact hParr
        · exact hP arr _ hParr hcellarr i (by simpa [Ptr.Cell.ptrs] using hi)

theorem Ptr.reach_agree (mem mem1 : Ptr.Memory) (P : Nat → Prop) (a : Nat)
    (hagree : ∀ i, P i → mem1.cells[i]? = mem.cells[i]?)
    (hP : ∀ i c, P i → mem.cells[i]? = some c → ∀ p ∈ c.ptrs, P p) (ha : P a) :
    Ptr.reach mem1 a = Ptr.reach mem a := by
  have hmetric : mem1.metric? a = mem.metric? a := by
    unfold Ptr.Memory.metric?
    rw [hagree a ha]
  unfold Ptr.reach
  rw [hmetric]
  cases hr : mem.metric? a with
  | none => rfl
  | some r =>
    have hcell := Ptr.metric_cell mem a r hr
    cases harr : r.Daily.array with
    | none => simp only [harr]
    | some arr =>
      have hParr : P arr := hP a _ ha hcell arr (by simp [Ptr.Cell.ptrs, harr])
      have harray : mem1.array? arr = mem.array? arr := by
        unfold Ptr.Memory.array?
        rw [hagree arr hParr]
      simp only [harr, harray]

theorem Ptr.reach_of_map (lo hi : Nat) (mem : Ptr.Memory) (hsep : Ptr.Sep lo hi mem)
    (k : String) (b : Nat) (hmem : (k, b) ∈ mem.map) :
    ∀ i ∈ Ptr.reach mem b, ¬ (lo ≤ i ∧ i < hi) :=
  Ptr.reach_closed mem (fun i => ¬ (lo ≤ i ∧ i < hi)) b
    (fun i c hi hc p hp => hsep.cells i c hc hi p hp) (hsep.map k b hmem)

/-! ## Snapshot independence -/

/-- Claim C15. Snapshot independence, on the memory with pointers. In a memory without
dangling pointer, let `GetProxyMetrics(name)` return the pointer `s`. Then `s` leads to
a copy of the record of `name`. Every cell reached from `s` (the record `S`, the backing
array of `S.Daily`, the buckets it points to) was allocated by the call, and no cell
reached from a pointer of the registry is reached from `s`. After any sequence of
mutator calls the cells reached from `s` are the same cells with the same contents, `s`
still leads to the same value, and still no cell reached from the registry is reached
from `s`. A modification of `S` is any change of memory confined to the cells reached
from `s` and to newly allocated cells (any store through `s`, such as a change of a
field of `S`, of an entry of `S.Daily` or of the bucket it points to, or an append to
`S.Daily`, in place or into a new array). Made after any sequence of mutator calls, it
leaves the result of `GetProxyMetrics` unchanged for every name: the call returns a copy
of the value it returns without the modification. Made right after the snapshot, a new
`GetProxyMetrics(name)` returns a copy of the value of `S`. Every memory reached from
the empty one by mutator calls is without dangling pointer. In particular after
`SetProxyInfo(p)`, `OpenConnection(p)`, `S := GetProxyMetrics(p)`, `OpenConnection(p)`,
the snapshot `S` has `CurrentConns = 1` and a new snapshot has `CurrentConns = 2`; and
when, right after `S := GetProxyMetrics(p)`, the bucket `S.Daily[0]` is overwritten
through `S`, the snapshot `S` has changed and a new snapshot is still a copy of the
record of `p`. -/
theorem snapshot_independence :
    (∀ (mem mem1 : Ptr.Memory) (name : String) (s : Nat), mem.closed = true →
        Ptr.GetProxyMetrics mem name = some (mem1, some s) →
        ∃ a v, Ptr.lookup mem.map name = some a ∧ Ptr.readMetric mem a = some v
          ∧ Ptr.readMetric mem1 s = some v
          ∧ (∀ i ∈ Ptr.reach mem1 s, mem.cells.length ≤ i ∧ i < mem1.cells.length)
          ∧ (∀ k b, (k, b) ∈ mem1.map → ∀ i ∈ Ptr.reach mem1 b, i ∉ Ptr.reach mem1 s)
          ∧ (∀ extra keepDays statusStr calls mem2,
              Ptr.run extra keepDays statusStr mem1 calls = some mem2 →
              Ptr.readMetric mem2 s = some v
                ∧ Ptr.reach mem2 s = Ptr.reach mem1 s
                ∧ (∀ i ∈ Ptr.reach mem1 s, mem2.cells[i]? = mem1.cells[i]?)
                ∧ (∀ k b, (k, b) ∈ mem2.map →
                    ∀ i ∈ Ptr.reach mem2 b, i ∉ Ptr.reach mem2 s)
                ∧ (∀ mem3 : Ptr.Memory, mem3.map = mem2.map →
                    (∀ i, i < mem2.cells.length → i ∉ Ptr.reach mem2 s →
                      mem3.cells[i]? = mem2.cells[i]?) →
                    ∀ other m t w, Ptr.GetProxyMetrics mem2 other = some (m, some t) →
                      Ptr.readMetric m t = some w →
                      ∃ mem4 s4, Ptr.GetProxyMetrics mem3 other = some (mem4, some s4)
                        ∧ Ptr.readMetric mem4 s4 = some w))
          ∧ (∀ mem3 : Ptr.Memory, mem3.map = mem1.map →
              (∀ i, i < mem1.cells.length → i ∉ Ptr.reach mem1 s →
                mem3.cells[i]? = mem1.cells[i]?) →
              ∃ mem4 s4, Ptr.GetProxyMetrics mem3 name = some (mem4, some s4)
                ∧ Ptr.readMetric mem4 s4 = some v))
      ∧ (∀ extra keepDays statusStr calls mem,
          Ptr.run extra keepDays statusStr Ptr.Memory.empty calls = some mem →
          mem.closed = true)
      ∧ (∃ m1 m2 s m3 vS m4 s4 v4,
          Ptr.run (fun n => n) 7 sampleStatusStr Ptr.Memory.empty
              [.setProxyInfo "p" "tcp" "0.0.0.0" false false true [] 80,
                .openConnection "20240101" "p"] = some m1
            ∧ Ptr.GetProxyMetrics m1 "p" = some (m2, some s)
            ∧ Ptr.run (fun n => n) 7 sampleStatusStr m2 [.openConnection "20240101" "p"]
                = some m3
            ∧ Ptr.readMetric m3 s = some vS ∧ vS.CurrentConns = 1
            ∧ Ptr.GetProxyMetrics m3 "p" = some (m4, some s4)
            ∧ Ptr.readMetric m4 s4 = some v4 ∧ v4.CurrentConns = 2)
      ∧ (∃ m5 s5 v5, Ptr.reach Ptr.sampleSnapshotMemory 3 = [3, 5, 4]
            ∧ Ptr.readMetric (Ptr.sampleSnapshotMemory.write 4 (.stats ⟨"20240101", 99, 0, 1⟩)) 3
                ≠ Ptr.readMetric Ptr.sampleSnapshotMemory 3
            ∧ Ptr.GetProxyMetrics
                (Ptr.sampleSnapshotMemory.write 4 (.stats ⟨"20240101", 99, 0, 1⟩)) "p"
                = some (m5, some s5)
            ∧ Ptr.readMetric m5 s5 = some v5
            ∧ Ptr.readMetric Ptr.sampleMemory 0 = some v5) := by
  refine ⟨?_, ?_, ?_, ?_⟩
  · intro mem mem1 name s hclosed hsnap
    have hclosed1 := Ptr.GetProxyMetrics_closed mem mem1 name (some s) hclosed hsnap
    obtain ⟨a, v, hl, hv, rfl, rfl⟩ := Ptr.GetProxyMetrics_some mem mem1 name s hsnap
    obtain ⟨hsep, hold, hblock⟩ := Ptr.allocMetric_sep mem v hclosed
    obtain ⟨hcells, haddr, hmap⟩ := Ptr.allocMetric_cells mem v
    have hread := Ptr.readMetric_allocMetric mem v
    have hlen : mem.cells.length < (Ptr.allocMetric mem v).1.cells.length := by
      rw [hcells]
      simp
    have hs : mem.cells.length ≤ (Ptr.allocMetric mem v).2
        ∧ (Ptr.allocMetric mem v).2 < (Ptr.allocMetric mem v).1.cells.length :=
      ⟨by rw [haddr], by rw [haddr]; exact hlen⟩
    have hreach : ∀ i ∈ Ptr.reach (Ptr.allocMetric mem v).1 (Ptr.allocMetric mem v).2,
        mem.cells.length ≤ i ∧ i < (Ptr.allocMetric mem v).1.cells.length :=
      Ptr.reach_closed (Ptr.allocMetric mem v).1
        (fun i => mem.cells.length ≤ i ∧ i < (Ptr.allocMetric mem v).1.cells.length) _
        (fun i c hi hc p hp => hblock i c hi.1 hc p hp) hs
    refine ⟨a, v, hl, hv, hread, hreach, ?_, ?_, ?_⟩
    · intro k b hmem i hi hin
      exact Ptr.reach_of_map _ _ _ hsep k b hmem i hi (hreach i hin)
    · intro extra keepDays statusStr calls mem2 hrun
      obtain ⟨hsep2, hsame⟩ := Ptr.run_sep _ _ extra keepDays statusStr calls _ mem2 hsep hrun
      have hreach2 : Ptr.reach mem2 (Ptr.allocMetric mem v).2
          = Ptr.reach (Ptr.allocMetric mem v).1 (Ptr.allocMetric mem v).2 :=
        Ptr.reach_agree (Ptr.allocMetric mem v).1 mem2
          (fun i => mem.cells.length ≤ i ∧ i < (Ptr.allocMetric mem v).1.cells.length) _
          (fun i hi => hsame i hi.1 hi.2) (fun i c hi hc p hp => hblock i c hi.1 hc p hp) hs
      have hclosed2 := Ptr.run_closed extra keepDays statusStr calls _ mem2 hclosed1 hrun
      refine ⟨?_, hreach2, ?_, ?_, ?_⟩
      · rw [← hread]
        exact Ptr.readMetric_agree (Ptr.allocMetric mem v).1 mem2
          (fun i => mem.cells.length ≤ i ∧ i < (Ptr.allocMetric mem v).1.cells.length) _
          (fun i hi => hsame i hi.1 hi.2) (fun i c hi hc p hp => hblock i c hi.1 hc p hp) hs
      · intro i hi
        exact hsame i (hreach i hi).1 (hreach i hi).2
      · intro k b hmem i hi hin
        rw [hreach2] at hin
        exact Ptr.reach_of_map _ _ _ hsep2 k b hmem i hi (hreach i hin)
      · intro mem3 hmap3 hcells3 other m t w hsnap2 hw
        obtain ⟨b, w1, hl2, hv2, rfl, rfl⟩ := Ptr.GetProxyMetrics_some mem2 m other t hsnap2
        rw [Ptr.readMetric_allocMetric mem2 w1, Option.some.injEq] at hw
        subst hw
        have hb := Ptr.lookup_mem _ _ _ hl2
        have hread3 : Ptr.readMetric mem3 b = some w1 := by
          rw [← hv2]
          exact Ptr.readMetric_agree mem2 mem3
            (fun i => i < mem2.cells.length
              ∧ ¬ (mem.cells.length ≤ i ∧ i < (Ptr.allocMetric mem v).1.cells.length)) b
            (fun i hi => hcells3 i hi.1 (fun hin => by
              rw [hreach2] at hin
              exact hi.2 (hreach i hin)))
            (fun i c hi hc p hp =>
              ⟨Ptr.closed_cells mem2 hclosed2 i c hc p hp, hsep2.cells i c hc hi.2 p hp⟩)
            ⟨Ptr.closed_map mem2 hclosed2 other b hb, hsep2.map other b hb⟩
        refine ⟨(Ptr.allocMetric mem3 w1).1, (Ptr.allocMetric mem3 w1).2, ?_,
          Ptr.readMetric_allocMetric mem3 w1⟩
        simp [Ptr.GetProxyMetrics, hmap3, hl2, hread3, unmarshalMetric_marshalMetric]
    · intro mem3 hmap3 hcells3
      have ha : a < mem.cells.length :=
        Ptr.closed_map mem hclosed name a (Ptr.lookup_mem _ _ _ hl)
      have hread3 : Ptr.readMetric mem3 a = some v := by
        rw [← hv]
        exact Ptr.readMetric_agree mem mem3 (fun i => i < mem.cells.length) a
          (fun i hi => (hcells3 i (by omega)
            (fun hin => by have := (hreach i hin).1; omega)).trans (hold i hi))
          (fun i c _ hc p hp => Ptr.closed_cells mem hclosed i c hc p hp) ha
      refine ⟨(Ptr.allocMetric mem3 v).1, (Ptr.allocMetric mem3 v).2, ?_,
        Ptr.readMetric_allocMetric mem3 v⟩
      simp [Ptr.GetProxyMetrics, hmap3, hmap, hl, hread3, unmarshalMetric_marshalMetric]
  · intro extra keepDays statusStr calls mem hrun
    exact Ptr.run_closed extra keepDays statusStr calls Ptr.Memory.empty mem (by decide) hrun
  · exact ⟨Ptr.sampleMemory, Ptr.sampleSnapshotMemory, 3, _, _, _, _, _,
      by decide, by decide, rfl, rfl, by decide, rfl, rfl, by decide⟩
  · exact ⟨_, _, _, by decide, by decide, rfl, rfl, rfl⟩

/-- The general statement at the memory of the scenario: `p` registered with one
connection and one bucket, the snapshot at address 3. -/
theorem snapshot_independence_witness :
    ∃ a v, Ptr.lookup Ptr.sampleMemory.map "p" = some a
      ∧ Ptr.readMetric Ptr.sampleMemory a = some v
      ∧ Ptr.readMetric Ptr.sampleSnapshotMemory 3 = some v
      ∧ (∀ i ∈ Ptr.reach Ptr.sampleSnapshotMemory 3,
          Ptr.sampleMemory.cells.length ≤ i ∧ i < Ptr.sampleSnapshotMemory.cells.length)
      ∧ (∀ k b, (k, b) ∈ Ptr.sampleSnapshotMemory.map →
          ∀ i ∈ Ptr.reach Ptr.sampleSnapshotMemory b,
            i ∉ Ptr.reach Ptr.sampleSnapshotMemory 3)
      ∧ (∀ extra keepDays statusStr calls mem2,
          Ptr.run extra keepDays statusStr Ptr.sampleSnapshotMemory calls = some mem2 →
          Ptr.readMetric mem2 3 = some v
            ∧ Ptr.reach mem2 3 = Ptr.reach Ptr.sampleSnapshotMemory 3
            ∧ (∀ i ∈ Ptr.reach Ptr.sampleSnapshotMemory 3,
                mem2.cells[i]? = Ptr.sampleSnapshotMemory.cells[i]?)
            ∧ (∀ k b, (k, b) ∈ mem2.map →
                ∀ i ∈ Ptr.reach mem2 b, i ∉ Ptr.reach mem2 3)
            ∧ (∀ mem3 : Ptr.Memory, mem3.map = mem2.map →
                (∀ i, i < mem2.cells.length → i ∉ Ptr.reach mem2 3 →
                  mem3.cells[i]? = mem2.cells[i]?) →
                ∀ other m t w, Ptr.GetProxyMetrics mem2 other = some (m, some t) →
                  Ptr.readMetric m t = some w →
                  ∃ mem4 s4, Ptr.GetProxyMetrics mem3 other = some (mem4, some s4)
                    ∧ Ptr.readMetric mem4 s4 = some w))
      ∧ (∀ mem3 : Ptr.Memory, mem3.map = Ptr.sampleSnapshotMemory.map →
          (∀ i, i < Ptr.sampleSnapshotMemory.cells.length →
            i ∉ Ptr.reach Ptr.sampleSnapshotMemory 3 →
            mem3.cells[i]? = Ptr.sampleSnapshotMemory.cells[i]?) →
          ∃ mem4 s4, Ptr.GetProxyMetrics mem3 "p" = some (mem4, some s4)
            ∧ Ptr.readMetric mem4 s4 = some v) :=
  snapshot_independence.1 Ptr.sampleMemory Ptr.sampleSnapshotMemory "p" 3 (by decide)
    (by decide)

end Metric
